import Mathlib

/-!
# The s2i Go demo HTTP service

A shallow embedding of `main.go`: the four handlers, the listen address computed by
`main`, and the routes registered on the default multiplexer, together with the parts of
the Go standard library they call (`os.Getenv`, `net/http` response writing and
`ServeMux` dispatch, `encoding/json` encoding, `time.Duration` rounding and printing,
`time.Time` formatting).

Go strings are byte sequences; the handlers never inspect the request, the process
environment is an explicit map, and the clock is an explicit reading.
-/

namespace S2iGo

/-! ## Strings -/

/-- A Go `string`: an immutable sequence of bytes (every element is a byte value). -/
abbrev GoString := List Nat

/-- UTF-8 encoding of one code point (`utf8.AppendRune`); surrogates and values beyond
U+10FFFF are encoded as U+FFFD. -/
def encodeRune (r : Nat) : GoString :=
  if r ≤ 0x7F then [r]
  else if r ≤ 0x7FF then [0xC0 + r / 64, 0x80 + r % 64]
  else if 0x10FFFF < r ∨ (0xD800 ≤ r ∧ r ≤ 0xDFFF) then [0xEF, 0xBF, 0xBD]
  else if r ≤ 0xFFFF then [0xE0 + r / 4096, 0x80 + r / 64 % 64, 0x80 + r % 64]
  else [0xF0 + r / 262144, 0x80 + r / 4096 % 64, 0x80 + r / 64 % 64, 0x80 + r % 64]

/-- The bytes of a Go string literal: the UTF-8 encoding of its source text. -/
def lit (s : String) : GoString :=
  s.data.flatMap fun c => encodeRune c.toNat

/-! ## Process environment -/

/-- The process environment: a variable is unset (`none`) or has a value. -/
abbrev Env := GoString → Option GoString

/-- Go `os.Getenv`: the value of the variable, or the empty string when it is unset. -/
def Getenv (env : Env) (key : GoString) : GoString :=
  match env key with
  | some v => v
  | none => []

/-! ## Requests and response writers -/

/-- The part of an `http.Request` that routing and handlers could look at. Of the URL
there is the decoded path (`r.URL.Path`) and the path as the client sent it, percent
escapes and all (`r.URL.EscapedPath()`). -/
structure Request where
  method : GoString
  host : GoString
  urlHost : GoString
  path : GoString
  escapedPath : GoString
  header : List (GoString × GoString)
  body : GoString

/-- An `http.ResponseWriter` as the handler sees it: the header map it may still edit,
and what has been sent (status line with a snapshot of the header map, then body bytes). -/
structure ResponseWriter where
  header : List (GoString × GoString)
  status : Option Nat
  sentHeader : List (GoString × GoString)
  body : GoString

/-- A response writer on which nothing has been set or written. -/
def ResponseWriter.fresh : ResponseWriter :=
  { header := [], status := none, sentHeader := [], body := [] }

/-- Go `w.Header().Set(key, value)`: replace whatever the key was mapped to. The keys
used in `main.go` are written in canonical form already, so the canonicalisation of the
key is the identity on them. -/
def ResponseWriter.headerSet (w : ResponseWriter) (key value : GoString) : ResponseWriter :=
  { w with header := (key, value) :: w.header.filter fun kv => decide (kv.1 ≠ key) }

/-- Go `w.WriteHeader(code)`: the first call sends the status code and the header map as
it stands; later calls change nothing. -/
def ResponseWriter.WriteHeader (w : ResponseWriter) (code : Nat) : ResponseWriter :=
  match w.status with
  | some _ => w
  | none => { w with status := some code, sentHeader := w.header }

/-- Go `w.Write(data)`: sends status 200 first when no status has been sent, then appends
the bytes to the body. -/
def ResponseWriter.Write (w : ResponseWriter) (data : GoString) : ResponseWriter :=
  let w1 := w.WriteHeader 200
  { w1 with body := w1.body ++ data }

/-- The value sent for a header key, if any. -/
def ResponseWriter.sent (w : ResponseWriter) (key : GoString) : Option GoString :=
  (w.sentHeader.find? fun kv => decide (kv.1 = key)).map Prod.snd

/-- The Go constant `http.StatusOK`. -/
def StatusOK : Nat := 200

/-! ## Time values and the process -/

/-- A Go `time.Time`: wall-clock seconds since the Unix epoch and nanoseconds within the
second, the monotonic clock reading when the value carries one, and the offset (seconds
east of UTC) that the location of the value has at this instant. -/
structure Time where
  unixSec : Int
  nsec : Nat
  mono : Option Int
  offset : Int

/-- One reading of the system clocks: wall clock, monotonic clock (nanoseconds since
process start) and the offset of the local time zone at that instant. -/
structure ClockReading where
  sec : Int
  nsec : Nat
  mono : Int
  offset : Int

/-- What a handler can reach besides its arguments: the environment, the package variable
`startTime`, and the clock as read by `time.Since` and by `time.Now` in `healthHandler`. -/
structure Process where
  env : Env
  startTime : Time
  sinceClock : ClockReading
  nowClock : ClockReading

/-! ## `main`: the listen address -/

/-- The port `main` chooses: `PORT`, or "8080" when that is the empty string. -/
def mainPort (env : Env) : GoString :=
  let port := Getenv env (lit "PORT")
  if port = [] then lit "8080" else port

/-- The address `main` hands to `http.ListenAndServe`. -/
def mainListenAddr (env : Env) : GoString :=
  lit ":" ++ mainPort env

/-! ## `homeHandler` -/

/-- The page text of `homeHandler` (the raw string literal bound to `html`). -/
def homeHTML : String := "
<!DOCTYPE html>
<html>
<head>
    <title>Go S2I Application</title>
    <style>
        body \x7b
            font-family: Arial, sans-serif;
            max-width: 800px;
            margin: 50px auto;
            padding: 20px;
            background-color: #f5f5f5;
        \x7d
        .container \x7b
            background-color: white;
            padding: 30px;
            border-radius: 8px;
            box-shadow: 0 2px 4px rgba(0,0,0,0.1);
        \x7d
        h1 \x7b
            color: #333;
        \x7d
        .endpoints \x7b
            background-color: #f9f9f9;
            padding: 15px;
            border-radius: 5px;
            margin-top: 20px;
        \x7d
        .endpoint \x7b
            margin: 10px 0;
        \x7d
        a \x7b
            color: #0066cc;
            text-decoration: none;
        \x7d
        a:hover \x7b
            text-decoration: underline;
        \x7d
        .success \x7b
            color: #28a745;
            font-weight: bold;
        \x7d
    </style>
</head>
<body>
    <div class=\"container\">
        <h1>🚀 Go Application Running Successfully!</h1>
        <p class=\"success\">✓ Your OpenShift S2I Go Pipeline deployment is working!</p>
        
        <h2>Available Endpoints:</h2>
        <div class=\"endpoints\">
            <div class=\"endpoint\">
                <strong>🏠 Home:</strong> <a href=\"/\">/</a> - This page
            </div>
            <div class=\"endpoint\">
                <strong>💚 Health:</strong> <a href=\"/health\">/health</a> - Health check endpoint (JSON)
            </div>
            <div class=\"endpoint\">
                <strong>✅ Ready:</strong> <a href=\"/ready\">/ready</a> - Readiness probe endpoint (JSON)
            </div>
            <div class=\"endpoint\">
                <strong>📊 Info:</strong> <a href=\"/api/info\">/api/info</a> - Application information (JSON)
            </div>
        </div>

        <h2>About This Application:</h2>
        <p>This is a Go application built and deployed using:</p>
        <ul>
            <li>OpenShift Pipelines (Tekton)</li>
            <li>Source-to-Image (S2I) with s2i-go ClusterTask</li>
            <li>Standard Go HTTP server</li>
        </ul>
    </div>
</body>
</html>
"

/-- Go `homeHandler`. -/
def homeHandler (_p : Process) (w : ResponseWriter) (_r : Request) : ResponseWriter :=
  let w := w.headerSet (lit "Content-Type") (lit "text/html; charset=utf-8")
  w.Write (lit homeHTML)

/-! ## `unicode/utf8` decoding -/

/-- The Go constant `utf8.RuneError` (U+FFFD). -/
def RuneError : Nat := 0xFFFD

/-- The `first` table of `unicode/utf8`: information about the first byte of an encoding
(`0xF0` ASCII, `0xF1` invalid, otherwise accept-range index in the high nibble and size
in the low one). -/
def first (b : Nat) : Nat :=
  if b < 0x80 then 0xF0
  else if b < 0xC2 then 0xF1
  else if b < 0xE0 then 0x02
  else if b = 0xE0 then 0x13
  else if b < 0xED then 0x03
  else if b = 0xED then 0x23
  else if b < 0xF0 then 0x03
  else if b = 0xF0 then 0x34
  else if b < 0xF4 then 0x04
  else if b = 0xF4 then 0x44
  else 0xF1

/-- The `acceptRanges` table of `unicode/utf8`: bounds for the second byte. -/
def acceptRanges (i : Nat) : Nat × Nat :=
  match i with
  | 0 => (0x80, 0xBF)
  | 1 => (0xA0, 0xBF)
  | 2 => (0x80, 0x9F)
  | 3 => (0x90, 0xBF)
  | 4 => (0x80, 0x8F)
  | _ => (0, 0)

/-- Go `utf8.DecodeRuneInString`: the first rune of the string and its width in bytes;
`(RuneError, 1)` for an invalid encoding and `(RuneError, 0)` for the empty string. -/
def DecodeRuneInString (s : GoString) : Nat × Nat :=
  match s with
  | [] => (RuneError, 0)
  | s0 :: t =>
    let x := first s0
    if x ≥ 0xF0 then
      (if x = 0xF0 then s0 else RuneError, 1)
    else
      let sz := x % 8
      let accept := acceptRanges (x / 16)
      if s.length < sz then (RuneError, 1)
      else
        match t with
        | [] => (RuneError, 1)
        | s1 :: t1 =>
          if s1 < accept.1 ∨ accept.2 < s1 then (RuneError, 1)
          else if sz ≤ 2 then (s0 % 32 * 64 + s1 % 64, 2)
          else
            match t1 with
            | [] => (RuneError, 1)
            | s2 :: t2 =>
              if s2 < 0x80 ∨ 0xBF < s2 then (RuneError, 1)
              else if sz ≤ 3 then (s0 % 16 * 4096 + s1 % 64 * 64 + s2 % 64, 3)
              else
                match t2 with
                | [] => (RuneError, 1)
                | s3 :: _ =>
                  if s3 < 0x80 ∨ 0xBF < s3 then (RuneError, 1)
                  else (s0 % 8 * 262144 + s1 % 64 * 4096 + s2 % 64 * 64 + s3 % 64, 4)

/-! ## `encoding/json`: encoding -/

/-- The `htmlSafeSet` table of `encoding/json`: ASCII bytes written without escaping when
HTML escaping is on (the encoder default). -/
def htmlSafeSet (b : Nat) : Bool :=
  decide (0x20 ≤ b ∧ b < 0x80 ∧ b ≠ 0x22 ∧ b ≠ 0x26 ∧ b ≠ 0x3C ∧ b ≠ 0x3E ∧ b ≠ 0x5C)

/-- The digit table `hex` of `encoding/json` ("0123456789abcdef"). -/
def hex (n : Nat) : Nat :=
  if n < 10 then 48 + n else 87 + n

/-- The escape `appendString` writes for an ASCII byte outside `htmlSafeSet`. -/
def escapeASCII (b : Nat) : GoString :=
  if b = 0x5C ∨ b = 0x22 then [0x5C, b]
  else if b = 0x08 then [0x5C, 0x62]
  else if b = 0x0C then [0x5C, 0x66]
  else if b = 0x0A then [0x5C, 0x6E]
  else if b = 0x0D then [0x5C, 0x72]
  else if b = 0x09 then [0x5C, 0x74]
  else [0x5C, 0x75, 0x30, 0x30, hex (b / 16), hex (b % 16)]

/-- The loop of `appendString` (with `escapeHTML` set) over the bytes not yet handled;
the first argument bounds the number of iterations. -/
def appendStringLoop : Nat → GoString → GoString
  | 0, _ => []
  | _, [] => []
  | n + 1, b :: rest =>
    if b < 0x80 then
      (if htmlSafeSet b then [b] else escapeASCII b) ++ appendStringLoop n rest
    else
      let cs := DecodeRuneInString ((b :: rest).take 4)
      if cs.1 = RuneError ∧ cs.2 = 1 then
        [0x5C, 0x75, 0x66, 0x66, 0x66, 0x64] ++ appendStringLoop n rest
      else if cs.1 = 0x2028 ∨ cs.1 = 0x2029 then
        [0x5C, 0x75, 0x32, 0x30, 0x32, hex (cs.1 % 16)]
          ++ appendStringLoop n ((b :: rest).drop cs.2)
      else
        (b :: rest).take cs.2 ++ appendStringLoop n ((b :: rest).drop cs.2)

/-- Go `appendString` of `encoding/json` with HTML escaping: the JSON string literal for
a Go string. Every iteration consumes at least one byte, so the length bounds the loop. -/
def appendString (src : GoString) : GoString :=
  [0x22] ++ appendStringLoop src.length src ++ [0x22]

/-- The members of an object, already encoded, joined with commas. -/
def joinMembers : List (GoString × GoString) → GoString
  | [] => []
  | [(k, v)] => k ++ [0x3A] ++ v
  | (k, v) :: rest => k ++ [0x3A] ++ v ++ [0x2C] ++ joinMembers rest

/-- A JSON object text from encoded names and encoded values, in the order given. -/
def encodeObject (members : List (GoString × GoString)) : GoString :=
  [0x7B] ++ joinMembers members ++ [0x7D]

/-- How `encoding/json` writes a struct: the fields in declaration order, each under the
name of its `json` tag. -/
def encodeStruct (fields : List (GoString × GoString)) : GoString :=
  encodeObject (fields.map fun kv => (appendString kv.1, kv.2))

/-- Byte-wise `strings.Compare a b ≤ 0`. -/
def strLE : GoString → GoString → Bool
  | [], _ => true
  | _ :: _, [] => false
  | a :: as, b :: bs => if a < b then true else if b < a then false else strLE as bs

/-- Insertion of one entry into a list of map entries sorted by key. -/
def insertByKey (e : GoString × GoString) : List (GoString × GoString) → List (GoString × GoString)
  | [] => [e]
  | f :: rest => if strLE e.1 f.1 then e :: f :: rest else f :: insertByKey e rest

/-- The entries of a map sorted by key, as the encoder orders them before writing. -/
def sortByKey : List (GoString × GoString) → List (GoString × GoString)
  | [] => []
  | e :: rest => insertByKey e (sortByKey rest)

/-- How `encoding/json` writes a map with string keys: the entries sorted by key. -/
def encodeMap (entries : List (GoString × GoString)) : GoString :=
  encodeObject ((sortByKey entries).map fun kv => (appendString kv.1, kv.2))

/-- Go `json.NewEncoder(w).Encode(v)` once `v` has been marshalled: a value that
marshals is written followed by a newline; when marshalling fails nothing is written. -/
def encoderEncode (w : ResponseWriter) (marshalled : Option GoString) : ResponseWriter :=
  match marshalled with
  | some text => w.Write (text ++ [0x0A])
  | none => w

/-! ## `readyHandler` and `infoHandler` -/

/-- A value stored in the `map[string]interface{}` of `readyHandler`: a string or a
`map[string]string`. -/
inductive ReadyValue where
  | string (s : GoString)
  | stringMap (m : List (GoString × GoString))

/-- JSON text of a `map[string]string`. -/
def marshalStringMap (m : List (GoString × GoString)) : GoString :=
  encodeMap (m.map fun kv => (kv.1, appendString kv.2))

/-- JSON text of a value of the `ready` map, by its dynamic type. -/
def marshalReadyValue : ReadyValue → GoString
  | .string s => appendString s
  | .stringMap m => marshalStringMap m

/-- JSON text of a `map[string]interface{}` holding such values. -/
def marshalReadyMap (m : List (GoString × ReadyValue)) : GoString :=
  encodeMap (m.map fun kv => (kv.1, marshalReadyValue kv.2))

/-- The map literal `ready` of `readyHandler`. -/
def readyMap : List (GoString × ReadyValue) :=
  [(lit "status", .string (lit "ready")),
   (lit "checks", .stringMap [(lit "server", lit "ok")])]

/-- Go `readyHandler`. -/
def readyHandler (_p : Process) (w : ResponseWriter) (_r : Request) : ResponseWriter :=
  let w := w.headerSet (lit "Content-Type") (lit "application/json")
  let ready := readyMap
  let w := w.WriteHeader StatusOK
  encoderEncode w (some (marshalReadyMap ready))

/-- Go `AppResponse`. -/
structure AppResponse where
  Message : GoString
  Application : GoString
  Environment : GoString

/-- JSON text of an `AppResponse`. -/
def marshalAppResponse (v : AppResponse) : GoString :=
  encodeStruct [(lit "message", appendString v.Message),
                (lit "application", appendString v.Application),
                (lit "environment", appendString v.Environment)]

/-- The `AppResponse` that `infoHandler` builds. -/
def infoResponse (p : Process) : AppResponse :=
  let env := Getenv p.env (lit "ENVIRONMENT")
  let env := if env = [] then lit "development" else env
  { Message := lit "Go application built with OpenShift S2I",
    Application := lit "s2i-go-demo",
    Environment := env }

/-- Go `infoHandler`. -/
def infoHandler (p : Process) (w : ResponseWriter) (_r : Request) : ResponseWriter :=
  let w := w.headerSet (lit "Content-Type") (lit "application/json")
  let response := infoResponse p
  let w := w.WriteHeader StatusOK
  encoderEncode w (some (marshalAppResponse response))

/-! ## `time`: durations -/

/-- The value of a signed 64-bit integer holding `x` after overflow. -/
def wrapInt64 (x : Int) : Int :=
  (x + 9223372036854775808) % 18446744073709551616 - 9223372036854775808

/-- Conversion `uint64(x)` of a signed integer. -/
def toUint64 (x : Int) : Int :=
  x % 18446744073709551616

/-- The Go constant `time.Second`, in nanoseconds. -/
def Second : Int := 1000000000

/-- The unexported constant `minDuration` of package `time`. -/
def minDuration : Int := -9223372036854775808

/-- The unexported constant `maxDuration` of package `time`. -/
def maxDuration : Int := 9223372036854775807

/-- Go `subMono` of package `time`: the difference of two monotonic clock readings,
pinned to the largest or smallest duration when it does not fit. -/
def subMono (t u : Int) : Int :=
  let d := wrapInt64 (t - u)
  if d < 0 ∧ t > u then maxDuration
  else if d > 0 ∧ t < u then minDuration
  else d

/-- Seconds between the year 1 epoch of `time.Time` and the Unix epoch
(`unixToInternal`). -/
def unixToInternal : Int := 62135596800

/-- Seconds between the year 1 epoch and the year 1885 (`minWall`). -/
def minWall : Int := 59453308800

/-- Go `time.Now` on a clock reading: the value carries the monotonic reading when the
wall seconds since 1885 fit in 33 bits, and only the wall time otherwise. -/
def timeNow (c : ClockReading) : Time :=
  let sec := wrapInt64 (c.sec + (unixToInternal - minWall))
  if toUint64 sec / 8589934592 ≠ 0 then
    { unixSec := c.sec, nsec := c.nsec, mono := none, offset := c.offset }
  else
    { unixSec := c.sec, nsec := c.nsec, mono := some c.mono, offset := c.offset }

/-- Go `Time.Sub`: with monotonic readings on both sides their difference; otherwise the
difference of the wall times, where the computed `d` is kept when adding it back gives
`t` (it did not overflow) and the result is pinned to the smallest or largest duration
when it did. -/
def Time.Sub (t u : Time) : Int :=
  match t.mono, u.mono with
  | some a, some b => subMono a b
  | _, _ =>
    let exact : Int := (t.unixSec - u.unixSec) * Second + ((t.nsec : Int) - (u.nsec : Int))
    let d := wrapInt64 exact
    if d = exact then d
    else if t.unixSec < u.unixSec ∨ (t.unixSec = u.unixSec ∧ t.nsec < u.nsec) then minDuration
    else maxDuration

/-- Go `time.Since(t)` on a clock reading: the monotonic difference when `t` carries a
monotonic reading, and `time.Now().Sub(t)` otherwise. -/
def timeSince (c : ClockReading) (t : Time) : Int :=
  match t.mono with
  | some m => subMono c.mono m
  | none => (timeNow c).Sub t

/-- Go `lessThanHalf`: `x + x < y` in unsigned 64-bit arithmetic. -/
def lessThanHalf (x y : Int) : Bool :=
  decide (toUint64 (toUint64 x + toUint64 x) < toUint64 y)

/-- Go `Duration.Round`: `d` rounded to the nearest multiple of `m`, halves away from
zero; the largest or smallest duration when the result does not fit. -/
def Duration.Round (d m : Int) : Int :=
  if m ≤ 0 then d
  else
    let r := Int.tmod d m
    if d < 0 then
      let r := -r
      if lessThanHalf r m then wrapInt64 (d + r)
      else
        let d1 := wrapInt64 (d - m + r)
        if d1 < d then d1 else minDuration
    else
      if lessThanHalf r m then wrapInt64 (d - r)
      else
        let d1 := wrapInt64 (d + m - r)
        if d1 > d then d1 else maxDuration

/-- The loop of Go `fmtFrac`: `prec` times, take the last decimal digit of `v`, and put
it in front of the text once a nonzero digit has been seen. -/
def fmtFracLoop : Nat → Nat → Bool → GoString → GoString × Nat × Bool
  | 0, v, print, buf => (buf, v, print)
  | n + 1, v, print, buf =>
    let digit := v % 10
    let print := print || decide (digit ≠ 0)
    let buf := if print then (digit + 48) :: buf else buf
    fmtFracLoop n (v / 10) print buf

/-- Go `fmtFrac`: the fraction `v/10^prec` without trailing zeros, with its decimal
point, and `v / 10^prec`. -/
def fmtFrac (v : Nat) (prec : Nat) : GoString × Nat :=
  let out := fmtFracLoop prec v false []
  (if out.2.2 then 0x2E :: out.1 else out.1, out.2.1)

/-- The loop of Go `fmtInt` for a nonzero value; the first argument bounds the number of
digits. -/
def fmtIntLoop : Nat → Nat → GoString → GoString
  | 0, _, buf => buf
  | n + 1, v, buf => if v > 0 then fmtIntLoop n (v / 10) ((v % 10 + 48) :: buf) else buf

/-- Go `fmtInt`: the decimal digits of `v`. -/
def fmtInt (v : Nat) : GoString :=
  if v = 0 then [0x30] else fmtIntLoop v v []

/-- The part of Go `Duration.format` that writes a magnitude `u` (the absolute value in
nanoseconds): hours, minutes and seconds with a fraction for a second or more, a smaller
unit below one second, "0s" for zero. -/
def formatMagnitude (u : Nat) : GoString :=
  if u < 1000000000 then
    if u = 0 then [0x30, 0x73]
    else if u < 1000 then
      let fr := fmtFrac u 0
      fmtInt fr.2 ++ fr.1 ++ [0x6E, 0x73]
    else if u < 1000000 then
      let fr := fmtFrac u 3
      fmtInt fr.2 ++ fr.1 ++ [0xC2, 0xB5, 0x73]
    else
      let fr := fmtFrac u 6
      fmtInt fr.2 ++ fr.1 ++ [0x6D, 0x73]
  else
    let fr := fmtFrac u 9
    let u := fr.2
    let text := fmtInt (u % 60) ++ fr.1 ++ [0x73]
    let u := u / 60
    if u > 0 then
      let text := fmtInt (u % 60) ++ [0x6D] ++ text
      let u := u / 60
      if u > 0 then fmtInt u ++ [0x68] ++ text else text
    else text

/-- Go `Duration.String` (through `Duration.format`): the magnitude `uint64(d)`, negated
as an unsigned number when `d` is negative, written by `formatMagnitude`, with a minus
sign in front for a negative duration. -/
def Duration.String (d : Int) : GoString :=
  let u : Int := toUint64 d
  let neg : Bool := decide (d < 0)
  let u : Int := if neg then toUint64 (-u) else u
  let text := formatMagnitude u.toNat
  if neg then 0x2D :: text else text

/-- A clock reading as the runtime can give it: nanoseconds below a second, and a
monotonic reading that fits a signed 64-bit integer. -/
abbrev ClockReading.wellFormed (c : ClockReading) : Prop :=
  c.nsec < 1000000000 ∧ minDuration ≤ c.mono ∧ c.mono ≤ maxDuration

/-- The time elapsed, in nanoseconds and without a bound, from the clock reading at
which `main` took `startTime` to a later clock reading: by the monotonic clock when
`startTime` carries a monotonic reading (the clock `time.Since` then reads), by the wall
clock otherwise. -/
def elapsed (c0 c : ClockReading) : Int :=
  match (timeNow c0).mono with
  | some m => c.mono - m
  | none => (c.sec - c0.sec) * Second + ((c.nsec : Int) - (c0.nsec : Int))

/-! ## `healthHandler`: the response value -/

/-- Go `HealthResponse`. -/
structure HealthResponse where
  Status : GoString
  Timestamp : Time
  Version : GoString
  Uptime : GoString

/-- The `HealthResponse` that `healthHandler` builds. -/
def healthResponse (p : Process) : HealthResponse :=
  let uptime := Duration.Round (timeSince p.sinceClock p.startTime) Second
  { Status := lit "healthy",
    Timestamp := timeNow p.nowClock,
    Version := lit "1.0.0",
    Uptime := Duration.String uptime }

/-! ## `time`: formatting a time for JSON -/

/-- The year of the absolute epoch of package `time` (`absoluteZeroYear`). -/
def absoluteZeroYear : Int := -292277022399

/-- Seconds from the absolute epoch to the year 1 epoch (`internalToAbsolute`). -/
def internalToAbsolute : Int := 9223371966579724800

/-- Go `Time.abs` as `locabs` computes it: seconds since the absolute epoch of the wall
time shifted by the zone offset, as an unsigned 64-bit number. -/
def Time.abs (t : Time) : Nat :=
  (toUint64 (t.unixSec + t.offset + (unixToInternal + internalToAbsolute))).toNat

/-- Go `isLeap`. -/
def isLeap (year : Int) : Bool :=
  decide (year % 4 = 0 ∧ (year % 100 ≠ 0 ∨ year % 400 = 0))

/-- The table `daysBefore` of package `time`: days in a non-leap year before each
month. -/
def daysBefore (m : Nat) : Nat :=
  match m with
  | 0 => 0
  | 1 => 31
  | 2 => 59
  | 3 => 90
  | 4 => 120
  | 5 => 151
  | 6 => 181
  | 7 => 212
  | 8 => 243
  | 9 => 273
  | 10 => 304
  | 11 => 334
  | _ => 365

/-- A calendar date: year, month (1 to 12) and day of the month. -/
structure Date where
  year : Int
  month : Nat
  day : Nat

/-- The last step of Go `absDate`: for a day of a non-leap year (counted from zero), the
month, estimated as if every month had 31 days and moved on by one when the day lies past
the end of the estimate, and the day of the month. -/
def absDateLocate (day : Nat) : Nat × Nat :=
  let month := day / 31
  let stop := daysBefore (month + 1)
  if day ≥ stop then (month + 1 + 1, day - stop + 1)
  else (month + 1, day - daysBefore month + 1)

/-- The second half of Go `absDate`: month and day of the month from the year and the
day of the year (counted from zero); in a leap year the leap day is answered at once and
later days are moved back by one. -/
def absDateMonthDay (year : Int) (yday : Nat) : Date :=
  let day := yday
  if isLeap year ∧ day = 31 + 29 - 1 then
    { year := year, month := 2, day := 29 }
  else
    let day := if isLeap year ∧ day > 31 + 29 - 1 then day - 1 else day
    let md := absDateLocate day
    { year := year, month := md.1, day := md.2 }

/-- The first half of Go `absDate` (all of it when `full` is not set): from the days
since the absolute epoch, the years since the absolute zero year and the day of the year
(counted from zero), by cutting off cycles of 400, 100, 4 and 1 years. -/
def absDateYearDay (days : Nat) : Nat × Nat :=
  let d := days
  let n := d / 146097
  let y := 400 * n
  let d := d - 146097 * n
  let n := d / 36524
  let n := n - n / 4
  let y := y + 100 * n
  let d := d - 36524 * n
  let n := d / 1461
  let y := y + 4 * n
  let d := d - 1461 * n
  let n := d / 365
  let n := n - n / 4
  let y := y + n
  let d := d - 365 * n
  (y, d)

/-- Go `absDate` (with `full` set): the date of an absolute time. -/
def absDate (abs : Nat) : Date :=
  let yd := absDateYearDay (abs / 86400)
  let year : Int := (yd.1 : Int) + absoluteZeroYear
  absDateMonthDay year yd.2

/-- Go `Time.Year`. -/
def Time.Year (t : Time) : Int :=
  (absDate t.abs).year

/-- Go `absClock`: hour, minute and second within the day of an absolute time. -/
def absClock (abs : Nat) : Nat × Nat × Nat :=
  let sec := abs % 86400
  let hour := sec / 3600
  let sec := sec - hour * 3600
  let min := sec / 60
  let sec := sec - min * 60
  (hour, min, sec)

/-- Go `appendInt` of package `time`: what it appends for `x` at the given width, a minus
sign for a negative number and then the decimal digits, zero-padded on the left. -/
def appendInt (x : Int) (width : Nat) : GoString :=
  let digits := fmtInt x.natAbs
  (if x < 0 then [0x2D] else []) ++ List.replicate (width - digits.length) 0x30 ++ digits

/-- Remove the trailing bytes `0` of a text (the trimming loop of `appendNano`). -/
def trimZeros (text : GoString) : GoString :=
  (text.reverse.dropWhile fun b => decide (b = 0x30)).reverse

/-- Go `appendNano` for the layout fraction `.999999999`: nothing for zero nanoseconds,
otherwise the decimal point and the nine digits without trailing zeros. -/
def appendNano (nanosec : Nat) : GoString :=
  if nanosec = 0 then []
  else
    let text := trimZeros (0x2E :: appendInt nanosec 9)
    if text.getLast? = some 0x2E then text.dropLast else text

/-- Go `Time.appendFormatRFC3339` with nanoseconds: date, `T`, time of day, fraction, and
`Z` for a zero offset or the offset as sign, hours and minutes. -/
def appendFormatRFC3339 (t : Time) : GoString :=
  let offset := t.offset
  let abs := t.abs
  let date := absDate abs
  let clock := absClock abs
  let b := appendInt date.year 4 ++ [0x2D] ++ appendInt date.month 2 ++ [0x2D]
    ++ appendInt date.day 2 ++ [0x54]
    ++ appendInt clock.1 2 ++ [0x3A] ++ appendInt clock.2.1 2 ++ [0x3A]
    ++ appendInt clock.2.2 2 ++ appendNano t.nsec
  if offset = 0 then b ++ [0x5A]
  else
    let zone := Int.tdiv offset 60
    let sign : GoString := if zone < 0 then [0x2D] else [0x2B]
    let zone := if zone < 0 then -zone else zone
    b ++ sign ++ appendInt (zone / 60) 2 ++ [0x3A] ++ appendInt (zone % 60) 2

/-- The helper `num2` of `appendStrictRFC3339`: two digits read as a byte-sized
number. -/
def num2 (b0 b1 : Nat) : Nat :=
  (10 * ((b0 + 256 - 0x30) % 256) + (b1 + 256 - 0x30) % 256) % 256

/-- Go `Time.appendStrictRFC3339`: the RFC 3339 text, or an error when the year is not
four digits wide or the zone hour is not below 24. -/
def appendStrictRFC3339 (t : Time) : Option GoString :=
  let b := appendFormatRFC3339 t
  if b[4]? ≠ some 0x2D then none
  else if b.getLast? ≠ some 0x5A then
    let c := b[b.length - 6]?
    let h0 := b[b.length - 5]?
    let h1 := b[b.length - 4]?
    match c, h0, h1 with
    | some c, some h0, some h1 =>
      if (0x30 ≤ c ∧ c ≤ 0x39) ∨ num2 h0 h1 ≥ 24 then none else some b
    | _, _, _ => none
  else some b

/-- Go `Time.MarshalJSON`: the strict RFC 3339 text between quotes, or an error. -/
def Time.MarshalJSON (t : Time) : Option GoString :=
  match appendStrictRFC3339 t with
  | some b => some ([0x22] ++ b ++ [0x22])
  | none => none

/-! ## `healthHandler` -/

/-- JSON text of a `HealthResponse`; the timestamp is written by `Time.MarshalJSON` (the
encoder copies its output, which has nothing to compact or escape), and an error there
fails the whole value. -/
def marshalHealthResponse (v : HealthResponse) : Option GoString :=
  match v.Timestamp.MarshalJSON with
  | none => none
  | some ts =>
    some (encodeStruct [(lit "status", appendString v.Status),
                        (lit "timestamp", ts),
                        (lit "version", appendString v.Version),
                        (lit "uptime", appendString v.Uptime)])

/-- Go `healthHandler`. -/
def healthHandler (p : Process) (w : ResponseWriter) (_r : Request) : ResponseWriter :=
  let w := w.headerSet (lit "Content-Type") (lit "application/json")
  let response := healthResponse p
  let w := w.WriteHeader StatusOK
  encoderEncode w (marshalHealthResponse response)

/-! ## `path.Clean` and the request multiplexer

The multiplexer is the one `net/http` has had since its patterns can hold wildcards: a
request is routed on its escaped path, which is cleaned as a whole and then matched
segment by segment, each segment unescaped on its own.
-/

/-- The backtracking loop of Go `path.Clean` at a `..` element: from position `w`, move
left while the position is beyond `dotdot` and the byte there is not a slash. -/
def backtrackLoop (out : GoString) (dotdot : Nat) : Nat → Nat
  | 0 => 0
  | w + 1 =>
    if w + 1 > dotdot ∧ out[w + 1]? ≠ some 0x2F then backtrackLoop out dotdot w else w + 1

/-- The main loop of Go `path.Clean` over the bytes not yet read, with the output written
so far and the index `dotdot` up to which the output may not be backed over; the first
argument bounds the iterations. -/
def cleanLoop (rooted : Bool) : Nat → GoString → GoString → Nat → GoString
  | 0, _, out, _ => out
  | _, [], out, _ => out
  | n + 1, c :: rest, out, dotdot =>
    if c = 0x2F then
      cleanLoop rooted n rest out dotdot
    else if c = 0x2E ∧ (rest = [] ∨ rest.head? = some 0x2F) then
      cleanLoop rooted n rest out dotdot
    else if c = 0x2E ∧ rest.head? = some 0x2E
        ∧ (rest.tail = [] ∨ rest.tail.head? = some 0x2F) then
      if out.length > dotdot then
        cleanLoop rooted n rest.tail (out.take (backtrackLoop out dotdot (out.length - 1))) dotdot
      else if ¬ rooted then
        let out1 := (if out.length > 0 then out ++ [0x2F] else out) ++ [0x2E, 0x2E]
        cleanLoop rooted n rest.tail out1 out1.length
      else
        cleanLoop rooted n rest.tail out dotdot
    else
      let out1 :=
        if (rooted ∧ out.length ≠ 1) ∨ (¬ rooted ∧ out.length ≠ 0) then out ++ [0x2F] else out
      let elem := (c :: rest).takeWhile fun b => decide (b ≠ 0x2F)
      let rest1 := (c :: rest).dropWhile fun b => decide (b ≠ 0x2F)
      cleanLoop rooted n rest1 (out1 ++ elem) dotdot

/-- Go `path.Clean`: the shortest path equivalent to the given one, without empty, `.`
or inner `..` elements and without a trailing slash (except for the root). -/
def pathClean (path : GoString) : GoString :=
  if path = [] then [0x2E]
  else
    let rooted : Bool := decide (path.head? = some 0x2F)
    let out :=
      if rooted then cleanLoop rooted path.length path.tail [0x2F] 1
      else cleanLoop rooted path.length path [] 0
    if out = [] then [0x2E] else out

/-- Go `cleanPath` of `net/http`: the canonical form of a request path, rooted and
cleaned, with a trailing slash kept. -/
def cleanPath (p : GoString) : GoString :=
  if p = [] then [0x2F]
  else
    let p := if p.head? ≠ some 0x2F then 0x2F :: p else p
    let np := pathClean p
    if p.getLast? = some 0x2F ∧ np ≠ [0x2F] then
      if p.length = np.length + 1 ∧ np.isPrefixOf p then p else np ++ [0x2F]
    else np

/-- The handlers a request can be dispatched to: the four handler functions of `main.go`,
a redirect to the URL with the given path (`http.RedirectHandler`; its status code, a
3xx that differs between releases of `net/http`, is left out), and
`http.NotFoundHandler`. -/
inductive Handler where
  | home
  | health
  | ready
  | info
  | redirect (path : GoString)
  | notFound
  deriving DecidableEq

/-- Go `ishex` of `net/url`. -/
def ishex (c : Nat) : Bool :=
  (0x30 ≤ c ∧ c ≤ 0x39) ∨ (0x61 ≤ c ∧ c ≤ 0x66) ∨ (0x41 ≤ c ∧ c ≤ 0x46)

/-- Go `unhex` of `net/url`. -/
def unhex (c : Nat) : Nat :=
  if 0x30 ≤ c ∧ c ≤ 0x39 then c - 0x30
  else if 0x61 ≤ c ∧ c ≤ 0x66 then c - 0x61 + 10
  else if 0x41 ≤ c ∧ c ≤ 0x46 then c - 0x41 + 10
  else 0

/-- Go `unescape` of `net/url` in the mode of a path segment: every `%XX` becomes the
byte it names, every other byte stays; a percent sign not followed by two hexadecimal
digits is an error. -/
def unescape : GoString → Option GoString
  | [] => some []
  | c :: rest =>
    if c = 0x25 then
      match rest with
      | a :: b :: rest2 =>
        if ishex a ∧ ishex b then (unescape rest2).map fun t => (unhex a * 16 + unhex b) :: t
        else none
      | _ => none
    else (unescape rest).map fun t => c :: t

/-- Go `pathUnescape` of `net/http`: the segment unescaped, or as it is when that
fails. -/
def pathUnescape (path : GoString) : GoString :=
  match unescape path with
  | some s => s
  | none => path

/-- A parsed pattern of the multiplexer, for patterns without method, host and named
wildcards: the pattern as written, its literal segments, and whether it ends in a slash
(then its last segment is the nameless wildcard that matches any rest of a path). -/
structure Pattern where
  str : GoString
  segments : List GoString
  multi : Bool
  deriving DecidableEq

/-- The segment loop of Go `parsePattern`; the first argument bounds the iterations. -/
def parseSegments : Nat → GoString → List GoString → Option (List GoString × Bool)
  | 0, _, _ => none
  | n + 1, rest, acc =>
    if rest = [] then some (acc, false)
    else
      let rest := rest.tail
      if rest = [] then some (acc, true)
      else
        let seg := rest.takeWhile fun b => decide (b ≠ 0x2F)
        let rest := rest.dropWhile fun b => decide (b ≠ 0x2F)
        if seg = [] then none
        else parseSegments n rest (acc ++ [pathUnescape seg])

/-- Go `parsePattern` for a pattern that is a plain path: no method (no space or tab),
no host (it begins with a slash), no wildcard (no brace), no empty segment. Any other
pattern is outside this model. -/
def parsePattern (s : GoString) : Option Pattern :=
  if s.head? ≠ some 0x2F then none
  else if s.any fun b => decide (b = 0x20 ∨ b = 0x09 ∨ b = 0x7B ∨ b = 0x7D) then none
  else
    match parseSegments (s.length + 1) s [] with
    | some sm => some { str := s, segments := sm.1, multi := sm.2 }
    | none => none

/-- A Go `http.ServeMux`: the registered patterns with their handlers. The routing tree
that Go builds from them is read off this list: the node reached from the root by a list
of literal segments stands for the patterns that begin with those segments. -/
structure ServeMux where
  patterns : List (Pattern × Handler)

/-- Go `ServeMux.Handle` (`http.HandleFunc` registers with it) for a pattern in plain
form that conflicts with none registered before. -/
def ServeMux.Handle (mux : ServeMux) (pattern : GoString) (handler : Handler) : ServeMux :=
  match parsePattern pattern with
  | some p => { patterns := mux.patterns ++ [(p, handler)] }
  | none => mux

/-- Go `firstSegment`: the first segment of a path that begins with a slash, unescaped,
and the rest of the path; a path that is only a slash has the segment "/". -/
def firstSegment (path : GoString) : GoString × GoString :=
  if path = [0x2F] then ([0x2F], [])
  else
    let path := path.tail
    (pathUnescape (path.takeWhile fun b => decide (b ≠ 0x2F)),
      path.dropWhile fun b => decide (b ≠ 0x2F))

/-- Go `routingNode.matchPath` from the node reached by the segments `node`: at the end
of the path, the pattern that ends at this node; otherwise the match in the child for
the first segment when there is such a child, and failing that the pattern whose
trailing wildcard hangs off this node. The child for the empty key is the one of
single-segment wildcards, which plain patterns do not have. The first argument bounds
the depth. -/
def matchPath (pats : List (Pattern × Handler)) :
    Nat → List GoString → GoString → Option (Pattern × Handler)
  | 0, _, _ => none
  | n + 1, node, path =>
    if path = [] then
      pats.find? fun e => decide (e.1.segments = node ∧ e.1.multi = false)
    else
      let sr := firstSegment path
      let child :=
        if sr.1 ≠ [] ∧ pats.any (fun e => (node ++ [sr.1]).isPrefixOf e.1.segments) then
          matchPath pats n (node ++ [sr.1]) sr.2
        else none
      match child with
      | some e => some e
      | none => pats.find? fun e => decide (e.1.segments = node ∧ e.1.multi = true)

/-- Go `routingNode.match` for patterns without host and method: the walk from the
root. -/
def ServeMux.match (mux : ServeMux) (path : GoString) : Option (Pattern × Handler) :=
  matchPath mux.patterns (path.length + 1) [] path

/-- Go `exactMatch`: whether the pattern of the node matches the path without its
trailing wildcard taking up anything. -/
def exactMatch (n : Option (Pattern × Handler)) (path : GoString) : Bool :=
  match n with
  | none => false
  | some e =>
    if e.1.multi = false then true
    else if path ≠ [] ∧ path.getLast? ≠ some 0x2F then false
    else decide (e.1.segments.length + 1 = path.count 0x2F)

/-- Go `ServeMux.matchOrRedirect`: the match for the path and, when `u` (the decoded
path of the request URL) is given, the path is not matched exactly and has no trailing
slash, but the path with a slash added is matched exactly, the path to redirect to. -/
def ServeMux.matchOrRedirect (mux : ServeMux) (path : GoString) (u : Option GoString) :
    Option (Pattern × Handler) × Option GoString :=
  let n := mux.match path
  match u with
  | some upath =>
    if ¬ exactMatch n path ∧ path.getLast? ≠ some 0x2F then
      let n2 := mux.match (path ++ [0x2F])
      if exactMatch n2 (path ++ [0x2F]) then (n2, some (cleanPath upath ++ [0x2F]))
      else (n, none)
    else (n, none)
  | none => (n, none)

/-- The end of Go `ServeMux.findHandler`: the handler and pattern of the matched node, or
`NotFoundHandler`. (With patterns that name no method, no other method could match.) -/
def nodeHandler (n : Option (Pattern × Handler)) : Handler × GoString :=
  match n with
  | some e => (e.2, e.1.str)
  | none => (Handler.notFound, [])

/-- Go `ServeMux.findHandler`, which `ServeMux.Handler` and `ServeMux.ServeHTTP` call:
the handler for a request and the pattern it matched. A `CONNECT` request is matched on
its escaped path as it is; any other request is matched on its cleaned escaped path and
redirected to it when the cleaning changed anything. The host of the request plays no
part, as plain patterns name none. -/
def ServeMux.findHandler (mux : ServeMux) (r : Request) : Handler × GoString :=
  if r.method = lit "CONNECT" then
    match (mux.matchOrRedirect r.escapedPath (some r.path)).2 with
    | some u => (Handler.redirect u, u)
    | none => nodeHandler (mux.matchOrRedirect r.escapedPath none).1
  else
    let path := cleanPath r.escapedPath
    let nu := mux.matchOrRedirect path (some r.path)
    match nu.2 with
    | some u => (Handler.redirect u, (nodeHandler nu.1).2)
    | none =>
      if path ≠ r.escapedPath then (Handler.redirect path, (nodeHandler nu.1).2)
      else nodeHandler nu.1

/-- The default multiplexer after the four `http.HandleFunc` calls of `main`. -/
def mainMux : ServeMux :=
  ((((ServeMux.mk []).Handle (lit "/") Handler.home).Handle
      (lit "/health") Handler.health).Handle
      (lit "/ready") Handler.ready).Handle
      (lit "/api/info") Handler.info

/-! ## Reading a duration string

The reading of duration strings against which the uptime text is checked: terms of
decimal digits, an optional fraction and a unit, added up, with an optional sign. -/

/-- Leading decimal digits: their value (continuing from `acc`), how many, and the
rest. -/
def parseDigits : Nat → Nat → GoString → Nat × Nat × GoString
  | acc, cnt, [] => (acc, cnt, [])
  | acc, cnt, b :: rest =>
    if 0x30 ≤ b ∧ b ≤ 0x39 then parseDigits (acc * 10 + (b - 0x30)) (cnt + 1) rest
    else (acc, cnt, b :: rest)

/-- A unit name at the head of the text: its length in nanoseconds and the rest. -/
def parseUnit : GoString → Option (Nat × GoString)
  | 0x6E :: 0x73 :: rest => some (1, rest)
  | 0x75 :: 0x73 :: rest => some (1000, rest)
  | 0xC2 :: 0xB5 :: 0x73 :: rest => some (1000, rest)
  | 0x6D :: 0x73 :: rest => some (1000000, rest)
  | 0x73 :: rest => some (1000000000, rest)
  | 0x6D :: rest => some (60000000000, rest)
  | 0x68 :: rest => some (3600000000000, rest)
  | _ => none

/-- One or more terms, added up, in nanoseconds; the first argument bounds the number of
terms. -/
def parseTerms : Nat → GoString → Option Nat
  | 0, _ => none
  | n + 1, s =>
    let whole := parseDigits 0 0 s
    let frac : Nat × Nat × GoString :=
      match whole.2.2 with
      | 0x2E :: rest => parseDigits 0 0 rest
      | rest => (0, 0, rest)
    if whole.2.1 = 0 ∧ frac.2.1 = 0 then none
    else
      match parseUnit frac.2.2 with
      | none => none
      | some (unit, rest) =>
        let v := whole.1 * unit + frac.1 * unit / 10 ^ frac.2.1
        if rest = [] then some v else (parseTerms n rest).map fun w => v + w

/-- The duration a duration string denotes, in nanoseconds. -/
def parseDuration (s : GoString) : Option Int :=
  match s with
  | 0x2D :: rest => (parseTerms rest.length rest).map fun v => -(v : Int)
  | 0x2B :: rest => (parseTerms rest.length rest).map fun v => (v : Int)
  | _ => (parseTerms s.length s).map fun v => (v : Int)

/-! ## Reading an RFC 3339 timestamp

The reading of timestamps against which the timestamp field is checked: the instant and
the offset that a text of the form `YYYY-MM-DDTHH:MM:SS[.fraction](Z|±HH:MM)` denotes. -/

/-- Days from 1970-01-01 to the given date of the proleptic Gregorian calendar. -/
def daysFromCivil (year : Int) (month day : Nat) : Int :=
  365 * (year - 1) + (year - 1) / 4 - (year - 1) / 100 + (year - 1) / 400
    + (daysBefore (month - 1) : Int) + (if 2 < month ∧ isLeap year then 1 else 0)
    + ((day : Int) - 1) - 719162

/-- The number of days of a month. -/
def daysIn (year : Int) (month : Nat) : Nat :=
  daysBefore month - daysBefore (month - 1) + (if month = 2 ∧ isLeap year then 1 else 0)

/-- The value of a decimal digit, if the byte is one. -/
def digitVal (b : Nat) : Option Nat :=
  if 0x30 ≤ b ∧ b ≤ 0x39 then some (b - 0x30) else none

/-- The value of two decimal digits. -/
def twoDigits (a b : Nat) : Option Nat :=
  match digitVal a, digitVal b with
  | some x, some y => some (10 * x + y)
  | _, _ => none

/-- The zone designator at the end of a timestamp: `Z`, or a sign, hours below 24, a
colon and minutes below 60; the offset in seconds east of UTC. -/
def parseZone (s : GoString) : Option Int :=
  match s with
  | [0x5A] => some 0
  | [sign, h1, h2, 0x3A, m1, m2] =>
    match twoDigits h1 h2, twoDigits m1 m2 with
    | some h, some m =>
      if h < 24 ∧ m < 60 then
        if sign = 0x2B then some ((h * 3600 + m * 60 : Nat) : Int)
        else if sign = 0x2D then some (-((h * 3600 + m * 60 : Nat) : Int))
        else none
      else none
    | _, _ => none
  | _ => none

/-- The optional fraction of a second: a decimal point and one to nine digits, as a
number of nanoseconds, and the rest of the text; zero when there is no decimal point. -/
def parseFraction (s : GoString) : Option (Nat × GoString) :=
  match s with
  | 0x2E :: rest =>
    let ds := parseDigits 0 0 rest
    if 1 ≤ ds.2.1 ∧ ds.2.1 ≤ 9 then some (ds.1 * 10 ^ (9 - ds.2.1), ds.2.2)
    else none
  | _ => some (0, s)

/-- The instant and offset an RFC 3339 timestamp denotes: seconds since the Unix epoch,
nanoseconds within the second, and the offset of the designated zone in seconds east of
UTC. Fields out of range (month, day of the month, hour, minute, second) are refused. -/
def parseRFC3339 (s : GoString) : Option (Int × Nat × Int) :=
  match s with
  | y1 :: y2 :: y3 :: y4 :: 0x2D :: mo1 :: mo2 :: 0x2D :: d1 :: d2 :: 0x54
      :: h1 :: h2 :: 0x3A :: mi1 :: mi2 :: 0x3A :: s1 :: s2 :: rest =>
    match twoDigits y1 y2, twoDigits y3 y4, twoDigits mo1 mo2, twoDigits d1 d2,
        twoDigits h1 h2, twoDigits mi1 mi2, twoDigits s1 s2 with
    | some yh, some yl, some month, some day, some hour, some min, some sec =>
      let year : Int := ((100 * yh + yl : Nat) : Int)
      if 1 ≤ month ∧ month ≤ 12 ∧ 1 ≤ day ∧ day ≤ daysIn year month
          ∧ hour < 24 ∧ min < 60 ∧ sec < 60 then
        match parseFraction rest with
        | none => none
        | some (nanos, rest2) =>
          match parseZone rest2 with
          | none => none
          | some offset =>
            some (daysFromCivil year month day * 86400
                    + ((hour * 3600 + min * 60 + sec : Nat) : Int) - offset,
                  nanos, offset)
      else none
    | _, _, _, _, _, _, _ => none
  | _ => none

/-! ## Reading JSON text (RFC 8259)

The decoder against which response bodies are checked. It works on bytes; bytes outside
ASCII inside a string are taken as they stand. -/

/-- A JSON value; a number keeps its text. -/
inductive JSON where
  | null
  | bool (b : Bool)
  | num (text : GoString)
  | str (s : GoString)
  | arr (items : List JSON)
  | obj (members : List (GoString × JSON))

/-- Drop leading JSON whitespace (space, tab, line feed, carriage return). -/
def skipWS : GoString → GoString
  | [] => []
  | b :: rest => if b = 0x20 ∨ b = 0x09 ∨ b = 0x0A ∨ b = 0x0D then skipWS rest else b :: rest

/-- The value of a hexadecimal digit. -/
def hexVal (b : Nat) : Option Nat :=
  if 0x30 ≤ b ∧ b ≤ 0x39 then some (b - 0x30)
  else if 0x61 ≤ b ∧ b ≤ 0x66 then some (b - 0x61 + 10)
  else if 0x41 ≤ b ∧ b ≤ 0x46 then some (b - 0x41 + 10)
  else none

/-- The value of four hexadecimal digits. -/
def hex4 (a b c d : Nat) : Option Nat :=
  match hexVal a, hexVal b, hexVal c, hexVal d with
  | some x, some y, some z, some w => some (x * 4096 + y * 256 + z * 16 + w)
  | _, _, _, _ => none

/-- Read the rest of a JSON string, the opening quote already consumed: the decoded bytes
and the text after the closing quote. An escaped surrogate pair gives one code point, an
unpaired surrogate U+FFFD. -/
def parseStringBody : Nat → GoString → Option (GoString × GoString)
  | 0, _ => none
  | _, [] => none
  | n + 1, b :: rest =>
    if b = 0x22 then some ([], rest)
    else if b = 0x5C then
      match rest with
      | [] => none
      | e :: rest1 =>
        if e = 0x75 then
          match rest1 with
          | h1 :: h2 :: h3 :: h4 :: rest2 =>
            match hex4 h1 h2 h3 h4 with
            | none => none
            | some u =>
              if 0xD800 ≤ u ∧ u ≤ 0xDBFF then
                match rest2 with
                | 0x5C :: 0x75 :: l1 :: l2 :: l3 :: l4 :: rest3 =>
                  match hex4 l1 l2 l3 l4 with
                  | none => none
                  | some v =>
                    if 0xDC00 ≤ v ∧ v ≤ 0xDFFF then
                      (parseStringBody n rest3).map fun dr =>
                        (encodeRune (0x10000 + (u - 0xD800) * 0x400 + (v - 0xDC00)) ++ dr.1, dr.2)
                    else
                      (parseStringBody n rest2).map fun dr => (encodeRune u ++ dr.1, dr.2)
                | _ => (parseStringBody n rest2).map fun dr => (encodeRune u ++ dr.1, dr.2)
              else
                (parseStringBody n rest2).map fun dr => (encodeRune u ++ dr.1, dr.2)
          | _ => none
        else
          let c : Option Nat :=
            if e = 0x22 then some 0x22
            else if e = 0x5C then some 0x5C
            else if e = 0x2F then some 0x2F
            else if e = 0x62 then some 0x08
            else if e = 0x66 then some 0x0C
            else if e = 0x6E then some 0x0A
            else if e = 0x72 then some 0x0D
            else if e = 0x74 then some 0x09
            else none
          match c with
          | none => none
          | some x => (parseStringBody n rest1).map fun dr => (x :: dr.1, dr.2)
    else if b < 0x20 then none
    else (parseStringBody n rest).map fun dr => (b :: dr.1, dr.2)

/-- Read a JSON string starting at its opening quote. -/
def parseString (s : GoString) : Option (GoString × GoString) :=
  match s with
  | 0x22 :: rest => parseStringBody rest.length rest
  | _ => none

/-- Split off the longest prefix of decimal digits. -/
def spanDigits : GoString → GoString × GoString
  | [] => ([], [])
  | b :: rest =>
    if 0x30 ≤ b ∧ b ≤ 0x39 then ((spanDigits rest).1.cons b, (spanDigits rest).2)
    else ([], b :: rest)

/-- Read a JSON number: optional minus, integer part without leading zeros, optional
fraction, optional exponent. -/
def parseNumber (s : GoString) : Option (GoString × GoString) :=
  let (sign, s1) := match s with
    | 0x2D :: t => ([0x2D], t)
    | _ => ([], s)
  let (int, s2) := spanDigits s1
  if int = [] ∨ (int.head? = some 0x30 ∧ int.length ≠ 1) then none
  else
    let fracPart : Option (GoString × GoString) := match s2 with
      | 0x2E :: t =>
        let (fr, t1) := spanDigits t
        if fr = [] then none else some (0x2E :: fr, t1)
      | _ => some ([], s2)
    match fracPart with
    | none => none
    | some (frac, s3) =>
      let expPart : Option (GoString × GoString) := match s3 with
        | e :: t =>
          if e = 0x65 ∨ e = 0x45 then
            let (sg, t1) := match t with
              | 0x2B :: u => ([0x2B], u)
              | 0x2D :: u => ([0x2D], u)
              | _ => ([], t)
            let (ds, t2) := spanDigits t1
            if ds = [] then none else some (e :: sg ++ ds, t2)
          else some ([], s3)
        | [] => some ([], s3)
      match expPart with
      | none => none
      | some (ex, s4) => some (sign ++ int ++ frac ++ ex, s4)

mutual
/-- Read one JSON value, skipping whitespace before it; the first argument bounds the
nesting and the number of members read. -/
def parseValue : Nat → GoString → Option (JSON × GoString)
  | 0, _ => none
  | n + 1, s =>
    match skipWS s with
    | [] => none
    | 0x22 :: rest => (parseString (0x22 :: rest)).map fun dr => (.str dr.1, dr.2)
    | 0x7B :: rest =>
      match skipWS rest with
      | 0x7D :: rest1 => some (.obj [], rest1)
      | _ => (parseMembers n rest).map fun mr => (.obj mr.1, mr.2)
    | 0x5B :: rest =>
      match skipWS rest with
      | 0x5D :: rest1 => some (.arr [], rest1)
      | _ => (parseItems n rest).map fun ir => (.arr ir.1, ir.2)
    | 0x74 :: 0x72 :: 0x75 :: 0x65 :: rest => some (.bool true, rest)
    | 0x66 :: 0x61 :: 0x6C :: 0x73 :: 0x65 :: rest => some (.bool false, rest)
    | 0x6E :: 0x75 :: 0x6C :: 0x6C :: rest => some (.null, rest)
    | b :: rest => (parseNumber (b :: rest)).map fun tr => (.num tr.1, tr.2)
/-- Read the members of an object up to and including the closing brace. -/
def parseMembers : Nat → GoString → Option (List (GoString × JSON) × GoString)
  | 0, _ => none
  | n + 1, s =>
    match parseString (skipWS s) with
    | none => none
    | some (name, s1) =>
      match skipWS s1 with
      | 0x3A :: s2 =>
        match parseValue n s2 with
        | none => none
        | some (v, s3) =>
          match skipWS s3 with
          | 0x2C :: s4 => (parseMembers n s4).map fun mr => ((name, v) :: mr.1, mr.2)
          | 0x7D :: s4 => some ([(name, v)], s4)
          | _ => none
      | _ => none
/-- Read the items of an array up to and including the closing bracket. -/
def parseItems : Nat → GoString → Option (List JSON × GoString)
  | 0, _ => none
  | n + 1, s =>
    match parseValue n s with
    | none => none
    | some (v, s1) =>
      match skipWS s1 with
      | 0x2C :: s2 => (parseItems n s2).map fun ir => (v :: ir.1, ir.2)
      | 0x5D :: s2 => some ([v], s2)
      | _ => none
end

/-- Decode a JSON text: one value, with nothing but whitespace around it. -/
def decodeJSON (text : GoString) : Option JSON :=
  match parseValue (text.length + 1) text with
  | some (v, rest) => if skipWS rest = [] then some v else none
  | none => none

/-! ## Concrete inputs -/

/-- A process with an empty environment, started at the Unix epoch in UTC. -/
def sampleProcess : Process :=
  { env := fun _ => none,
    startTime := { unixSec := 0, nsec := 0, mono := some 0, offset := 0 },
    sinceClock := { sec := 0, nsec := 0, mono := 0, offset := 0 },
    nowClock := { sec := 0, nsec := 0, mono := 0, offset := 0 } }

/-- A request with the given method and a path that the client sent without
percent-escapes. -/
def requestFor (method path : GoString) : Request :=
  { method := method, host := lit "localhost:8080", urlHost := [], path := path,
    escapedPath := path, header := [], body := [] }

/-- A `GET` request for a path sent with percent-escapes, which `decoded` is the decoded
form of. -/
def escapedRequest (escaped decoded : GoString) : Request :=
  { method := lit "GET", host := lit "localhost:8080", urlHost := [], path := decoded,
    escapedPath := escaped, header := [], body := [] }

/-- A plain `GET /` request. -/
def sampleRequest : Request :=
  { method := lit "GET", host := lit "localhost:8080", urlHost := [], path := lit "/",
    escapedPath := lit "/", header := [], body := [] }

/-! ## Valid UTF-8 -/

/-- The loop behind `toValidUTF8`; the first argument bounds the iterations. -/
def toValidUTF8Loop : Nat → GoString → GoString
  | 0, _ => []
  | _, [] => []
  | n + 1, b :: rest =>
    let cs := DecodeRuneInString ((b :: rest).take 4)
    if cs.1 = RuneError ∧ cs.2 = 1 then
      [0xEF, 0xBF, 0xBD] ++ toValidUTF8Loop n rest
    else
      (b :: rest).take cs.2 ++ toValidUTF8Loop n ((b :: rest).drop cs.2)

/-- A string coerced to valid UTF-8 the way `encoding/json` documents it for string
values: every byte that does not begin a valid encoding is replaced by the encoding of
U+FFFD, every validly encoded rune is kept. -/
def toValidUTF8 (s : GoString) : GoString :=
  toValidUTF8Loop s.length s

/-- The loop behind `ValidString`; the first argument bounds the iterations. -/
def validLoop : Nat → GoString → Bool
  | 0, _ => true
  | _, [] => true
  | n + 1, b :: rest =>
    let cs := DecodeRuneInString ((b :: rest).take 4)
    if cs.1 = RuneError ∧ cs.2 = 1 then false
    else validLoop n ((b :: rest).drop cs.2)

/-- Go `utf8.ValidString`: the string consists entirely of validly encoded runes. -/
def ValidString (s : GoString) : Bool :=
  validLoop s.length s

/-- A process whose environment has `ENVIRONMENT` set to the single byte 0xFF, which is
not valid UTF-8. -/
def invalidEnvProcess : Process :=
  { sampleProcess with
    env := fun key => if key = lit "ENVIRONMENT" then some [0xFF] else none }

/-- A process whose environment has `ENVIRONMENT=staging`. -/
def stagingProcess : Process :=
  { sampleProcess with
    env := fun key => if key = lit "ENVIRONMENT" then some (lit "staging") else none }

/-- A process whose monotonic clock, read by `time.Since`, shows `d` nanoseconds since
`startTime` was taken. -/
def elapsedProcess (d : Int) : Process :=
  { sampleProcess with
    sinceClock := { sec := 0, nsec := 0, mono := d, offset := 0 } }

/-- The process state at a `/health` request: `startTime` as `main` took it from the
clock reading `c0`, and the clock readings `c` and `n` of the request. -/
def requestProcess (env : Env) (c0 c n : ClockReading) : Process :=
  { env := env, startTime := timeNow c0, sinceClock := c, nowClock := n }

/-- The clock reading of 2200-01-01T00:00:00 UTC, too late for `time.Now` to keep a
monotonic reading in the value. -/
def year2200 : ClockReading :=
  { sec := 7258118400, nsec := 0, mono := 0, offset := 0 }

/-- A clock reading `extra` seconds after 2500-01-01T00:00:00 UTC. -/
def year2500 (extra : Int) : ClockReading :=
  { sec := 16725225600 + extra, nsec := 0, mono := 0, offset := 0 }

/-- The clock reading at which the server of the examples starts: 2023-11-14T22:13:20
UTC, with a monotonic reading of 1000 ns. -/
def startReading : ClockReading :=
  { sec := 1700000000, nsec := 0, mono := 1000, offset := 0 }

/-- The clock reading `sec` seconds and `nsec` nanoseconds after `startReading`, on the
wall clock and on the monotonic clock alike. -/
def laterReading (sec : Int) (nsec : Nat) : ClockReading :=
  { sec := 1700000000 + sec, nsec := nsec, mono := 1000 + sec * 1000000000 + nsec,
    offset := 0 }

/-- A process whose wall clock, read by `time.Now` in `healthHandler`, shows
10000-01-01T00:00:00 UTC. -/
def yearTenThousandProcess : Process :=
  { sampleProcess with
    nowClock := { sec := 253402300800, nsec := 0, mono := 0, offset := 0 } }

/-- A process whose local time zone is one hour east of UTC, at the Unix epoch. -/
def plusOneHourProcess : Process :=
  { sampleProcess with
    nowClock := { sec := 0, nsec := 0, mono := 0, offset := 3600 } }

/-! ## Facts about literals -/

theorem lit_append (a b : String) : lit (a ++ b) = lit a ++ lit b := by
  simp [lit, String.data_append, List.flatMap_append]

set_option maxRecDepth 20000 in
theorem homeHTML_split :
    homeHTML = String.mk (homeHTML.data.take 1031) ++
      ("Go Application Running Successfully" ++ String.mk (homeHTML.data.drop 1066)) := by
  rfl

/-! ## The listen address -/

/-- C1: for every environment the address handed to the listener is ":" followed by the
port, and the port is "8080" when `PORT` is unset or empty and the value of `PORT`,
byte for byte, otherwise. -/
theorem main_listen_addr (env : Env) :
    mainListenAddr env = lit ":" ++ mainPort env ∧
    mainPort env =
      (match env (lit "PORT") with
       | none => lit "8080"
       | some [] => lit "8080"
       | some (b :: v) => b :: v) := by
  refine ⟨rfl, ?_⟩
  unfold mainPort Getenv
  cases h : env (lit "PORT") with
  | none => simp
  | some v =>
    cases v with
    | nil => simp
    | cons b v => simp

/-! ## The home page -/

/-- C5: for every process state and request, `homeHandler` answers 200 with
Content-Type "text/html; charset=utf-8" and the one fixed page, which contains the text
"Go Application Running Successfully". -/
theorem homeHandler_response (p : Process) (r : Request) :
    (homeHandler p ResponseWriter.fresh r).status = some 200 ∧
    (homeHandler p ResponseWriter.fresh r).sent (lit "Content-Type")
      = some (lit "text/html; charset=utf-8") ∧
    (homeHandler p ResponseWriter.fresh r).body = lit homeHTML ∧
    List.IsInfix (lit "Go Application Running Successfully")
      (homeHandler p ResponseWriter.fresh r).body := by
  refine ⟨rfl, rfl, rfl, ?_⟩
  refine ⟨lit (String.mk (homeHTML.data.take 1031)),
    lit (String.mk (homeHTML.data.drop 1066)), ?_⟩
  have hb : (homeHandler p ResponseWriter.fresh r).body = lit homeHTML := rfl
  rw [hb]
  conv => rhs; rw [homeHTML_split]
  rw [lit_append, lit_append, List.append_assoc]

/-! ## The readiness probe -/

/-- C4: for every process state and request, `readyHandler` answers 200 with
Content-Type "application/json" and a body that decodes as the JSON object whose members
are exactly status = "ready" and checks = the object with the one member server = "ok". -/
theorem readyHandler_response (p : Process) (r : Request) :
    (readyHandler p ResponseWriter.fresh r).status = some 200 ∧
    (readyHandler p ResponseWriter.fresh r).sent (lit "Content-Type")
      = some (lit "application/json") ∧
    ∃ members, decodeJSON (readyHandler p ResponseWriter.fresh r).body
        = some (JSON.obj members) ∧
      members.Perm [(lit "status", JSON.str (lit "ready")),
                    (lit "checks", JSON.obj [(lit "server", JSON.str (lit "ok"))])] := by
  refine ⟨rfl, rfl, _, rfl, ?_⟩
  exact List.Perm.swap _ _ _

/-- C9 (as the code has it): for every process state and request, the body text that
`readyHandler` writes is the object with the member "checks" first and "status" second,
followed by a line feed; `encoding/json` writes the keys of a map in sorted order. -/
theorem readyHandler_body_text (p : Process) (r : Request) :
    (readyHandler p ResponseWriter.fresh r).body
      = lit "\x7b\"checks\":\x7b\"server\":\"ok\"\x7d,\"status\":\"ready\"\x7d\n" := by
  rfl

/-- C9 fails as stated: the body is not the text with "status" before "checks", with or
without a line feed after it. -/
theorem readyHandler_body_not_status_first :
    (readyHandler sampleProcess ResponseWriter.fresh sampleRequest).body
      ≠ lit "\x7b\"status\":\"ready\",\"checks\":\x7b\"server\":\"ok\"\x7d\x7d" ∧
    (readyHandler sampleProcess ResponseWriter.fresh sampleRequest).body
      ≠ lit "\x7b\"status\":\"ready\",\"checks\":\x7b\"server\":\"ok\"\x7d\x7d\n" := by
  decide

/-! ## JSON strings written by the encoder read back -/

theorem hexVal_hex (d : Nat) (h : d < 16) : hexVal (hex d) = some d := by
  unfold hexVal hex
  by_cases h10 : d < 10
  · have a : 0x30 ≤ 48 + d ∧ 48 + d ≤ 0x39 := by omega
    simp [h10, a]
  · have a : ¬ (0x30 ≤ 87 + d ∧ 87 + d ≤ 0x39) := by omega
    have b : 0x61 ≤ 87 + d ∧ 87 + d ≤ 0x66 := by omega
    have c : 87 + d - 97 + 10 = d := by omega
    simp [h10, a, b, c]

theorem psb_quote (n : Nat) (tail : GoString) :
    parseStringBody (n + 1) (0x22 :: tail) = some ([], tail) := by
  simp [parseStringBody]

theorem psb_plain (n b : Nat) (tail : GoString) (h1 : b ≠ 0x22) (h2 : b ≠ 0x5C)
    (h3 : 0x20 ≤ b) :
    parseStringBody (n + 1) (b :: tail)
      = (parseStringBody n tail).map fun dr => (b :: dr.1, dr.2) := by
  have h4 : ¬ b < 0x20 := by omega
  simp [parseStringBody, h1, h2, h4]

theorem psb_u (n h1 h2 h3 h4 u : Nat) (tail : GoString) (hu : hex4 h1 h2 h3 h4 = some u)
    (hs : ¬ (0xD800 ≤ u ∧ u ≤ 0xDBFF)) :
    parseStringBody (n + 1) (0x5C :: 0x75 :: h1 :: h2 :: h3 :: h4 :: tail)
      = (parseStringBody n tail).map fun dr => (encodeRune u ++ dr.1, dr.2) := by
  simp [parseStringBody, hu, hs]

theorem psb_escapeASCII (n b : Nat) (tail : GoString) (hb : b < 0x80) :
    parseStringBody (n + 1) (escapeASCII b ++ tail)
      = (parseStringBody n tail).map fun dr => (b :: dr.1, dr.2) := by
  unfold escapeASCII
  split
  · rename_i h
    rcases h with h | h <;> subst h <;> simp [parseStringBody]
  split
  · rename_i h; subst h; simp [parseStringBody]
  split
  · rename_i h; subst h; simp [parseStringBody]
  split
  · rename_i h; subst h; simp [parseStringBody]
  split
  · rename_i h; subst h; simp [parseStringBody]
  split
  · rename_i h; subst h; simp [parseStringBody]
  · have e : hex4 0x30 0x30 (hex (b / 16)) (hex (b % 16)) = some b := by
      have a1 := hexVal_hex (b / 16) (by omega)
      have a2 := hexVal_hex (b % 16) (by omega)
      simp only [hex4, a1, a2]
      simp [hexVal]
      omega
    have := psb_u n 0x30 0x30 (hex (b / 16)) (hex (b % 16)) b tail e (by omega)
    simp only [List.cons_append, List.nil_append]
    rw [this]
    have : encodeRune b = [b] := by simp [encodeRune]; omega
    simp [this]

theorem first_cases (b : Nat) (hb : 0x80 ≤ b) :
    first b = 0xF1 ∨ (first b = 0x02 ∧ 0xC2 ≤ b ∧ b < 0xE0) ∨ (first b = 0x13 ∧ b = 0xE0) ∨
    (first b = 0x03 ∧ 0xE1 ≤ b ∧ b < 0xF0 ∧ b ≠ 0xED) ∨ (first b = 0x23 ∧ b = 0xED) ∨
    (first b = 0x34 ∧ b = 0xF0) ∨ (first b = 0x04 ∧ 0xF1 ≤ b ∧ b < 0xF4) ∨
    (first b = 0x44 ∧ b = 0xF4) := by
  unfold first
  split_ifs <;> simp <;> omega

/-- What decoding yields at a byte outside ASCII: an invalid byte, or a rune of two to
four bytes, all of them outside ASCII. -/
theorem decode_nonASCII (b : Nat) (t : GoString) (hb : 0x80 ≤ b) :
    DecodeRuneInString ((b :: t).take 4) = (RuneError, 1) ∨
    ∃ v rest, b :: t = v ++ rest ∧ v.length = (DecodeRuneInString ((b :: t).take 4)).2 ∧
      2 ≤ v.length ∧ (∀ x ∈ v, 0x80 ≤ x) ∧
      ((DecodeRuneInString ((b :: t).take 4)).1 = 0x2028 → v = [0xE2, 0x80, 0xA8]) ∧
      ((DecodeRuneInString ((b :: t).take 4)).1 = 0x2029 → v = [0xE2, 0x80, 0xA9]) := by
  rcases first_cases b hb with h | ⟨h, h1, h2⟩ | ⟨h, h1⟩ | ⟨h, h1, h2, h3⟩ | ⟨h, h1⟩ |
    ⟨h, h1⟩ | ⟨h, h1, h2⟩ | ⟨h, h1⟩
  · left
    rcases t with _ | ⟨s1, _ | ⟨s2, _ | ⟨s3, t3⟩⟩⟩ <;> simp [DecodeRuneInString, h]
  · rcases t with _ | ⟨s1, t1⟩
    · left; simp [DecodeRuneInString, h]
    · by_cases c : s1 < 0x80 ∨ 0xBF < s1
      · left
        rcases t1 with _ | ⟨s2, _ | ⟨s3, t3⟩⟩ <;> simp [DecodeRuneInString, h, acceptRanges, c]
      · right
        refine ⟨[b, s1], t1, rfl, ?_⟩
        rcases t1 with _ | ⟨s2, _ | ⟨s3, t3⟩⟩ <;>
          simp [DecodeRuneInString, h, acceptRanges, c] <;> omega
  · rcases t with _ | ⟨s1, _ | ⟨s2, t2⟩⟩
    · left; simp [DecodeRuneInString, h]
    · left; simp [DecodeRuneInString, h, acceptRanges]
    · by_cases c : s1 < 0xA0 ∨ 0xBF < s1
      · left
        rcases t2 with _ | ⟨s3, t3⟩ <;> simp [DecodeRuneInString, h, acceptRanges, c]
      · by_cases d : s2 < 0x80 ∨ 0xBF < s2
        · left
          rcases t2 with _ | ⟨s3, t3⟩ <;> simp [DecodeRuneInString, h, acceptRanges, c, d]
        · right
          refine ⟨[b, s1, s2], t2, rfl, ?_⟩
          rcases t2 with _ | ⟨s3, t3⟩ <;>
            simp [DecodeRuneInString, h, acceptRanges, c, d] <;> omega
  · rcases t with _ | ⟨s1, _ | ⟨s2, t2⟩⟩
    · left; simp [DecodeRuneInString, h]
    · left; simp [DecodeRuneInString, h, acceptRanges]
    · by_cases c : s1 < 0x80 ∨ 0xBF < s1
      · left
        rcases t2 with _ | ⟨s3, t3⟩ <;> simp [DecodeRuneInString, h, acceptRanges, c]
      · by_cases d : s2 < 0x80 ∨ 0xBF < s2
        · left
          rcases t2 with _ | ⟨s3, t3⟩ <;> simp [DecodeRuneInString, h, acceptRanges, c, d]
        · right
          refine ⟨[b, s1, s2], t2, rfl, ?_⟩
          rcases t2 with _ | ⟨s3, t3⟩ <;>
            simp [DecodeRuneInString, h, acceptRanges, c, d] <;> omega
  · rcases t with _ | ⟨s1, _ | ⟨s2, t2⟩⟩
    · left; simp [DecodeRuneInString, h]
    · left; simp [DecodeRuneInString, h, acceptRanges]
    · by_cases c : s1 < 0x80 ∨ 0x9F < s1
      · left
        rcases t2 with _ | ⟨s3, t3⟩ <;> simp [DecodeRuneInString, h, acceptRanges, c]
      · by_cases d : s2 < 0x80 ∨ 0xBF < s2
        · left
          rcases t2 with _ | ⟨s3, t3⟩ <;> simp [DecodeRuneInString, h, acceptRanges, c, d]
        · right
          refine ⟨[b, s1, s2], t2, rfl, ?_⟩
          rcases t2 with _ | ⟨s3, t3⟩ <;>
            simp [DecodeRuneInString, h, acceptRanges, c, d] <;> omega
  · rcases t with _ | ⟨s1, _ | ⟨s2, _ | ⟨s3, t3⟩⟩⟩
    · left; simp [DecodeRuneInString, h]
    · left; simp [DecodeRuneInString, h, acceptRanges]
    · left; simp [DecodeRuneInString, h, acceptRanges]
    · by_cases c : s1 < 0x90 ∨ 0xBF < s1
      · left
        simp [DecodeRuneInString, h, acceptRanges, c]
      · by_cases d : s2 < 0x80 ∨ 0xBF < s2
        · left
          simp [DecodeRuneInString, h, acceptRanges, c, d]
        · by_cases e : s3 < 0x80 ∨ 0xBF < s3
          · left
            simp [DecodeRuneInString, h, acceptRanges, c, d, e]
          · right
            refine ⟨[b, s1, s2, s3], t3, rfl, ?_⟩
            simp [DecodeRuneInString, h, acceptRanges, c, d, e]
            omega
  · rcases t with _ | ⟨s1, _ | ⟨s2, _ | ⟨s3, t3⟩⟩⟩
    · left; simp [DecodeRuneInString, h]
    · left; simp [DecodeRuneInString, h, acceptRanges]
    · left; simp [DecodeRuneInString, h, acceptRanges]
    · by_cases c : s1 < 0x80 ∨ 0xBF < s1
      · left
        simp [DecodeRuneInString, h, acceptRanges, c]
      · by_cases d : s2 < 0x80 ∨ 0xBF < s2
        · left
          simp [DecodeRuneInString, h, acceptRanges, c, d]
        · by_cases e : s3 < 0x80 ∨ 0xBF < s3
          · left
            simp [DecodeRuneInString, h, acceptRanges, c, d, e]
          · right
            refine ⟨[b, s1, s2, s3], t3, rfl, ?_⟩
            simp [DecodeRuneInString, h, acceptRanges, c, d, e]
            omega
  · rcases t with _ | ⟨s1, _ | ⟨s2, _ | ⟨s3, t3⟩⟩⟩
    · left; simp [DecodeRuneInString, h]
    · left; simp [DecodeRuneInString, h, acceptRanges]
    · left; simp [DecodeRuneInString, h, acceptRanges]
    · by_cases c : s1 < 0x80 ∨ 0x8F < s1
      · left
        simp [DecodeRuneInString, h, acceptRanges, c]
      · by_cases d : s2 < 0x80 ∨ 0xBF < s2
        · left
          simp [DecodeRuneInString, h, acceptRanges, c, d]
        · by_cases e : s3 < 0x80 ∨ 0xBF < s3
          · left
            simp [DecodeRuneInString, h, acceptRanges, c, d, e]
          · right
            refine ⟨[b, s1, s2, s3], t3, rfl, ?_⟩
            simp [DecodeRuneInString, h, acceptRanges, c, d, e]
            omega

theorem decode_ASCII (b : Nat) (t : GoString) (hb : b < 0x80) :
    DecodeRuneInString ((b :: t).take 4) = (b, 1) := by
  have h : first b = 0xF0 := by simp [first, hb]
  simp [DecodeRuneInString, h]

theorem psb_verbatim (tail : GoString) :
    ∀ (v : GoString) (n : Nat), (∀ x ∈ v, 0x80 ≤ x) →
      parseStringBody (n + v.length) (v ++ tail)
        = (parseStringBody n tail).map fun dr => (v ++ dr.1, dr.2) := by
  intro v
  induction v with
  | nil => intro n _; simp
  | cons x v ih =>
    intro n hv
    have hx : 0x80 ≤ x := hv x (List.mem_cons_self _ _)
    have hv2 : ∀ y ∈ v, 0x80 ≤ y := fun y hy => hv y (List.mem_cons_of_mem _ hy)
    have e : n + (x :: v).length = (n + v.length) + 1 := by simp; omega
    rw [e, List.cons_append, psb_plain _ _ _ (by omega) (by omega) (by omega), ih n hv2]
    cases parseStringBody n tail <;> simp

/-- Reading back what `appendString` wrote between the quotes gives the string coerced
to valid UTF-8, and stops after the closing quote. -/
theorem psb_appendStringLoop (rest : GoString) :
    ∀ (m : Nat) (s : GoString) (n : Nat), s.length ≤ m →
      (appendStringLoop m s).length + 1 ≤ n →
      parseStringBody n (appendStringLoop m s ++ 0x22 :: rest)
        = some (toValidUTF8Loop m s, rest) := by
  intro m
  induction m with
  | zero =>
    intro s n hs hn
    obtain ⟨k, rfl⟩ : ∃ k, n = k + 1 := ⟨n - 1, by omega⟩
    simp [appendStringLoop, toValidUTF8Loop, psb_quote]
  | succ m ih =>
    intro s n hs hn
    obtain ⟨k, rfl⟩ : ∃ k, n = k + 1 := ⟨n - 1, by omega⟩
    cases s with
    | nil => simp [appendStringLoop, toValidUTF8Loop, psb_quote]
    | cons b t =>
      have ht : t.length ≤ m := by simpa using hs
      by_cases hb : b < 0x80
      · have hd := decode_ASCII b t hb
        have hv : toValidUTF8Loop (m + 1) (b :: t) = b :: toValidUTF8Loop m t := by
          simp only [toValidUTF8Loop, hd]
          simp [RuneError]
          intro h; omega
        rw [hv]
        by_cases hsafe : htmlSafeSet b = true
        · have he : appendStringLoop (m + 1) (b :: t) = b :: appendStringLoop m t := by
            simp [appendStringLoop, hb, hsafe]
          rw [he] at hn ⊢
          have hp : b ≠ 0x22 ∧ b ≠ 0x5C ∧ 0x20 ≤ b := by
            simp [htmlSafeSet] at hsafe
            omega
          rw [List.cons_append, psb_plain _ _ _ hp.1 hp.2.1 hp.2.2,
            ih t k ht (by simpa using hn)]
          rfl
        · have he : appendStringLoop (m + 1) (b :: t)
              = escapeASCII b ++ appendStringLoop m t := by
            simp [appendStringLoop, hb, hsafe]
          rw [he] at hn ⊢
          have hl : 1 ≤ (escapeASCII b).length := by
            unfold escapeASCII; split_ifs <;> simp
          rw [List.append_assoc, psb_escapeASCII _ _ _ hb,
            ih t k ht (by simp at hn; omega)]
          rfl
      · rcases decode_nonASCII b t (by omega) with hinv | ⟨v, rest2, hsplit, hlen, h2, hall, h28, h29⟩
        · have he : appendStringLoop (m + 1) (b :: t)
              = [0x5C, 0x75, 0x66, 0x66, 0x66, 0x64] ++ appendStringLoop m t := by
            simp only [appendStringLoop, hinv]
            simp [hb]
          have hv : toValidUTF8Loop (m + 1) (b :: t) = [0xEF, 0xBF, 0xBD] ++ toValidUTF8Loop m t := by
            simp only [toValidUTF8Loop, hinv]
            simp
          rw [he] at hn ⊢
          rw [hv]
          have hx : hex4 0x66 0x66 0x66 0x64 = some 0xFFFD := by decide
          have hr : encodeRune 0xFFFD = [0xEF, 0xBF, 0xBD] := by decide
          simp only [List.cons_append, List.nil_append]
          rw [psb_u _ _ _ _ _ _ _ hx (by omega), ih t k ht (by simp at hn; omega), hr]
          rfl
        · have htake : (b :: t).take (DecodeRuneInString ((b :: t).take 4)).2 = v := by
            rw [← hlen, hsplit]; simp
          have hdrop : (b :: t).drop (DecodeRuneInString ((b :: t).take 4)).2 = rest2 := by
            rw [← hlen, hsplit]; simp
          have hne : ¬ ((DecodeRuneInString ((b :: t).take 4)).1 = RuneError ∧
              (DecodeRuneInString ((b :: t).take 4)).2 = 1) := by
            intro h; omega
          have hr2 : rest2.length ≤ m := by
            have := congrArg List.length hsplit
            simp at this hs
            omega
          have hv : toValidUTF8Loop (m + 1) (b :: t) = v ++ toValidUTF8Loop m rest2 := by
            simp only [toValidUTF8Loop, hne, if_false, htake, hdrop]
          rw [hv]
          by_cases hsep : (DecodeRuneInString ((b :: t).take 4)).1 = 0x2028 ∨
              (DecodeRuneInString ((b :: t).take 4)).1 = 0x2029
          · have he : appendStringLoop (m + 1) (b :: t)
                = [0x5C, 0x75, 0x32, 0x30, 0x32,
                    hex ((DecodeRuneInString ((b :: t).take 4)).1 % 16)]
                  ++ appendStringLoop m rest2 := by
              simp only [appendStringLoop, hne, if_false, hsep, if_true, hdrop]
              simp [hb]
            rw [he] at hn ⊢
            simp only [List.cons_append, List.nil_append]
            rcases hsep with h | h
            · have hx : hex4 0x32 0x30 0x32 (hex (0x2028 % 16)) = some 0x2028 := by decide
              have hr : encodeRune 0x2028 = [0xE2, 0x80, 0xA8] := by decide
              rw [h, psb_u _ _ _ _ _ _ _ hx (by omega), ih rest2 k hr2 (by simp at hn; omega),
                hr, h28 h]
              rfl
            · have hx : hex4 0x32 0x30 0x32 (hex (0x2029 % 16)) = some 0x2029 := by decide
              have hr : encodeRune 0x2029 = [0xE2, 0x80, 0xA9] := by decide
              rw [h, psb_u _ _ _ _ _ _ _ hx (by omega), ih rest2 k hr2 (by simp at hn; omega),
                hr, h29 h]
              rfl
          · have he : appendStringLoop (m + 1) (b :: t) = v ++ appendStringLoop m rest2 := by
              simp only [appendStringLoop, hne, if_false, hsep, htake, hdrop]
              simp [hb]
            rw [he] at hn ⊢
            obtain ⟨j, hj⟩ : ∃ j, k + 1 = j + v.length := ⟨k + 1 - v.length, by simp at hn; omega⟩
            rw [hj, List.append_assoc, psb_verbatim _ v j hall,
              ih rest2 j hr2 (by simp at hn; omega)]
            rfl

/-- A JSON string written by `appendString` reads back as the string coerced to valid
UTF-8, whatever follows it. -/
theorem parseString_appendString (s tail : GoString) :
    parseString (appendString s ++ tail) = some (toValidUTF8 s, tail) := by
  unfold appendString toValidUTF8
  simp only [List.cons_append, List.nil_append, List.append_assoc, parseString]
  exact psb_appendStringLoop tail s.length s _ (le_refl _) (by simp)

theorem toValidUTF8Loop_of_valid :
    ∀ (m : Nat) (s : GoString), s.length ≤ m → validLoop m s = true →
      toValidUTF8Loop m s = s := by
  intro m
  induction m with
  | zero =>
    intro s hs _
    have : s = [] := List.eq_nil_of_length_eq_zero (by omega)
    subst this
    simp [toValidUTF8Loop]
  | succ m ih =>
    intro s hs hv
    cases s with
    | nil => simp [toValidUTF8Loop]
    | cons b t =>
      have hpos : ¬ ((DecodeRuneInString ((b :: t).take 4)).1 = RuneError ∧
          (DecodeRuneInString ((b :: t).take 4)).2 = 1) := by
        intro h
        simp only [validLoop] at hv
        rw [if_pos h] at hv
        exact Bool.false_ne_true hv
      have h1 : 1 ≤ (DecodeRuneInString ((b :: t).take 4)).2 := by
        by_cases hb : b < 0x80
        · rw [decode_ASCII b t hb]
        · rcases decode_nonASCII b t (by omega) with h | ⟨v, r, _, hl, h2, _⟩
          · rw [h]
          · omega
      have hv2 : validLoop m ((b :: t).drop (DecodeRuneInString ((b :: t).take 4)).2) = true := by
        simp only [validLoop] at hv
        rw [if_neg hpos] at hv
        exact hv
      have hl : ((b :: t).drop (DecodeRuneInString ((b :: t).take 4)).2).length ≤ m := by
        simp only [List.length_drop, List.length_cons] at hs ⊢
        omega
      simp only [toValidUTF8Loop, hpos, if_false]
      rw [ih _ hl hv2, List.take_append_drop]

/-- Coercion to valid UTF-8 leaves a valid string as it is. -/
theorem toValidUTF8_of_valid (s : GoString) (h : ValidString s = true) : toValidUTF8 s = s :=
  toValidUTF8Loop_of_valid s.length s (le_refl _) h

theorem skipWS_quote (s tail : GoString) :
    skipWS (appendString s ++ tail) = appendString s ++ tail := by
  simp [appendString, skipWS]

theorem parseValue_appendString (n : Nat) (s tail : GoString) :
    parseValue (n + 1) (appendString s ++ tail) = some (JSON.str (toValidUTF8 s), tail) := by
  have h := parseString_appendString s tail
  have hw := skipWS_quote s tail
  unfold parseValue
  rw [hw]
  simp only [appendString, List.cons_append, List.nil_append, List.append_assoc] at h ⊢
  simp [h]

/-- The members of an object whose names and values were all written by `appendString`
read back one by one, up to the closing brace. -/
theorem parseMembers_strings (tail : GoString) :
    ∀ (ms : List (GoString × GoString)) (n : Nat), ms ≠ [] → ms.length + 1 ≤ n →
      parseMembers n
          (joinMembers (ms.map fun kv => (appendString kv.1, appendString kv.2))
            ++ 0x7D :: tail)
        = some (ms.map fun kv => (toValidUTF8 kv.1, JSON.str (toValidUTF8 kv.2)), tail) := by
  intro ms
  induction ms with
  | nil => intro n h; exact absurd rfl h
  | cons kv rest ih =>
    intro n _ hn
    obtain ⟨k, rfl⟩ : ∃ k, n = k + 2 := ⟨n - 2, by simp at hn; omega⟩
    cases rest with
    | nil =>
      simp only [List.map, joinMembers, List.append_assoc, List.cons_append, List.nil_append]
      unfold parseMembers
      rw [skipWS_quote, parseString_appendString]
      simp only [skipWS]
      simp [parseValue_appendString, skipWS]
    | cons kv2 rest2 =>
      have ih2 := ih (k + 1) (by simp) (by simp at hn ⊢; omega)
      simp only [List.map, joinMembers, List.append_assoc, List.cons_append, List.nil_append]
        at ih2 ⊢
      unfold parseMembers
      rw [skipWS_quote, parseString_appendString]
      simp only [skipWS]
      simp [parseValue_appendString, skipWS, ih2]

theorem joinMembers_length (ms : List (GoString × GoString)) :
    ms.length ≤ (joinMembers ms).length := by
  induction ms with
  | nil => simp
  | cons kv rest ih =>
    cases rest with
    | nil => simp [joinMembers]; omega
    | cons kv2 rest2 =>
      simp only [joinMembers, List.length_append, List.length_cons] at ih ⊢
      omega

theorem parseValue_object (n : Nat) (J rest : GoString)
    (ms : List (GoString × JSON)) (after : GoString)
    (hp : parseMembers n (0x22 :: (J ++ rest)) = some (ms, after)) :
    parseValue (n + 1) (0x7B :: 0x22 :: (J ++ rest)) = some (JSON.obj ms, after) := by
  unfold parseValue
  simp [skipWS, hp]

theorem joinMembers_quote (kv : GoString × GoString) (rest : List (GoString × GoString)) :
    ∃ J, joinMembers
        ((kv :: rest).map fun kv => (appendString kv.1, appendString kv.2)) = 0x22 :: J := by
  cases rest with
  | nil => exact ⟨_, by simp [joinMembers, appendString]; rfl⟩
  | cons kv2 rest2 => exact ⟨_, by simp [joinMembers, appendString]; rfl⟩

/-- A struct whose fields are all strings, written by the encoder and followed by a line
feed, decodes as the object with those members in declaration order. -/
theorem decodeJSON_encodeStruct (fields : List (GoString × GoString)) (h : fields ≠ []) :
    decodeJSON (encodeStruct (fields.map fun kv => (kv.1, appendString kv.2)) ++ [0x0A])
      = some (JSON.obj
          (fields.map fun kv => (toValidUTF8 kv.1, JSON.str (toValidUTF8 kv.2)))) := by
  cases fields with
  | nil => exact absurd rfl h
  | cons kv rest =>
    have hl := joinMembers_length
      ((kv :: rest).map fun kv => (appendString kv.1, appendString kv.2))
    obtain ⟨J, hJ⟩ := joinMembers_quote kv rest
    unfold decodeJSON encodeStruct encodeObject
    simp only [List.map_map, List.cons_append, List.nil_append, List.append_assoc]
    have hcomp : ((fun kv : GoString × GoString => (appendString kv.1, kv.2)) ∘
        fun kv : GoString × GoString => (kv.1, appendString kv.2))
        = fun kv => (appendString kv.1, appendString kv.2) := rfl
    rw [hcomp]
    have hm := parseMembers_strings [0x0A] (kv :: rest)
      ((0x7B :: (joinMembers ((kv :: rest).map fun kv =>
        (appendString kv.1, appendString kv.2)) ++ [0x7D, 0x0A])).length)
      (by simp) (by simp only [List.length_cons, List.length_append, List.length_map] at hl ⊢; omega)
    rw [hJ] at hm ⊢
    simp only [List.cons_append] at hm ⊢
    rw [parseValue_object _ _ _ _ _ hm]
    simp [skipWS]

/-! ## The info endpoint -/

theorem infoHandler_body (p : Process) (r : Request) :
    (infoHandler p ResponseWriter.fresh r).body
      = encodeStruct
          ([(lit "message", (infoResponse p).Message),
            (lit "application", (infoResponse p).Application),
            (lit "environment", (infoResponse p).Environment)].map
              fun kv => (kv.1, appendString kv.2)) ++ [0x0A] := rfl

theorem infoResponse_environment (p : Process) :
    (infoResponse p).Environment =
      (match p.env (lit "ENVIRONMENT") with
       | none => lit "development"
       | some [] => lit "development"
       | some (b :: v) => b :: v) := by
  unfold infoResponse Getenv
  cases h : p.env (lit "ENVIRONMENT") with
  | none => simp
  | some v =>
    cases v with
    | nil => simp
    | cons b v => simp

/-- C2 (as the code has it): for every process state and request, `infoHandler` answers
200 with Content-Type "application/json" and a body that decodes as the object with
exactly the members message, application and environment; environment is "development"
when `ENVIRONMENT` is unset or empty and otherwise the value of `ENVIRONMENT` coerced to
valid UTF-8, which is the value itself whenever the value is valid UTF-8. -/
theorem infoHandler_response (p : Process) (r : Request) :
    let e : GoString :=
      (match p.env (lit "ENVIRONMENT") with
       | none => lit "development"
       | some [] => lit "development"
       | some (b :: v) => b :: v)
    (infoHandler p ResponseWriter.fresh r).status = some 200 ∧
    (infoHandler p ResponseWriter.fresh r).sent (lit "Content-Type")
      = some (lit "application/json") ∧
    decodeJSON (infoHandler p ResponseWriter.fresh r).body
      = some (JSON.obj
          [(lit "message", JSON.str (lit "Go application built with OpenShift S2I")),
           (lit "application", JSON.str (lit "s2i-go-demo")),
           (lit "environment", JSON.str (toValidUTF8 e))]) ∧
    (ValidString e = true → toValidUTF8 e = e) := by
  intro e
  refine ⟨rfl, rfl, ?_, toValidUTF8_of_valid e⟩
  rw [infoHandler_body, decodeJSON_encodeStruct _ (by simp), infoResponse_environment]
  have k1 : toValidUTF8 (lit "message") = lit "message" := by decide
  have k2 : toValidUTF8 (lit "application") = lit "application" := by decide
  have k3 : toValidUTF8 (lit "environment") = lit "environment" := by decide
  have v1 : toValidUTF8 (infoResponse p).Message
      = lit "Go application built with OpenShift S2I" := by
    show toValidUTF8 (lit "Go application built with OpenShift S2I") = _
    decide
  have v2 : toValidUTF8 (infoResponse p).Application = lit "s2i-go-demo" := by
    show toValidUTF8 (lit "s2i-go-demo") = _
    decide
  simp only [List.map, k1, k2, k3, v1, v2]

/-- C2 at `ENVIRONMENT=staging`: the environment member is "staging". -/
theorem infoHandler_response_staging :
    decodeJSON (infoHandler stagingProcess ResponseWriter.fresh sampleRequest).body
      = some (JSON.obj
          [(lit "message", JSON.str (lit "Go application built with OpenShift S2I")),
           (lit "application", JSON.str (lit "s2i-go-demo")),
           (lit "environment", JSON.str (lit "staging"))]) :=
  (infoHandler_response stagingProcess sampleRequest).2.2.1.trans (by rfl)

/-- C2 fails as stated: with `ENVIRONMENT` set to the byte 0xFF the environment member of
the body is U+FFFD, so the body does not decode to an object whose environment member
equals the value of `ENVIRONMENT`. -/
theorem infoHandler_invalid_utf8 :
    decodeJSON (infoHandler invalidEnvProcess ResponseWriter.fresh sampleRequest).body
      = some (JSON.obj
          [(lit "message", JSON.str (lit "Go application built with OpenShift S2I")),
           (lit "application", JSON.str (lit "s2i-go-demo")),
           (lit "environment", JSON.str [0xEF, 0xBF, 0xBD])]) ∧
    ¬ ∃ members,
      decodeJSON (infoHandler invalidEnvProcess ResponseWriter.fresh sampleRequest).body
        = some (JSON.obj members) ∧
      members.Perm
        [(lit "message", JSON.str (lit "Go application built with OpenShift S2I")),
         (lit "application", JSON.str (lit "s2i-go-demo")),
         (lit "environment", JSON.str [0xFF])] := by
  have h : decodeJSON (infoHandler invalidEnvProcess ResponseWriter.fresh sampleRequest).body
      = some (JSON.obj
          [(lit "message", JSON.str (lit "Go application built with OpenShift S2I")),
           (lit "application", JSON.str (lit "s2i-go-demo")),
           (lit "environment", JSON.str [0xEF, 0xBF, 0xBD])]) := by rfl
  refine ⟨h, ?_⟩
  rintro ⟨members, hd, hp⟩
  rw [h] at hd
  have hm : members = _ := (JSON.obj.inj (Option.some.inj hd)).symm
  subst hm
  have hmem := hp.mem_iff.mpr (List.mem_cons_of_mem _ (List.mem_cons_of_mem _ (List.mem_singleton.mpr rfl)))
  have e1 : lit "environment" ≠ lit "message" := by decide
  have e2 : lit "environment" ≠ lit "application" := by decide
  simp [e1, e2] at hmem


/-! ## Durations: rounding -/

theorem tmod_of_neg (d m : Int) (hd : d < 0) (hm : 0 < m) : d.tmod m = -((-d) % m) := by
  have h1 : (-d).tmod m = (-d) % m := Int.tmod_eq_emod (by omega) (by omega)
  have h2 := Int.tmod_def d m
  have h3 := Int.tmod_def (-d) m
  have h4 : (-d).tdiv m = -(d.tdiv m) := Int.neg_tdiv d m
  rw [h4] at h3
  rw [← h1, h3, h2]
  ring

theorem wrapInt64_range (x : Int) : minDuration ≤ wrapInt64 x ∧ wrapInt64 x ≤ maxDuration := by
  unfold wrapInt64 minDuration maxDuration
  omega

theorem subMono_range (t u : Int) : minDuration ≤ subMono t u ∧ subMono t u ≤ maxDuration := by
  have h := wrapInt64_range (t - u)
  unfold subMono
  simp only
  split_ifs <;> simp only [minDuration, maxDuration] at h ⊢ <;> omega

theorem timeSince_range (c : ClockReading) (t : Time) :
    minDuration ≤ timeSince c t ∧ timeSince c t ≤ maxDuration := by
  unfold timeSince
  cases ht : t.mono with
  | some m => exact subMono_range _ _
  | none =>
    simp only [Time.Sub]
    have hw := fun x => wrapInt64_range x
    split
    · exact subMono_range _ _
    · split_ifs
      · exact hw _
      · simp [minDuration, maxDuration]
      · simp [minDuration, maxDuration]

/-- Rounding a non-negative duration to the second: the nearest second, halves up, unless
that exceeds the largest duration. -/
theorem round_nonneg (d : Int) (h0 : 0 ≤ d) (h1 : d ≤ maxDuration) :
    Duration.Round d Second =
      if d < 9223372036500000000 then (d + 500000000) / 1000000000 * 1000000000
      else maxDuration := by
  unfold maxDuration at h1
  have hm : Int.tmod d 1000000000 = d % 1000000000 := Int.tmod_eq_emod h0 (by omega)
  unfold Duration.Round lessThanHalf toUint64 wrapInt64 Second maxDuration
  simp only [hm]
  split_ifs <;> simp at * <;> omega

/-- Rounding a negative duration to the second: the nearest second, halves down, unless
that falls below the smallest duration. -/
theorem round_neg (d : Int) (h0 : d < 0) (h1 : minDuration ≤ d) :
    Duration.Round d Second =
      if -9223372036500000000 < d then -((-d + 500000000) / 1000000000 * 1000000000)
      else minDuration := by
  unfold minDuration at h1
  have hm : Int.tmod d 1000000000 = -((-d) % 1000000000) := tmod_of_neg d _ h0 (by omega)
  unfold Duration.Round lessThanHalf toUint64 wrapInt64 Second minDuration
  simp only [hm]
  split_ifs <;> simp at * <;> omega

/-! ## Durations: printing and reading back -/

theorem fmtFracLoop_whole :
    ∀ (k v : Nat), v % 10 ^ k = 0 → fmtFracLoop k v false [] = ([], v / 10 ^ k, false) := by
  intro k
  induction k with
  | zero => intro v _; simp [fmtFracLoop]
  | succ k ih =>
    intro v hv
    obtain ⟨c, rfl⟩ : 10 ^ (k + 1) ∣ v := Nat.dvd_of_mod_eq_zero hv
    have e1 : 10 ^ (k + 1) * c = 10 * (10 ^ k * c) := by ring
    have h10 : (10 ^ (k + 1) * c) % 10 = 0 := by rw [e1]; simp
    have hdiv : (10 ^ (k + 1) * c) / 10 = 10 ^ k * c := by rw [e1]; simp
    have hk : (10 ^ k * c) % 10 ^ k = 0 := by simp
    simp only [fmtFracLoop, h10, hdiv]
    simp only [ne_eq, not_true_eq_false, decide_False, Bool.or_false, Bool.false_eq_true,
      if_false]
    rw [ih _ hk]
    have hp : 0 < 10 ^ k := Nat.pow_pos (by omega)
    have hp1 : 0 < 10 ^ (k + 1) := Nat.pow_pos (by omega)
    rw [Nat.mul_div_cancel_left _ hp, Nat.mul_div_cancel_left _ hp1]

theorem fmtFrac_whole (n : Nat) : fmtFrac (n * 1000000000) 9 = ([], n) := by
  have h := fmtFracLoop_whole 9 (n * 1000000000) (by norm_num)
  have e : n * 1000000000 / 10 ^ 9 = n := by norm_num
  simp [fmtFrac, h, e]

theorem fmtIntLoop_append :
    ∀ (n v : Nat) (buf : GoString), fmtIntLoop n v buf = fmtIntLoop n v [] ++ buf := by
  intro n
  induction n with
  | zero => intro v buf; simp [fmtIntLoop]
  | succ n ih =>
    intro v buf
    simp only [fmtIntLoop]
    split_ifs
    · rw [ih _ (_ :: buf), ih _ [_]]
      simp
    · simp

theorem fmtIntLoop_digits :
    ∀ (n v : Nat), ∀ x ∈ fmtIntLoop n v [], 0x30 ≤ x ∧ x ≤ 0x39 := by
  intro n
  induction n with
  | zero => intro v x hx; simp [fmtIntLoop] at hx
  | succ n ih =>
    intro v x hx
    simp only [fmtIntLoop] at hx
    split_ifs at hx
    · rw [fmtIntLoop_append] at hx
      rcases List.mem_append.mp hx with h | h
      · exact ih _ x h
      · simp at h
        omega
    · simp at hx

theorem fmtInt_digits (v : Nat) : ∀ x ∈ fmtInt v, 0x30 ≤ x ∧ x ≤ 0x39 := by
  intro x hx
  unfold fmtInt at hx
  split_ifs at hx
  · simp at hx; omega
  · exact fmtIntLoop_digits _ _ x hx

theorem fmtInt_ne_nil (v : Nat) : fmtInt v ≠ [] := by
  unfold fmtInt
  split_ifs with h
  · simp
  · obtain ⟨k, rfl⟩ : ∃ k, v = k + 1 := ⟨v - 1, by omega⟩
    simp only [fmtIntLoop]
    rw [if_pos (by omega), fmtIntLoop_append]
    simp

theorem parseDigits_stop (acc cnt b : Nat) (rest : GoString) (h : ¬ (0x30 ≤ b ∧ b ≤ 0x39)) :
    parseDigits acc cnt (b :: rest) = (acc, cnt, b :: rest) := by
  simp only [parseDigits, h, if_false]

theorem parseDigits_fmtIntLoop :
    ∀ (n v : Nat), v ≤ n → ∀ (acc cnt : Nat) (tail : GoString),
      parseDigits acc cnt (fmtIntLoop n v [] ++ tail)
        = parseDigits (acc * 10 ^ (fmtIntLoop n v []).length + v)
            (cnt + (fmtIntLoop n v []).length) tail := by
  intro n
  induction n with
  | zero =>
    intro v hv acc cnt tail
    have : v = 0 := by omega
    subst this
    simp [fmtIntLoop]
  | succ n ih =>
    intro v hv acc cnt tail
    by_cases h0 : v > 0
    · have hle : v / 10 ≤ n := by omega
      have e : fmtIntLoop (n + 1) v [] = fmtIntLoop n (v / 10) [] ++ [v % 10 + 48] := by
        simp only [fmtIntLoop, h0, if_true]
        rw [fmtIntLoop_append]
      rw [e, List.append_assoc, ih _ hle]
      have hd : 0x30 ≤ v % 10 + 48 ∧ v % 10 + 48 ≤ 0x39 := by omega
      simp only [List.singleton_append, parseDigits, hd, and_self, if_true, List.length_append,
        List.length_singleton]
      congr 1
      · rw [pow_succ]
        have := Nat.div_add_mod v 10
        have e2 : v % 10 + 48 - 48 = v % 10 := by omega
        rw [e2]
        nlinarith [Nat.div_add_mod v 10]
    · have : v = 0 := by omega
      subst this
      simp [fmtIntLoop]

theorem parseDigits_fmtInt (v b : Nat) (rest : GoString) (h : ¬ (0x30 ≤ b ∧ b ≤ 0x39)) :
    parseDigits 0 0 (fmtInt v ++ b :: rest) = (v, (fmtInt v).length, b :: rest) := by
  unfold fmtInt
  split_ifs with h0
  · subst h0
    have e : parseDigits 0 0 ([0x30] ++ b :: rest) = parseDigits 0 1 (b :: rest) := by
      simp [parseDigits]
    rw [e, parseDigits_stop _ _ _ _ h]
    simp
  · rw [parseDigits_fmtIntLoop v v (le_refl _), parseDigits_stop _ _ _ _ h]
    simp

theorem String_nonneg (d : Int) (h0 : 0 ≤ d) (h1 : d ≤ maxDuration) :
    Duration.String d = formatMagnitude d.toNat := by
  unfold maxDuration at h1
  have e : toUint64 d = d := by unfold toUint64; omega
  have hn : ¬ d < 0 := by omega
  simp [Duration.String, e, hn]

theorem String_neg (d : Int) (h0 : d < 0) (h1 : minDuration ≤ d) :
    Duration.String d = 0x2D :: formatMagnitude (-d).toNat := by
  unfold minDuration at h1
  have e : toUint64 (-toUint64 d) = -d := by unfold toUint64; omega
  simp [Duration.String, e, h0]

theorem parseTerms_last (n v : Nat) :
    parseTerms (n + 1) (fmtInt v ++ [0x73]) = some (v * 1000000000) := by
  have hl : (fmtInt v).length ≠ 0 := by
    have := fmtInt_ne_nil v
    intro h
    exact this (List.eq_nil_of_length_eq_zero h)
  simp only [parseTerms, parseDigits_fmtInt v 0x73 [] (by omega)]
  simp [hl, parseUnit]

theorem parseTerms_minutes (n v : Nat) (rest : GoString)
    (hr : ∃ b t, rest = b :: t ∧ 0x30 ≤ b ∧ b ≤ 0x39) :
    parseTerms (n + 1) (fmtInt v ++ [0x6D] ++ rest)
      = (parseTerms n rest).map fun w => v * 60000000000 + w := by
  obtain ⟨b, t, rfl, hb1, hb2⟩ := hr
  have hl : (fmtInt v).length ≠ 0 := by
    have := fmtInt_ne_nil v
    intro h
    exact this (List.eq_nil_of_length_eq_zero h)
  have hu : parseUnit (0x6D :: b :: t) = some (60000000000, b :: t) := by
    have : b ≠ 0x73 := by omega
    simp [parseUnit, this]
  simp only [List.append_assoc, List.singleton_append, parseTerms,
    parseDigits_fmtInt v 0x6D (b :: t) (by omega)]
  simp [hl, hu]

theorem parseTerms_hours (n v : Nat) (rest : GoString)
    (hr : ∃ b t, rest = b :: t ∧ 0x30 ≤ b ∧ b ≤ 0x39) :
    parseTerms (n + 1) (fmtInt v ++ [0x68] ++ rest)
      = (parseTerms n rest).map fun w => v * 3600000000000 + w := by
  obtain ⟨b, t, rfl, hb1, hb2⟩ := hr
  have hl : (fmtInt v).length ≠ 0 := by
    have := fmtInt_ne_nil v
    intro h
    exact this (List.eq_nil_of_length_eq_zero h)
  simp only [List.append_assoc, List.singleton_append, parseTerms,
    parseDigits_fmtInt v 0x68 (b :: t) (by omega)]
  simp [hl, parseUnit]

theorem fmtInt_head (v : Nat) (rest : GoString) :
    ∃ b t, fmtInt v ++ rest = b :: t ∧ 0x30 ≤ b ∧ b ≤ 0x39 := by
  have hne := fmtInt_ne_nil v
  have hd := fmtInt_digits v
  cases h : fmtInt v with
  | nil => exact absurd h hne
  | cons b t =>
    rw [h] at hd
    exact ⟨b, t ++ rest, rfl, hd b (List.mem_cons_self _ _)⟩

/-- The text `Duration.format` writes for a whole number of seconds, at least one: it
reads back as that many seconds, starts with a digit and has only digits and the unit
letters h, m and s. -/
theorem formatMagnitude_whole (n : Nat) (h1 : 1 ≤ n) :
    parseTerms (formatMagnitude (n * 1000000000)).length (formatMagnitude (n * 1000000000))
      = some (n * 1000000000) ∧
    (∀ x ∈ formatMagnitude (n * 1000000000),
      (0x30 ≤ x ∧ x ≤ 0x39) ∨ x = 0x68 ∨ x = 0x6D ∨ x = 0x73) ∧
    (∃ b t, formatMagnitude (n * 1000000000) = b :: t ∧ 0x30 ≤ b ∧ b ≤ 0x39) := by
  have hge : ¬ n * 1000000000 < 1000000000 := by omega
  have hs := fmtInt_ne_nil (n % 60)
  have hls : 1 ≤ (fmtInt (n % 60)).length := by
    rcases h : fmtInt (n % 60) with _ | ⟨b, t⟩
    · exact absurd h hs
    · simp
  by_cases hm : n / 60 > 0
  · have hlm : 1 ≤ (fmtInt (n / 60 % 60)).length := by
      rcases h : fmtInt (n / 60 % 60) with _ | ⟨b, t⟩
      · exact absurd h (fmtInt_ne_nil _)
      · simp
    by_cases hh : n / 60 / 60 > 0
    · have e : formatMagnitude (n * 1000000000)
          = fmtInt (n / 60 / 60) ++ [0x68] ++
              (fmtInt (n / 60 % 60) ++ [0x6D] ++ (fmtInt (n % 60) ++ [0x73])) := by
        simp [formatMagnitude, hge, fmtFrac_whole, hm, hh]
      rw [e]
      refine ⟨?_, ?_, ?_⟩
      · obtain ⟨k, hk⟩ : ∃ k, (fmtInt (n / 60 / 60) ++ [0x68] ++
            (fmtInt (n / 60 % 60) ++ [0x6D] ++ (fmtInt (n % 60) ++ [0x73]))).length = k + 3 :=
          ⟨(fmtInt (n / 60 / 60)).length + (fmtInt (n / 60 % 60)).length
              + (fmtInt (n % 60)).length,
            by simp only [List.length_append, List.length_singleton]; omega⟩
        rw [hk, parseTerms_hours _ _ _ (by simpa using fmtInt_head _ _),
          parseTerms_minutes _ _ _ (fmtInt_head _ _), parseTerms_last]
        simp
        omega
      · intro x hx
        simp only [List.mem_append, List.mem_singleton] at hx
        rcases hx with (h | h) | (h | h) | h | h
        · exact Or.inl (fmtInt_digits _ x h)
        · simp [h]
        · exact Or.inl (fmtInt_digits _ x h)
        · simp [h]
        · exact Or.inl (fmtInt_digits _ x h)
        · simp [h]
      · simpa using fmtInt_head (n / 60 / 60) _
    · have e : formatMagnitude (n * 1000000000)
          = fmtInt (n / 60 % 60) ++ [0x6D] ++ (fmtInt (n % 60) ++ [0x73]) := by
        simp [formatMagnitude, hge, fmtFrac_whole, hm, hh]
      rw [e]
      refine ⟨?_, ?_, ?_⟩
      · obtain ⟨k, hk⟩ : ∃ k, (fmtInt (n / 60 % 60) ++ [0x6D] ++
            (fmtInt (n % 60) ++ [0x73])).length = k + 2 :=
          ⟨(fmtInt (n / 60 % 60)).length + (fmtInt (n % 60)).length,
            by simp only [List.length_append, List.length_singleton]; omega⟩
        rw [hk, parseTerms_minutes _ _ _ (fmtInt_head _ _), parseTerms_last]
        simp
        omega
      · intro x hx
        simp only [List.mem_append, List.mem_singleton] at hx
        rcases hx with (h | h) | h | h
        · exact Or.inl (fmtInt_digits _ x h)
        · simp [h]
        · exact Or.inl (fmtInt_digits _ x h)
        · simp [h]
      · simpa using fmtInt_head (n / 60 % 60) _
  · have e : formatMagnitude (n * 1000000000) = fmtInt (n % 60) ++ [0x73] := by
      simp [formatMagnitude, hge, fmtFrac_whole, hm]
    rw [e]
    refine ⟨?_, ?_, ?_⟩
    · obtain ⟨k, hk⟩ : ∃ k, (fmtInt (n % 60) ++ [0x73]).length = k + 1 :=
        ⟨(fmtInt (n % 60)).length, by simp only [List.length_append, List.length_singleton]⟩
      rw [hk, parseTerms_last]
      simp
      omega
    · intro x hx
      simp only [List.mem_append, List.mem_singleton] at hx
      rcases hx with h | h
      · exact Or.inl (fmtInt_digits _ x h)
      · simp [h]
    · exact fmtInt_head (n % 60) _

theorem parseDuration_digit (b : Nat) (t : GoString) (h : 0x30 ≤ b ∧ b ≤ 0x39) :
    parseDuration (b :: t)
      = (parseTerms (b :: t).length (b :: t)).map fun v => (v : Int) := by
  have h1 : b ≠ 0x2D := by omega
  have h2 : b ≠ 0x2B := by omega
  unfold parseDuration
  split
  · rename_i heq; simp at heq; omega
  · rename_i heq; simp at heq; omega
  · rfl

/-- A duration of a whole number of seconds, printed and read back, is the same
duration. -/
theorem parseDuration_String_whole (d : Int) (h0 : minDuration ≤ d) (h1 : d ≤ maxDuration)
    (hw : d % 1000000000 = 0) :
    parseDuration (Duration.String d) = some d := by
  rcases lt_trichotomy d 0 with hneg | hz | hpos
  · obtain ⟨n, hn⟩ : ∃ n : Nat, -d = (n : Int) * 1000000000 :=
      ⟨(-d / 1000000000).toNat, by omega⟩
    have hn1 : 1 ≤ n := by omega
    have ht : (-d).toNat = n * 1000000000 := by omega
    obtain ⟨hp, _, _⟩ := formatMagnitude_whole n hn1
    rw [String_neg d hneg h0, ht]
    have e : parseDuration (0x2D :: formatMagnitude (n * 1000000000))
        = (parseTerms (formatMagnitude (n * 1000000000)).length
            (formatMagnitude (n * 1000000000))).map fun v => -(v : Int) := rfl
    rw [e, hp]
    simp
    omega
  · subst hz
    decide
  · obtain ⟨n, hn⟩ : ∃ n : Nat, d = (n : Int) * 1000000000 :=
      ⟨(d / 1000000000).toNat, by omega⟩
    have hn1 : 1 ≤ n := by omega
    have ht : d.toNat = n * 1000000000 := by omega
    obtain ⟨hp, _, b, t, hb, hb1, hb2⟩ := formatMagnitude_whole n hn1
    rw [String_nonneg d (by omega) h1, ht]
    rw [hb] at hp ⊢
    rw [parseDuration_digit b t ⟨hb1, hb2⟩, hp]
    simp
    omega

/-- A duration of a whole number of seconds prints without a decimal point. -/
theorem String_whole_no_point (d : Int) (h0 : 0 ≤ d) (h1 : d ≤ maxDuration)
    (hw : d % 1000000000 = 0) : 0x2E ∉ Duration.String d := by
  rcases eq_or_lt_of_le h0 with hz | hpos
  · subst hz
    decide
  · obtain ⟨n, hn⟩ : ∃ n : Nat, d = (n : Int) * 1000000000 :=
      ⟨(d / 1000000000).toNat, by omega⟩
    have hn1 : 1 ≤ n := by omega
    have ht : d.toNat = n * 1000000000 := by omega
    obtain ⟨_, hall, _⟩ := formatMagnitude_whole n hn1
    rw [String_nonneg d h0 h1, ht]
    intro hmem
    have := hall _ hmem
    omega

theorem round_result (d : Int) (h0 : minDuration ≤ d) (h1 : d ≤ maxDuration) :
    minDuration ≤ Duration.Round d Second ∧ Duration.Round d Second ≤ maxDuration ∧
    (Duration.Round d Second % 1000000000 = 0 ∨ Duration.Round d Second = maxDuration ∨
      Duration.Round d Second = minDuration) := by
  rcases lt_or_le d 0 with hneg | hpos
  · rw [round_neg d hneg h0]
    unfold minDuration maxDuration at *
    split_ifs <;> omega
  · rw [round_nonneg d hpos h1]
    unfold minDuration maxDuration at *
    split_ifs <;> omega

/-- Whatever `Duration.Round` returns for the second, printed and read back, is that
duration. -/
theorem parseDuration_String_round (d : Int) (h0 : minDuration ≤ d) (h1 : d ≤ maxDuration) :
    parseDuration (Duration.String (Duration.Round d Second))
      = some (Duration.Round d Second) := by
  obtain ⟨a, b, hw | hmax | hmin⟩ := round_result d h0 h1
  · exact parseDuration_String_whole _ a b hw
  · rw [hmax]; decide
  · rw [hmin]; decide

/-- Rounding to the second is monotone over the whole range of durations. -/
theorem round_mono (a b : Int) (ha : minDuration ≤ a) (hb : b ≤ maxDuration) (hab : a ≤ b) :
    Duration.Round a Second ≤ Duration.Round b Second := by
  have ha1 : a ≤ maxDuration := le_trans hab hb
  have hb0 : minDuration ≤ b := le_trans ha hab
  rcases lt_or_le a 0 with han | hap <;> rcases lt_or_le b 0 with hbn | hbp
  · rw [round_neg a han ha, round_neg b hbn hb0]
    unfold minDuration maxDuration at *
    split_ifs <;> omega
  · rw [round_neg a han ha, round_nonneg b hbp hb]
    unfold minDuration maxDuration at *
    split_ifs <;> omega
  · omega
  · rw [round_nonneg a hap ha1, round_nonneg b hbp hb]
    unfold minDuration maxDuration at *
    split_ifs <;> omega

/-! ## The uptime field -/

/-- C6 (as the code has it): for every elapsed time `d` from zero up to, but not
including, 9223372036.5 s (about 292 years), the uptime field is the duration string of
`d` rounded to the nearest whole second, halves up; it reads back as that many seconds
and has no fractional part; 5 s gives "5s", 90 s "1m30s", 5.4 s "5s", 5.5 s "6s" and
less than 0.5 s "0s". -/
theorem uptime_nearest_second (p : Process)
    (h0 : 0 ≤ timeSince p.sinceClock p.startTime)
    (h1 : timeSince p.sinceClock p.startTime < 9223372036500000000) :
    (healthResponse p).Uptime
      = Duration.String
          ((timeSince p.sinceClock p.startTime + 500000000) / 1000000000 * 1000000000) ∧
    parseDuration (healthResponse p).Uptime
      = some ((timeSince p.sinceClock p.startTime + 500000000) / 1000000000 * 1000000000) ∧
    0x2E ∉ (healthResponse p).Uptime ∧
    (timeSince p.sinceClock p.startTime = 5000000000 →
      (healthResponse p).Uptime = lit "5s") ∧
    (timeSince p.sinceClock p.startTime = 90000000000 →
      (healthResponse p).Uptime = lit "1m30s") ∧
    (timeSince p.sinceClock p.startTime = 5400000000 →
      (healthResponse p).Uptime = lit "5s") ∧
    (timeSince p.sinceClock p.startTime = 5500000000 →
      (healthResponse p).Uptime = lit "6s") ∧
    (timeSince p.sinceClock p.startTime < 500000000 →
      (healthResponse p).Uptime = lit "0s") := by
  have hmax : timeSince p.sinceClock p.startTime ≤ maxDuration := by
    unfold maxDuration; omega
  have hr := round_nonneg _ h0 hmax
  rw [if_pos h1] at hr
  have hu : (healthResponse p).Uptime
      = Duration.String (Duration.Round (timeSince p.sinceClock p.startTime) Second) := rfl
  have hrange : 0 ≤ (timeSince p.sinceClock p.startTime + 500000000) / 1000000000 * 1000000000
      ∧ (timeSince p.sinceClock p.startTime + 500000000) / 1000000000 * 1000000000
        ≤ maxDuration
      ∧ ((timeSince p.sinceClock p.startTime + 500000000) / 1000000000 * 1000000000)
        % 1000000000 = 0 := by
    unfold maxDuration; omega
  rw [hu, hr]
  refine ⟨rfl, ?_, ?_, ?_, ?_, ?_, ?_, ?_⟩
  · exact parseDuration_String_whole _ (by unfold minDuration; omega) hrange.2.1 hrange.2.2
  · exact String_whole_no_point _ hrange.1 hrange.2.1 hrange.2.2
  · intro h; rw [h]; decide
  · intro h; rw [h]; decide
  · intro h; rw [h]; decide
  · intro h; rw [h]; decide
  · intro h
    have : (timeSince p.sinceClock p.startTime + 500000000) / 1000000000 * 1000000000 = 0 := by
      omega
    rw [this]; decide

/-- C6 at 90 s elapsed: the uptime field is "1m30s". -/
theorem uptime_nearest_second_witness :
    (healthResponse (elapsedProcess 90000000000)).Uptime = lit "1m30s" :=
  (uptime_nearest_second (elapsedProcess 90000000000) (by decide) (by decide)).2.2.2.2.1
    (by decide)

/-- C6 fails as stated: at the largest elapsed time a duration can hold, rounding to the
second does not fit, `Duration.Round` returns the largest duration, and the uptime text
has a fractional part. -/
theorem uptime_fraction_at_max :
    0 ≤ timeSince (elapsedProcess 9223372036854775807).sinceClock
        (elapsedProcess 9223372036854775807).startTime ∧
    (healthResponse (elapsedProcess 9223372036854775807)).Uptime
      = lit "2562047h47m16.854775807s" ∧
    0x2E ∈ (healthResponse (elapsedProcess 9223372036854775807)).Uptime := by
  decide

/-! ## Times: the text of fixed-width fields -/

theorem fmtIntLoop_fuel :
    ∀ (n m v : Nat), v ≤ n → v ≤ m → fmtIntLoop n v [] = fmtIntLoop m v [] := by
  intro n
  induction n with
  | zero =>
    intro m v hn _
    have : v = 0 := by omega
    subst this
    cases m <;> simp [fmtIntLoop]
  | succ n ih =>
    intro m v hn hm
    by_cases h0 : v > 0
    · obtain ⟨k, rfl⟩ : ∃ k, m = k + 1 := ⟨m - 1, by omega⟩
      simp only [fmtIntLoop, h0, if_true]
      rw [fmtIntLoop_append n, fmtIntLoop_append k, ih k (v / 10) (by omega) (by omega)]
    · have : v = 0 := by omega
      subst this
      cases m <;> simp [fmtIntLoop]

theorem fmtInt_small (v : Nat) (h : v < 10) : fmtInt v = [48 + v] := by
  interval_cases v <;> rfl

theorem fmtInt_step (v : Nat) (h : 10 ≤ v) : fmtInt v = fmtInt (v / 10) ++ [48 + v % 10] := by
  have h1 : v ≠ 0 := by omega
  have h2 : v / 10 ≠ 0 := by omega
  obtain ⟨k, rfl⟩ : ∃ k, v = k + 1 := ⟨v - 1, by omega⟩
  simp only [fmtInt, h1, h2, if_false]
  simp only [fmtIntLoop]
  rw [if_pos (by omega), fmtIntLoop_append, fmtIntLoop_fuel k ((k + 1) / 10) _ (by omega) (le_refl _)]
  simp [Nat.add_comm]

theorem appendInt_two (x : Nat) (h : x < 100) :
    appendInt (x : Int) 2 = [48 + x / 10, 48 + x % 10] := by
  have hn : ¬ ((x : Int) < 0) := by omega
  by_cases h10 : x < 10
  · have e : x / 10 = 0 := by omega
    have e2 : x % 10 = x := by omega
    simp [appendInt, hn, fmtInt_small x h10, e, e2]
  · rw [appendInt]
    simp only [hn, if_false, Int.natAbs_ofNat]
    rw [fmtInt_step x (by omega), fmtInt_small (x / 10) (by omega)]
    simp

theorem appendInt_four (n : Nat) (hn1 : n ≤ 9999) :
    appendInt (n : Int) 4 = [48 + n / 1000, 48 + n / 100 % 10, 48 + n / 10 % 10, 48 + n % 10] := by
  have hn : ¬ ((n : Int) < 0) := by omega
  rw [appendInt]
  simp only [hn, if_false, Int.natAbs_ofNat]
  by_cases c1 : n < 10
  · have e1 : n / 1000 = 0 := by omega
    have e2 : n / 100 % 10 = 0 := by omega
    have e3 : n / 10 % 10 = 0 := by omega
    have e4 : n % 10 = n := by omega
    simp [fmtInt_small n c1, e1, e2, e3, e4, List.replicate]
  · by_cases c2 : n < 100
    · have e1 : n / 1000 = 0 := by omega
      have e2 : n / 100 % 10 = 0 := by omega
      have e3 : n / 10 % 10 = n / 10 := by omega
      rw [fmtInt_step n (by omega), fmtInt_small (n / 10) (by omega)]
      simp [e1, e2, e3, List.replicate]
    · by_cases c3 : n < 1000
      · have e1 : n / 1000 = 0 := by omega
        have e2 : n / 100 % 10 = n / 10 / 10 := by omega
        rw [fmtInt_step n (by omega), fmtInt_step (n / 10) (by omega),
          fmtInt_small (n / 10 / 10) (by omega)]
        simp [e1, e2, List.replicate]
      · have e1 : n / 1000 = n / 10 / 10 / 10 := by omega
        have e2 : n / 100 % 10 = n / 10 / 10 % 10 := by omega
        rw [fmtInt_step n (by omega), fmtInt_step (n / 10) (by omega),
          fmtInt_step (n / 10 / 10) (by omega), fmtInt_small (n / 10 / 10 / 10) (by omega)]
        simp [e1, e2]


/-! ## Times: the calendar -/

theorem year_cycles (D n400 d1 n100 m100 d2 n4 d3 n1 m1 yday y : Nat)
    (h1 : n400 = D / 146097) (h2 : d1 = D - 146097 * n400)
    (h3 : n100 = d1 / 36524) (h4 : m100 = n100 - n100 / 4)
    (h5 : d2 = d1 - 36524 * m100) (h6 : n4 = d2 / 1461) (h7 : d3 = d2 - 1461 * n4)
    (h8 : n1 = d3 / 365) (h9 : m1 = n1 - n1 / 4) (h10 : yday = d3 - 365 * m1)
    (h11 : y = 400 * n400 + 100 * m100 + 4 * n4 + m1) :
    365 * y + y / 4 - y / 100 + y / 400 + yday = D ∧
    (yday < 365 ∨ (yday = 365 ∧ (y + 1) % 4 = 0 ∧ ((y + 1) % 100 ≠ 0 ∨ (y + 1) % 400 = 0))) := by
  have a1 : d1 < 146097 := by omega
  have a1p : D = 146097 * n400 + d1 := by omega
  have a2 : m100 ≤ 3 := by omega
  have a3 : d2 ≤ 36524 := by omega
  have a3p : d1 = 36524 * m100 + d2 := by omega
  have a4 : n4 ≤ 24 := by omega
  have a5 : d3 ≤ 1460 := by omega
  have a5p : d2 = 1461 * n4 + d3 := by omega
  have a5q : n4 = 24 → m100 < 3 → d3 < 1460 := by omega
  have a6 : m1 ≤ 3 := by omega
  have a7 : d3 = 365 * m1 + yday := by omega
  have a7q : yday ≤ 365 := by omega
  have b1 : y / 400 = n400 := by omega
  have b2 : y / 100 = 4 * n400 + m100 := by omega
  have b3 : y / 4 = 100 * n400 + 25 * m100 + n4 := by omega
  constructor
  · rw [b1, b2, b3]
    omega
  · by_cases hy : yday < 365
    · exact Or.inl hy
    · right
      have e : yday = 365 := by omega
      have e1 : m1 = 3 := by omega
      refine ⟨e, by omega, ?_⟩
      by_cases c : n4 = 24
      · have : m100 = 3 := by
          by_contra hne
          have := a5q c (by omega)
          omega
        right
        omega
      · left
        omega

theorem cycle_step (y : Nat) :
    365 * y + y / 4 - y / 100 + y / 400 + 365
      + (if (y + 1) % 4 = 0 ∧ ((y + 1) % 100 ≠ 0 ∨ (y + 1) % 400 = 0) then 1 else 0)
      = 365 * (y + 1) + (y + 1) / 4 - (y + 1) / 100 + (y + 1) / 400 := by
  have a4 : (y + 1) / 4 = y / 4 + (if (y + 1) % 4 = 0 then 1 else 0) := by
    split_ifs <;> omega
  have a100 : (y + 1) / 100 = y / 100 + (if (y + 1) % 100 = 0 then 1 else 0) := by
    split_ifs <;> omega
  have a400 : (y + 1) / 400 = y / 400 + (if (y + 1) % 400 = 0 then 1 else 0) := by
    split_ifs <;> omega
  have b1 : y / 100 ≤ y / 4 := by omega
  have c1 : (y + 1) % 400 = 0 → (y + 1) % 100 = 0 := by omega
  have c2 : (y + 1) % 100 = 0 → (y + 1) % 4 = 0 := by omega
  rw [a4, a100, a400]
  split_ifs <;> omega

theorem cycle_mono (a b : Nat) (h : a ≤ b) :
    365 * a + a / 4 - a / 100 + a / 400 ≤ 365 * b + b / 4 - b / 100 + b / 400 := by
  induction b, h using Nat.le_induction with
  | base => exact le_refl _
  | succ n _ ih =>
    have := cycle_step n
    omega

/-- Days that fall in the years 0 to 9999 belong to a year in that range. -/
theorem year_range (y D : Nat)
    (h1 : 365 * y + y / 4 - y / 100 + y / 400 ≤ D)
    (h2 : D < 365 * (y + 1) + (y + 1) / 4 - (y + 1) / 100 + (y + 1) / 400)
    (hlo : 106751990353566 ≤ D) (hhi : D < 106751994005991) :
    292277022399 ≤ y ∧ y ≤ 292277032398 := by
  constructor
  · by_contra hc
    have := cycle_mono (y + 1) 292277022399 (by omega)
    omega
  · by_contra hc
    have := cycle_mono 292277032399 y (by omega)
    omega

set_option maxRecDepth 100000 in
theorem absDateLocate_spec :
    ∀ day < 365,
      1 ≤ (absDateLocate day).1 ∧ (absDateLocate day).1 ≤ 12 ∧
      1 ≤ (absDateLocate day).2 ∧
      (absDateLocate day).2
        ≤ daysBefore (absDateLocate day).1 - daysBefore ((absDateLocate day).1 - 1) ∧
      daysBefore ((absDateLocate day).1 - 1) + ((absDateLocate day).2 - 1) = day ∧
      (59 ≤ day → 2 < (absDateLocate day).1) ∧
      (day < 59 → (absDateLocate day).1 ≤ 2) := by
  decide

/-- The month and day that `absDate` finds for a day of the year: a real date, and the
one that lies that many days into the year. -/
theorem absDateMonthDay_spec (year : Int) (yday : Nat)
    (h : yday < 365 ∨ (yday = 365 ∧ isLeap year = true)) :
    (absDateMonthDay year yday).year = year ∧
    1 ≤ (absDateMonthDay year yday).month ∧ (absDateMonthDay year yday).month ≤ 12 ∧
    1 ≤ (absDateMonthDay year yday).day ∧
    (absDateMonthDay year yday).day ≤ daysIn year (absDateMonthDay year yday).month ∧
    daysBefore ((absDateMonthDay year yday).month - 1)
      + (if 2 < (absDateMonthDay year yday).month ∧ isLeap year then 1 else 0)
      + ((absDateMonthDay year yday).day - 1) = yday := by
  cases hl : isLeap year
  · have hy : yday < 365 := by
      rcases h with h | ⟨_, h⟩
      · exact h
      · rw [hl] at h; exact absurd h (by decide)
    obtain ⟨a1, a2, a3, a4, a5, _, _⟩ := absDateLocate_spec yday hy
    have e : absDateMonthDay year yday
        = { year := year, month := (absDateLocate yday).1, day := (absDateLocate yday).2 } := by
      simp [absDateMonthDay, hl]
    rw [e]
    simp only [daysIn, hl, Bool.false_eq_true, and_false, if_false]
    exact ⟨trivial, a1, a2, a3, by omega, by omega⟩
  · by_cases h59 : yday = 59
    · subst h59
      simp [absDateMonthDay, daysIn, hl, daysBefore]
    · have hy : yday ≤ 365 := by omega
      by_cases hgt : yday > 59
      · obtain ⟨a1, a2, a3, a4, a5, a6, _⟩ := absDateLocate_spec (yday - 1) (by omega)
        have a6p := a6 (by omega)
        have e : absDateMonthDay year yday
            = { year := year, month := (absDateLocate (yday - 1)).1,
                day := (absDateLocate (yday - 1)).2 } := by
          simp [absDateMonthDay, hl, h59, hgt]
        rw [e]
        have hne : ¬ (absDateLocate (yday - 1)).1 = 2 := by omega
        simp only [daysIn, and_true, a6p, hne, if_true, if_false, false_and]
        exact ⟨trivial, a1, a2, a3, by omega, by omega⟩
      · obtain ⟨a1, a2, a3, a4, a5, _, a7⟩ := absDateLocate_spec yday (by omega)
        have a7p := a7 (by omega)
        have e : absDateMonthDay year yday
            = { year := year, month := (absDateLocate yday).1,
                day := (absDateLocate yday).2 } := by
          simp [absDateMonthDay, hl, h59, hgt]
        rw [e]
        have hngt : ¬ 2 < (absDateLocate yday).1 := by omega
        simp only [daysIn, and_true, hngt, if_false]
        refine ⟨trivial, a1, a2, a3, ?_, by omega⟩
        split_ifs <;> omega

theorem isLeap_of_cycle (y : Nat)
    (h : (y + 1) % 4 = 0 ∧ ((y + 1) % 100 ≠ 0 ∨ (y + 1) % 400 = 0)) :
    isLeap ((y : Int) + absoluteZeroYear) = true := by
  unfold isLeap absoluteZeroYear
  simp only [decide_eq_true_eq]
  omega

theorem absDateYearDay_spec (D : Nat) :
    365 * (absDateYearDay D).1 + (absDateYearDay D).1 / 4 - (absDateYearDay D).1 / 100
      + (absDateYearDay D).1 / 400 + (absDateYearDay D).2 = D ∧
    ((absDateYearDay D).2 < 365 ∨
      ((absDateYearDay D).2 = 365 ∧
        isLeap (((absDateYearDay D).1 : Int) + absoluteZeroYear) = true)) ∧
    D < 365 * ((absDateYearDay D).1 + 1) + ((absDateYearDay D).1 + 1) / 4
      - ((absDateYearDay D).1 + 1) / 100 + ((absDateYearDay D).1 + 1) / 400 := by
  obtain ⟨hD, hleap⟩ := year_cycles D _ _ _ _ _ _ _ _ _ (absDateYearDay D).2
    (absDateYearDay D).1 rfl rfl rfl rfl rfl rfl rfl rfl rfl rfl rfl
  have hs := cycle_step (absDateYearDay D).1
  refine ⟨hD, ?_, ?_⟩
  · rcases hleap with h | ⟨h1, h2⟩
    · exact Or.inl h
    · exact Or.inr ⟨h1, isLeap_of_cycle _ h2⟩
  · rcases hleap with h | ⟨h1, h2⟩
    · omega
    · rw [if_pos h2] at hs
      omega

/-- The date `absDate` finds is a real date of the calendar, and it is the date that lies
as many days after 1970-01-01 as the absolute time says. -/
theorem absDate_spec (abs : Nat) :
    1 ≤ (absDate abs).month ∧ (absDate abs).month ≤ 12 ∧ 1 ≤ (absDate abs).day ∧
    (absDate abs).day ≤ daysIn (absDate abs).year (absDate abs).month ∧
    daysFromCivil (absDate abs).year (absDate abs).month (absDate abs).day
      = ((abs / 86400 : Nat) : Int) - 106751991073094 ∧
    ∃ y : Nat, (absDate abs).year = (y : Int) + absoluteZeroYear ∧
      365 * y + y / 4 - y / 100 + y / 400 ≤ abs / 86400 ∧
      abs / 86400 < 365 * (y + 1) + (y + 1) / 4 - (y + 1) / 100 + (y + 1) / 400 := by
  obtain ⟨hD, hleap, hnext⟩ := absDateYearDay_spec (abs / 86400)
  obtain ⟨b0, b1, b2, b3, b4, b5⟩ := absDateMonthDay_spec _ _ hleap
  have e : absDate abs = absDateMonthDay (((absDateYearDay (abs / 86400)).1 : Int)
      + absoluteZeroYear) (absDateYearDay (abs / 86400)).2 := rfl
  rw [e]
  generalize absDateMonthDay (((absDateYearDay (abs / 86400)).1 : Int) + absoluteZeroYear)
    (absDateYearDay (abs / 86400)).2 = dt at b0 b1 b2 b3 b4 b5 ⊢
  generalize (absDateYearDay (abs / 86400)).1 = y at *
  generalize (absDateYearDay (abs / 86400)).2 = yday at *
  generalize abs / 86400 = D at *
  have hle : 365 * y + y / 4 - y / 100 + y / 400 ≤ D := by
    clear hnext hleap b1 b2 b3 b4 b5
    omega
  refine ⟨b1, b2, b3, by rw [b0]; exact b4, ?_, y, b0, hle, hnext⟩
  clear hnext hle b4
  have hyd : yday ≤ 365 := by omega
  rw [b0]
  unfold daysFromCivil absoluteZeroYear
  have c1 : (((daysBefore (dt.month - 1)
      + (if 2 < dt.month ∧ isLeap (↑y + absoluteZeroYear) = true then 1 else 0)
      + (dt.day - 1) : Nat)) : Int) = yday := by rw [b5]
  have c2 : ((dt.day : Int) - 1) = ((dt.day - 1 : Nat) : Int) := by omega
  unfold absoluteZeroYear at c1
  rw [c2]
  clear b5 hleap c2 b1 b2 b3 b0
  have q4 : ((y : Int) + -292277022399 - 1) / 4 = (y / 4 : Nat) - 73069255600 := by omega
  have q100 : ((y : Int) + -292277022399 - 1) / 100 = (y / 100 : Nat) - 2922770224 := by omega
  have q400 : ((y : Int) + -292277022399 - 1) / 400 = (y / 400 : Nat) - 730692556 := by omega
  have o1 : y / 100 ≤ y / 4 := by omega
  rw [q4, q100, q400]
  split_ifs at c1 ⊢ <;> push_cast at c1 <;> omega


/-! ## Times: the shape of the formatted text -/

theorem Time.abs_eq (t : Time) (hlo : -62167219200 ≤ t.unixSec + t.offset)
    (hhi : t.unixSec + t.offset < 253402300800) :
    (t.abs : Int) = t.unixSec + t.offset + 9223372028715321600 := by
  unfold Time.abs toUint64 unixToInternal internalToAbsolute
  omega

theorem absClock_spec (abs : Nat) :
    (absClock abs).1 < 24 ∧ (absClock abs).2.1 < 60 ∧ (absClock abs).2.2 < 60 ∧
    (absClock abs).1 * 3600 + (absClock abs).2.1 * 60 + (absClock abs).2.2 = abs % 86400 := by
  unfold absClock
  simp only
  omega

/-- In the years 0 to 9999 the year `absDate` finds is in that range. -/
theorem absDate_year_range (abs : Nat) (hlo : 9223371966548102400 ≤ abs)
    (hhi : abs < 9223372282117622400) :
    ∃ n : Nat, (absDate abs).year = (n : Int) ∧ n ≤ 9999 := by
  obtain ⟨_, _, _, _, _, y, hy, h1, h2⟩ := absDate_spec abs
  have hr := year_range y (abs / 86400) h1 h2 (by omega) (by omega)
  refine ⟨y - 292277022399, ?_, by omega⟩
  rw [hy]
  unfold absoluteZeroYear
  omega

theorem zone_text (offset : Int) (h1 : -86400 < offset)
    (h2 : offset < 86400) :
    (if Int.tdiv offset 60 < 0 then [0x2D] else [0x2B])
        ++ appendInt ((if Int.tdiv offset 60 < 0 then -(Int.tdiv offset 60)
            else Int.tdiv offset 60) / 60) 2
        ++ [0x3A]
        ++ appendInt ((if Int.tdiv offset 60 < 0 then -(Int.tdiv offset 60)
            else Int.tdiv offset 60) % 60) 2
      = [if offset ≤ -60 then 0x2D else 0x2B,
         48 + offset.natAbs / 3600 / 10, 48 + offset.natAbs / 3600 % 10, 0x3A,
         48 + offset.natAbs / 60 % 60 / 10, 48 + offset.natAbs / 60 % 60 % 10] := by
  have hq : Int.tdiv offset 60 = if offset < 0 then -((-offset) / 60) else offset / 60 := by
    split_ifs with hneg
    · have e : offset = -(-offset) := by omega
      rw [e, Int.neg_tdiv, Int.tdiv_eq_ediv (by omega) (by omega)]
      simp
    · exact Int.tdiv_eq_ediv (by omega) (by omega)
  have hz : (if Int.tdiv offset 60 < 0 then -(Int.tdiv offset 60) else Int.tdiv offset 60)
      = ((offset.natAbs / 60 : Nat) : Int) := by
    rw [hq]
    split_ifs <;> omega
  have hs : (Int.tdiv offset 60 < 0) ↔ offset ≤ -60 := by
    rw [hq]
    split_ifs <;> omega
  rw [hz]
  have e1 : ((offset.natAbs / 60 : Nat) : Int) / 60 = ((offset.natAbs / 3600 : Nat) : Int) := by
    omega
  have e2 : ((offset.natAbs / 60 : Nat) : Int) % 60 = ((offset.natAbs / 60 % 60 : Nat) : Int) := by
    omega
  rw [e1, e2, appendInt_two _ (by omega), appendInt_two _ (by omega)]
  by_cases c : offset ≤ -60
  · simp [hs.mpr c, c]
  · have : ¬ Int.tdiv offset 60 < 0 := fun h => c (hs.mp h)
    simp [this, c]


/-! ## Times: the fraction of a second -/

theorem dropWhile_append_singleton (q : Nat → Bool) (p : Nat) (hp : q p = false) :
    ∀ l : GoString, (l ++ [p]).dropWhile q = l.dropWhile q ++ [p] := by
  intro l
  induction l with
  | nil => simp [List.dropWhile, hp]
  | cons a l ih =>
    by_cases ha : q a = true
    · simp [List.dropWhile, ha, ih]
    · simp [List.dropWhile, ha]

theorem trimZeros_cons (p : Nat) (X : GoString) (hp : p ≠ 0x30) :
    trimZeros (p :: X) = p :: trimZeros X := by
  unfold trimZeros
  rw [List.reverse_cons, dropWhile_append_singleton _ p (by simp [hp])]
  simp

theorem trimZeros_spec (X : GoString) :
    ∃ z, X = trimZeros X ++ List.replicate z 0x30 ∧ (trimZeros X).getLast? ≠ some 0x30 := by
  induction X using List.reverseRecOn with
  | nil => exact ⟨0, by simp [trimZeros]⟩
  | append_singleton Y a ih =>
    obtain ⟨z, hz, hl⟩ := ih
    by_cases ha : a = 0x30
    · subst ha
      have e : trimZeros (Y ++ [0x30]) = trimZeros Y := by
        simp [trimZeros, List.dropWhile]
      refine ⟨z + 1, ?_, by rw [e]; exact hl⟩
      rw [e]
      conv => lhs; rw [hz]
      simp [List.replicate_succ']
    · have e : trimZeros (Y ++ [a]) = Y ++ [a] := by
        simp [trimZeros, List.dropWhile, ha]
      refine ⟨0, by simp [e], ?_⟩
      rw [e]
      simp [ha]

theorem trimZeros_subset (X : GoString) : ∀ x ∈ trimZeros X, x ∈ X := by
  obtain ⟨z, hz, _⟩ := trimZeros_spec X
  intro x hx
  rw [hz]
  exact List.mem_append_left _ hx

theorem parseDigits_zeros (z acc cnt : Nat) (rest : GoString) :
    parseDigits acc cnt (List.replicate z 0x30 ++ rest)
      = parseDigits (acc * 10 ^ z) (cnt + z) rest := by
  induction z generalizing acc cnt with
  | zero => simp
  | succ z ih =>
    have e : parseDigits acc cnt (List.replicate (z + 1) 0x30 ++ rest)
        = parseDigits (acc * 10 + 0) (cnt + 1) (List.replicate z 0x30 ++ rest) := by
      simp [List.replicate_succ, parseDigits]
    have a1 : (acc * 10 + 0) * 10 ^ z = acc * 10 ^ (z + 1) := by rw [pow_succ]; ring
    have a2 : cnt + 1 + z = cnt + (z + 1) := by omega
    rw [e, ih, a1, a2]

theorem parseDigits_fmtInt_gen (v acc cnt : Nat) (tail : GoString) :
    parseDigits acc cnt (fmtInt v ++ tail)
      = parseDigits (acc * 10 ^ (fmtInt v).length + v) (cnt + (fmtInt v).length) tail := by
  unfold fmtInt
  split_ifs with h0
  · subst h0
    simp [parseDigits]
  · exact parseDigits_fmtIntLoop v v (le_refl _) acc cnt tail

theorem parseDigits_digits (ds : GoString) (hd : ∀ x ∈ ds, 0x30 ≤ x ∧ x ≤ 0x39) :
    ∀ (acc cnt : Nat) (rest : GoString),
      parseDigits acc cnt (ds ++ rest)
        = parseDigits (parseDigits acc cnt ds).1 (parseDigits acc cnt ds).2.1 rest := by
  induction ds with
  | nil => intro acc cnt rest; simp [parseDigits]
  | cons a ds ih =>
    intro acc cnt rest
    have ha := hd a (List.mem_cons_self _ _)
    simp only [List.cons_append, parseDigits, ha, and_self, if_true]
    exact ih (fun x hx => hd x (List.mem_cons_of_mem _ hx)) _ _ _

theorem parseDigits_count (ds : GoString) (hd : ∀ x ∈ ds, 0x30 ≤ x ∧ x ≤ 0x39) :
    ∀ (acc cnt : Nat), (parseDigits acc cnt ds).2.1 = cnt + ds.length
      ∧ (parseDigits acc cnt ds).2.2 = [] := by
  induction ds with
  | nil => intro acc cnt; simp [parseDigits]
  | cons a ds ih =>
    intro acc cnt
    have ha := hd a (List.mem_cons_self _ _)
    simp only [parseDigits, ha, and_self, if_true, List.length_cons]
    have := ih (fun x hx => hd x (List.mem_cons_of_mem _ hx)) (acc * 10 + (a - 0x30)) (cnt + 1)
    constructor
    · rw [this.1]; omega
    · exact this.2

theorem fmtInt_length_le (k : Nat) : ∀ n, n < 10 ^ (k + 1) → (fmtInt n).length ≤ k + 1 := by
  induction k with
  | zero =>
    intro n hn
    rw [fmtInt_small n (by simpa using hn)]
    simp
  | succ k ih =>
    intro n hn
    by_cases h10 : n < 10
    · rw [fmtInt_small n h10]; simp
    · rw [fmtInt_step n (by omega)]
      have : n / 10 < 10 ^ (k + 1) := by
        rw [pow_succ] at hn
        omega
      have := ih (n / 10) this
      simp
      omega


theorem appendInt_nat (n width : Nat) :
    appendInt (n : Int) width
      = List.replicate (width - (fmtInt n).length) 0x30 ++ fmtInt n := by
  have hn : ¬ ((n : Int) < 0) := by omega
  simp [appendInt, hn]

theorem appendInt_nat_digits (n width : Nat) :
    ∀ x ∈ appendInt (n : Int) width, 0x30 ≤ x ∧ x ≤ 0x39 := by
  intro x hx
  rw [appendInt_nat] at hx
  rcases List.mem_append.mp hx with h | h
  · have := List.eq_of_mem_replicate h
    omega
  · exact fmtInt_digits n x h

theorem appendNano_chars (n : Nat) :
    ∀ x ∈ appendNano n, x = 0x2E ∨ (0x30 ≤ x ∧ x ≤ 0x39) := by
  intro x hx
  unfold appendNano at hx
  simp only at hx
  split_ifs at hx with h0 hlast
  · simp at hx
  · have h1 := List.mem_of_mem_dropLast hx
    have h2 := trimZeros_subset _ x h1
    rcases List.mem_cons.mp h2 with h | h
    · exact Or.inl h
    · exact Or.inr (appendInt_nat_digits n 9 x h)
  · have h2 := trimZeros_subset _ x hx
    rcases List.mem_cons.mp h2 with h | h
    · exact Or.inl h
    · exact Or.inr (appendInt_nat_digits n 9 x h)

/-- The fraction `appendNano` writes for a nonzero number of nanoseconds below a second:
a decimal point and one to nine digits that read back as that number of nanoseconds. -/
theorem appendNano_spec (n : Nat) (h0 : 0 < n) (h1 : n < 1000000000) :
    ∃ ds : GoString, appendNano n = 0x2E :: ds ∧ (∀ x ∈ ds, 0x30 ≤ x ∧ x ≤ 0x39) ∧
      1 ≤ ds.length ∧ ds.length ≤ 9 ∧
      (parseDigits 0 0 ds).1 * 10 ^ (9 - ds.length) = n := by
  have hL := fmtInt_length_le 8 n (by norm_num; omega)
  have hXd := appendInt_nat_digits n 9
  have hXl : (appendInt (n : Int) 9).length = 9 := by
    rw [appendInt_nat]
    simp
    omega
  have hval : parseDigits 0 0 (appendInt (n : Int) 9) = (n, 9, []) := by
    have e : appendInt (n : Int) 9
        = List.replicate (9 - (fmtInt n).length) 0x30 ++ (fmtInt n ++ []) := by
      rw [appendInt_nat]; simp
    rw [e, parseDigits_zeros, parseDigits_fmtInt_gen]
    have a : 9 - (fmtInt n).length + (fmtInt n).length = 9 := by omega
    simp [parseDigits, a]
  obtain ⟨z, hz, hl⟩ := trimZeros_spec (appendInt (n : Int) 9)
  have hdd : ∀ x ∈ trimZeros (appendInt (n : Int) 9), 0x30 ≤ x ∧ x ≤ 0x39 :=
    fun x hx => hXd x (trimZeros_subset _ x hx)
  have hcount := parseDigits_count _ hdd 0 0
  have hsplit : parseDigits 0 0 (appendInt (n : Int) 9)
      = ((parseDigits 0 0 (trimZeros (appendInt (n : Int) 9))).1 * 10 ^ z,
          (trimZeros (appendInt (n : Int) 9)).length + z, []) := by
    conv => lhs; rw [hz]
    have e : List.replicate z 0x30 = List.replicate z 0x30 ++ ([] : GoString) := by simp
    rw [parseDigits_digits _ hdd, e, parseDigits_zeros, hcount.1]
    simp [parseDigits]
  rw [hval] at hsplit
  have hv : n = (parseDigits 0 0 (trimZeros (appendInt (n : Int) 9))).1 * 10 ^ z :=
    (Prod.mk.inj hsplit).1
  have hlen : 9 = (trimZeros (appendInt (n : Int) 9)).length + z :=
    (Prod.mk.inj (Prod.mk.inj hsplit).2).1
  have hne : trimZeros (appendInt (n : Int) 9) ≠ [] := by
    intro hnil
    rw [hnil] at hv
    simp [parseDigits] at hv
    omega
  refine ⟨trimZeros (appendInt (n : Int) 9), ?_, hdd, ?_, by omega, ?_⟩
  · unfold appendNano
    rw [if_neg (by omega), trimZeros_cons _ _ (by omega)]
    have hlast : (0x2E :: trimZeros (appendInt (n : Int) 9)).getLast? ≠ some 0x2E := by
      intro h
      cases hc : trimZeros (appendInt (n : Int) 9) with
      | nil => exact absurd hc hne
      | cons a l =>
        rw [hc, List.getLast?_cons_cons] at h
        have := hdd 0x2E (by rw [hc]; exact List.mem_of_getLast?_eq_some h)
        omega
    simp only
    rw [if_neg hlast]
  · cases hc : trimZeros (appendInt (n : Int) 9) with
    | nil => exact absurd hc hne
    | cons a l => simp
  · have : 9 - (trimZeros (appendInt (n : Int) 9)).length = z := by omega
    rw [this]
    exact hv.symm


theorem timeNow_fields (c : ClockReading) :
    (timeNow c).unixSec = c.sec ∧ (timeNow c).nsec = c.nsec ∧ (timeNow c).offset = c.offset := by
  unfold timeNow
  simp only
  split_ifs <;> exact ⟨rfl, rfl, rfl⟩

theorem absDate_small (abs : Nat) :
    (absDate abs).month ≤ 12 ∧ (absDate abs).day ≤ 31 := by
  obtain ⟨m1, m2, d1, d2, _, _⟩ := absDate_spec abs
  refine ⟨m2, ?_⟩
  have : daysIn (absDate abs).year (absDate abs).month ≤ 31 := by
    unfold daysIn
    generalize (absDate abs).month = mo at m1 m2
    interval_cases mo <;> simp [daysBefore] <;> split_ifs <;> omega
  omega

/-- The text `appendFormatRFC3339` writes for a time whose local date lies in the years 0
to 9999 and whose zone offset is less than a day: nineteen characters of date and time,
the fraction, and the zone. -/
theorem format_text (t : Time) (hlo : -62167219200 ≤ t.unixSec + t.offset)
    (hhi : t.unixSec + t.offset < 253402300800)
    (hz1 : -86400 < t.offset) (hz2 : t.offset < 86400) :
    appendFormatRFC3339 t =
      [48 + (absDate t.abs).year.toNat / 1000, 48 + (absDate t.abs).year.toNat / 100 % 10,
       48 + (absDate t.abs).year.toNat / 10 % 10, 48 + (absDate t.abs).year.toNat % 10, 0x2D,
       48 + (absDate t.abs).month / 10, 48 + (absDate t.abs).month % 10, 0x2D,
       48 + (absDate t.abs).day / 10, 48 + (absDate t.abs).day % 10, 0x54,
       48 + (absClock t.abs).1 / 10, 48 + (absClock t.abs).1 % 10, 0x3A,
       48 + (absClock t.abs).2.1 / 10, 48 + (absClock t.abs).2.1 % 10, 0x3A,
       48 + (absClock t.abs).2.2 / 10, 48 + (absClock t.abs).2.2 % 10]
      ++ (appendNano t.nsec ++
          (if t.offset = 0 then [0x5A]
           else [if t.offset ≤ -60 then 0x2D else 0x2B,
                 48 + t.offset.natAbs / 3600 / 10, 48 + t.offset.natAbs / 3600 % 10, 0x3A,
                 48 + t.offset.natAbs / 60 % 60 / 10, 48 + t.offset.natAbs / 60 % 60 % 10])) := by
  have habs := Time.abs_eq t hlo hhi
  obtain ⟨n, hn, hn1⟩ := absDate_year_range t.abs (by omega) (by omega)
  obtain ⟨m2, hd⟩ := absDate_small t.abs
  obtain ⟨c1, c2, c3, _⟩ := absClock_spec t.abs
  have hY : (absDate t.abs).year.toNat = n := by rw [hn]; simp
  unfold appendFormatRFC3339
  simp only
  rw [hY, hn, appendInt_four n hn1, appendInt_two _ (by omega : (absDate t.abs).month < 100),
    appendInt_two _ (by omega : (absDate t.abs).day < 100),
    appendInt_two _ (by omega : (absClock t.abs).1 < 100),
    appendInt_two _ (by omega : (absClock t.abs).2.1 < 100),
    appendInt_two _ (by omega : (absClock t.abs).2.2 < 100)]
  by_cases h0 : t.offset = 0
  · simp [h0]
  · have hzt := zone_text t.offset hz1 hz2
    simp only [h0, if_false]
    simp only [List.append_assoc] at hzt ⊢
    rw [hzt]
    simp

theorem strict_tail (P : GoString) (a b c d e f : Nat) :
    (P ++ [a, b, c, d, e, f]).getLast? = some f ∧
    (P ++ [a, b, c, d, e, f])[(P ++ [a, b, c, d, e, f]).length - 6]? = some a ∧
    (P ++ [a, b, c, d, e, f])[(P ++ [a, b, c, d, e, f]).length - 5]? = some b ∧
    (P ++ [a, b, c, d, e, f])[(P ++ [a, b, c, d, e, f]).length - 4]? = some c := by
  have e6 : (P ++ [a, b, c, d, e, f]).length - 6 = P.length := by simp
  have e5 : (P ++ [a, b, c, d, e, f]).length - 5 = P.length + 1 := by simp
  have e4 : (P ++ [a, b, c, d, e, f]).length - 4 = P.length + 2 := by simp
  rw [e6, e5, e4]
  refine ⟨by simp, ?_, ?_, ?_⟩
  · rw [List.getElem?_append_right (le_refl _)]; simp
  · rw [List.getElem?_append_right (by omega)]; simp
  · rw [List.getElem?_append_right (by omega)]; simp


/-! ## Times: strict RFC 3339 and JSON -/

theorem appendStringLoop_safe :
    ∀ (n : Nat) (s : GoString), s.length ≤ n → (∀ x ∈ s, htmlSafeSet x = true) →
      appendStringLoop n s = s := by
  intro n
  induction n with
  | zero =>
    intro s hs _
    have : s = [] := List.eq_nil_of_length_eq_zero (by omega)
    subst this
    simp [appendStringLoop]
  | succ n ih =>
    intro s hs hsafe
    cases s with
    | nil => simp [appendStringLoop]
    | cons b t =>
      have hb := hsafe b (List.mem_cons_self _ _)
      have hlt : b < 0x80 := by
        simp [htmlSafeSet] at hb
        omega
      have ht := ih t (by simpa using hs) (fun x hx => hsafe x (List.mem_cons_of_mem _ hx))
      simp [appendStringLoop, hlt, hb, ht]

theorem appendString_safe (s : GoString) (h : ∀ x ∈ s, htmlSafeSet x = true) :
    appendString s = [0x22] ++ s ++ [0x22] := by
  unfold appendString
  rw [appendStringLoop_safe s.length s (le_refl _) h]

theorem toValidUTF8Loop_ascii :
    ∀ (n : Nat) (s : GoString), s.length ≤ n → (∀ x ∈ s, x < 0x80) →
      toValidUTF8Loop n s = s := by
  intro n
  induction n with
  | zero =>
    intro s hs _
    have : s = [] := List.eq_nil_of_length_eq_zero (by omega)
    subst this
    simp [toValidUTF8Loop]
  | succ n ih =>
    intro s hs hascii
    cases s with
    | nil => simp [toValidUTF8Loop]
    | cons b t =>
      have hb := hascii b (List.mem_cons_self _ _)
      have hd := decode_ASCII b t hb
      have ht := ih t (by simpa using hs) (fun x hx => hascii x (List.mem_cons_of_mem _ hx))
      simp only [toValidUTF8Loop, hd]
      have hne : ¬ b = RuneError := by
        unfold RuneError; omega
      simp [hne, ht]

theorem toValidUTF8_ascii (s : GoString) (h : ∀ x ∈ s, x < 0x80) : toValidUTF8 s = s :=
  toValidUTF8Loop_ascii s.length s (le_refl _) h

theorem htmlSafeSet_lt (x : Nat) (h : htmlSafeSet x = true) : x < 0x80 := by
  simp [htmlSafeSet] at h
  omega

/-- Every byte of the formatted time is one that a JSON string holds unescaped. -/
theorem format_safe (t : Time) (hlo : -62167219200 ≤ t.unixSec + t.offset)
    (hhi : t.unixSec + t.offset < 253402300800)
    (hz1 : -86400 < t.offset) (hz2 : t.offset < 86400) :
    ∀ x ∈ appendFormatRFC3339 t, htmlSafeSet x = true := by
  intro x hx
  rw [format_text t hlo hhi hz1 hz2] at hx
  have habs := Time.abs_eq t hlo hhi
  obtain ⟨n, hn, hn1⟩ := absDate_year_range t.abs (by omega) (by omega)
  have hY : (absDate t.abs).year.toNat = n := by rw [hn]; simp
  rw [hY] at hx
  obtain ⟨m2, hd⟩ := absDate_small t.abs
  obtain ⟨c1, c2, c3, _⟩ := absClock_spec t.abs
  have key : (0x30 ≤ x ∧ x ≤ 0x3A) ∨ x = 0x2D ∨ x = 0x54 ∨ x = 0x2E ∨ x = 0x5A ∨ x = 0x2B := by
    rcases List.mem_append.mp hx with h | h
    · simp only [List.mem_cons, List.mem_singleton, List.not_mem_nil, or_false] at h
      omega
    · rcases List.mem_append.mp h with h | h
      · rcases appendNano_chars _ x h with h | h
        · omega
        · omega
      · split_ifs at h <;>
          simp only [List.mem_cons, List.mem_singleton, List.not_mem_nil, or_false] at h <;>
          omega
  simp [htmlSafeSet]
  omega

/-- For a time whose local date lies in the years 0 to 9999 and whose zone offset is less
than a day, the strict check of `appendStrictRFC3339` passes. -/
theorem strict_ok (t : Time) (hlo : -62167219200 ≤ t.unixSec + t.offset)
    (hhi : t.unixSec + t.offset < 253402300800)
    (hz1 : -86400 < t.offset) (hz2 : t.offset < 86400) :
    appendStrictRFC3339 t = some (appendFormatRFC3339 t) := by
  have hf := format_text t hlo hhi hz1 hz2
  have h4 : (appendFormatRFC3339 t)[4]? = some 0x2D := by
    rw [hf]; rfl
  unfold appendStrictRFC3339
  simp only [h4, ne_eq, not_true_eq_false, if_false]
  by_cases h0 : t.offset = 0
  · have hl : (appendFormatRFC3339 t).getLast? = some 0x5A := by
      rw [hf, if_pos h0, ← List.append_assoc, List.getLast?_concat]
    simp [hl]
  · simp only [h0, if_false] at hf
    rw [← List.append_assoc] at hf
    obtain ⟨a1, a2, a3, a4⟩ := strict_tail
      ([48 + (absDate t.abs).year.toNat / 1000, 48 + (absDate t.abs).year.toNat / 100 % 10,
       48 + (absDate t.abs).year.toNat / 10 % 10, 48 + (absDate t.abs).year.toNat % 10, 0x2D,
       48 + (absDate t.abs).month / 10, 48 + (absDate t.abs).month % 10, 0x2D,
       48 + (absDate t.abs).day / 10, 48 + (absDate t.abs).day % 10, 0x54,
       48 + (absClock t.abs).1 / 10, 48 + (absClock t.abs).1 % 10, 0x3A,
       48 + (absClock t.abs).2.1 / 10, 48 + (absClock t.abs).2.1 % 10, 0x3A,
       48 + (absClock t.abs).2.2 / 10, 48 + (absClock t.abs).2.2 % 10] ++ appendNano t.nsec)
      (if t.offset ≤ -60 then 0x2D else 0x2B)
      (48 + t.offset.natAbs / 3600 / 10) (48 + t.offset.natAbs / 3600 % 10) 0x3A
      (48 + t.offset.natAbs / 60 % 60 / 10) (48 + t.offset.natAbs / 60 % 60 % 10)
    rw [← hf] at a1 a2 a3 a4
    have hl : (appendFormatRFC3339 t).getLast? ≠ some 0x5A := by
      rw [a1]
      intro h
      have := Option.some.inj h
      omega
    simp only [hl, ne_eq, not_false_eq_true, if_true, a2, a3, a4]
    have hsign : ¬ (0x30 ≤ (if t.offset ≤ -60 then 0x2D else 0x2B : Nat)
        ∧ (if t.offset ≤ -60 then 0x2D else 0x2B : Nat) ≤ 0x39) := by
      split_ifs <;> omega
    have hnum : ¬ num2 (48 + t.offset.natAbs / 3600 / 10) (48 + t.offset.natAbs / 3600 % 10)
        ≥ 24 := by
      unfold num2
      omega
    simp [hsign, hnum]


/-! ## Times: the formatted text reads back -/

theorem twoDigits_digits (a b : Nat) (ha : a < 10) (hb : b < 10) :
    twoDigits (48 + a) (48 + b) = some (10 * a + b) := by
  have h1 : 0x30 ≤ 48 + a ∧ 48 + a ≤ 0x39 := by omega
  have h2 : 0x30 ≤ 48 + b ∧ 48 + b ≤ 0x39 := by omega
  simp [twoDigits, digitVal, h1, h2]

theorem parseFraction_none (b : Nat) (rest : GoString) (hb : b ≠ 0x2E) :
    parseFraction (b :: rest) = some (0, b :: rest) := by
  unfold parseFraction
  split
  · rename_i heq
    simp at heq
    omega
  · rfl

theorem parseFraction_nano (n b : Nat) (rest : GoString) (hn : n < 1000000000)
    (hb : ¬ (0x30 ≤ b ∧ b ≤ 0x39)) (hb2 : b ≠ 0x2E) :
    parseFraction (appendNano n ++ b :: rest) = some (n, b :: rest) := by
  by_cases h0 : n = 0
  · subst h0
    simp [appendNano, parseFraction_none b rest hb2]
  · obtain ⟨ds, hds, hdig, hl1, hl9, hval⟩ := appendNano_spec n (by omega) hn
    have hc := parseDigits_count ds hdig 0 0
    rw [hds]
    simp only [List.cons_append, parseFraction]
    rw [parseDigits_digits ds hdig, parseDigits_stop _ _ _ _ hb, hc.1]
    simp only [Nat.zero_add]
    rw [if_pos ⟨hl1, hl9⟩, hval]

theorem parseZone_utc : parseZone [0x5A] = some 0 := by
  simp [parseZone]

theorem parseZone_text (offset : Int) (h1 : -86400 < offset)
    (h2 : offset < 86400) (hm : offset % 60 = 0) :
    parseZone [if offset ≤ -60 then 0x2D else 0x2B,
         48 + offset.natAbs / 3600 / 10, 48 + offset.natAbs / 3600 % 10, 0x3A,
         48 + offset.natAbs / 60 % 60 / 10, 48 + offset.natAbs / 60 % 60 % 10]
      = some offset := by
  have f1 : offset ≤ -60 → offset = -((offset.natAbs : Nat) : Int) := by omega
  have f2 : ¬ offset ≤ -60 → offset = ((offset.natAbs : Nat) : Int) := by omega
  have f3 : offset.natAbs < 86400 := by omega
  have f4 : offset.natAbs % 60 = 0 := by omega
  generalize offset.natAbs = n at *
  have t1 := twoDigits_digits (n / 3600 / 10) (n / 3600 % 10) (by omega) (by omega)
  have t2 := twoDigits_digits (n / 60 % 60 / 10) (n / 60 % 60 % 10) (by omega) (by omega)
  have hh : 10 * (n / 3600 / 10) + n / 3600 % 10 < 24 := by omega
  have hmm : 10 * (n / 60 % 60 / 10) + n / 60 % 60 % 10 < 60 := by omega
  have hv : (10 * (n / 3600 / 10) + n / 3600 % 10) * 3600
      + (10 * (n / 60 % 60 / 10) + n / 60 % 60 % 10) * 60 = n := by omega
  by_cases hneg : offset ≤ -60
  · simp only [hneg, if_true]
    unfold parseZone
    simp only [t1, t2, hh, hmm, and_self, if_true, hv]
    rw [f1 hneg]
    simp
  · simp only [hneg, if_false]
    unfold parseZone
    simp only [t1, t2, hh, hmm, and_self, if_true, hv]
    rw [f2 hneg]

theorem parseRFC3339_fields (Y M D h mi s nanos : Nat) (offset : Int) (rest zone : GoString)
    (hY : Y ≤ 9999) (hM : 1 ≤ M ∧ M ≤ 12) (hD : 1 ≤ D ∧ D ≤ daysIn (Y : Int) M)
    (hD2 : D ≤ 31) (hh : h < 24) (hmi : mi < 60) (hs : s < 60)
    (hfrac : parseFraction rest = some (nanos, zone)) (hzone : parseZone zone = some offset) :
    parseRFC3339
      ([48 + Y / 1000, 48 + Y / 100 % 10, 48 + Y / 10 % 10, 48 + Y % 10, 0x2D,
        48 + M / 10, 48 + M % 10, 0x2D, 48 + D / 10, 48 + D % 10, 0x54,
        48 + h / 10, 48 + h % 10, 0x3A, 48 + mi / 10, 48 + mi % 10, 0x3A,
        48 + s / 10, 48 + s % 10] ++ rest)
      = some (daysFromCivil (Y : Int) M D * 86400
                + ((h * 3600 + mi * 60 + s : Nat) : Int) - offset, nanos, offset) := by
  have t1 := twoDigits_digits (Y / 1000) (Y / 100 % 10) (by omega) (by omega)
  have t2 := twoDigits_digits (Y / 10 % 10) (Y % 10) (by omega) (by omega)
  have t3 := twoDigits_digits (M / 10) (M % 10) (by omega) (by omega)
  have t4 := twoDigits_digits (D / 10) (D % 10) (by omega) (by omega)
  have t5 := twoDigits_digits (h / 10) (h % 10) (by omega) (by omega)
  have t6 := twoDigits_digits (mi / 10) (mi % 10) (by omega) (by omega)
  have t7 := twoDigits_digits (s / 10) (s % 10) (by omega) (by omega)
  have e1 : 100 * (10 * (Y / 1000) + Y / 100 % 10) + (10 * (Y / 10 % 10) + Y % 10) = Y := by
    omega
  have e3 : 10 * (M / 10) + M % 10 = M := by omega
  have e4 : 10 * (D / 10) + D % 10 = D := by omega
  have e5 : 10 * (h / 10) + h % 10 = h := by omega
  have e6 : 10 * (mi / 10) + mi % 10 = mi := by omega
  have e7 : 10 * (s / 10) + s % 10 = s := by omega
  simp only [List.cons_append, List.nil_append, parseRFC3339, t1, t2, t3, t4, t5, t6, t7,
    e1, e3, e4, e5, e6, e7, hfrac, hzone]
  rw [if_pos ⟨hM.1, hM.2, hD.1, hD.2, hh, hmi, hs⟩]


/-- The text `appendFormatRFC3339` writes reads back, as an RFC 3339 timestamp, as the
instant of the time and the offset of its zone, when the local date lies in the years 0
to 9999 and the offset is a whole number of minutes, less than a day. -/
theorem parseRFC3339_format (t : Time) (hlo : -62167219200 ≤ t.unixSec + t.offset)
    (hhi : t.unixSec + t.offset < 253402300800)
    (hz1 : -86400 < t.offset) (hz2 : t.offset < 86400) (hm : t.offset % 60 = 0)
    (hn : t.nsec < 1000000000) :
    parseRFC3339 (appendFormatRFC3339 t) = some (t.unixSec, t.nsec, t.offset) := by
  have habs := Time.abs_eq t hlo hhi
  obtain ⟨n, hyear, hn1⟩ := absDate_year_range t.abs (by omega) (by omega)
  obtain ⟨m1, m2, d1, d2, hdays, _⟩ := absDate_spec t.abs
  obtain ⟨_, hd31⟩ := absDate_small t.abs
  obtain ⟨c1, c2, c3, hclock⟩ := absClock_spec t.abs
  have hY : (absDate t.abs).year.toNat = n := by rw [hyear]; simp
  rw [hyear] at d2 hdays
  have hfz : ∃ zone, (if t.offset = 0 then [0x5A]
           else [if t.offset ≤ -60 then 0x2D else 0x2B,
                 48 + t.offset.natAbs / 3600 / 10, 48 + t.offset.natAbs / 3600 % 10, 0x3A,
                 48 + t.offset.natAbs / 60 % 60 / 10, 48 + t.offset.natAbs / 60 % 60 % 10])
        = zone ∧ parseZone zone = some t.offset ∧
        parseFraction (appendNano t.nsec ++ zone) = some (t.nsec, zone) := by
    by_cases h0 : t.offset = 0
    · refine ⟨[0x5A], by simp [h0], by rw [h0]; exact parseZone_utc, ?_⟩
      exact parseFraction_nano _ _ _ hn (by omega) (by omega)
    · refine ⟨_, by rw [if_neg h0], parseZone_text _ hz1 hz2 hm, ?_⟩
      by_cases hneg : t.offset ≤ -60
      · simp only [hneg, if_true]
        exact parseFraction_nano _ _ _ hn (by omega) (by omega)
      · simp only [hneg, if_false]
        exact parseFraction_nano _ _ _ hn (by omega) (by omega)
  obtain ⟨zone, hzeq, hzp, hfp⟩ := hfz
  rw [format_text t hlo hhi hz1 hz2, hzeq, hY,
    parseRFC3339_fields n _ _ _ _ _ t.nsec t.offset _ zone hn1 ⟨m1, m2⟩ ⟨d1, d2⟩ hd31 c1 c2 c3
      hfp hzp]
  have hfinal : daysFromCivil (n : Int) (absDate t.abs).month (absDate t.abs).day * 86400
      + (((absClock t.abs).1 * 3600 + (absClock t.abs).2.1 * 60 + (absClock t.abs).2.2 : Nat) : Int)
      - t.offset = t.unixSec := by
    rw [hdays, hclock]
    omega
  rw [hfinal]


/-! ## The health endpoint -/

theorem String_whole_ascii (d : Int) (h0 : minDuration ≤ d) (h1 : d ≤ maxDuration)
    (hw : d % 1000000000 = 0) : ∀ x ∈ Duration.String d, x < 0x80 := by
  rcases lt_trichotomy d 0 with hneg | hz | hpos
  · obtain ⟨n, hn⟩ : ∃ n : Nat, -d = (n : Int) * 1000000000 :=
      ⟨(-d / 1000000000).toNat, by omega⟩
    have ht : (-d).toNat = n * 1000000000 := by omega
    obtain ⟨_, hall, _⟩ := formatMagnitude_whole n (by omega)
    rw [String_neg d hneg h0, ht]
    intro x hx
    rcases List.mem_cons.mp hx with h | h
    · omega
    · have := hall x h
      omega
  · subst hz
    decide
  · obtain ⟨n, hn⟩ : ∃ n : Nat, d = (n : Int) * 1000000000 :=
      ⟨(d / 1000000000).toNat, by omega⟩
    have ht : d.toNat = n * 1000000000 := by omega
    obtain ⟨_, hall, _⟩ := formatMagnitude_whole n (by omega)
    rw [String_nonneg d (by omega) h1, ht]
    intro x hx
    have := hall x hx
    omega

/-- The uptime text holds ASCII bytes only. -/
theorem uptime_ascii (p : Process) : ∀ x ∈ (healthResponse p).Uptime, x < 0x80 := by
  have hr := timeSince_range p.sinceClock p.startTime
  obtain ⟨a, b, hw | hmax | hmin⟩ := round_result _ hr.1 hr.2
  · exact String_whole_ascii _ a b hw
  · show ∀ x ∈ Duration.String (Duration.Round (timeSince p.sinceClock p.startTime) Second), _
    rw [hmax]; decide
  · show ∀ x ∈ Duration.String (Duration.Round (timeSince p.sinceClock p.startTime) Second), _
    rw [hmin]; decide

/-- The body `healthHandler` writes when the local date of the current time lies in the
years 0 to 9999 and the zone offset is less than a day: the four fields, each a JSON
string, and a line feed. -/
theorem healthHandler_body (p : Process) (r : Request)
    (hlo : -62167219200 ≤ p.nowClock.sec + p.nowClock.offset)
    (hhi : p.nowClock.sec + p.nowClock.offset < 253402300800)
    (hz1 : -86400 < p.nowClock.offset) (hz2 : p.nowClock.offset < 86400) :
    (healthHandler p ResponseWriter.fresh r).body
      = encodeStruct
          ([(lit "status", lit "healthy"),
            (lit "timestamp", appendFormatRFC3339 (timeNow p.nowClock)),
            (lit "version", lit "1.0.0"),
            (lit "uptime", (healthResponse p).Uptime)].map
              fun kv => (kv.1, appendString kv.2)) ++ [0x0A] := by
  obtain ⟨f1, _, f3⟩ := timeNow_fields p.nowClock
  have hs := strict_ok (timeNow p.nowClock) (by rw [f1, f3]; exact hlo)
    (by rw [f1, f3]; exact hhi) (by rw [f3]; exact hz1) (by rw [f3]; exact hz2)
  have hsafe := format_safe (timeNow p.nowClock) (by rw [f1, f3]; exact hlo)
    (by rw [f1, f3]; exact hhi) (by rw [f3]; exact hz1) (by rw [f3]; exact hz2)
  have hm : (healthResponse p).Timestamp.MarshalJSON
      = some (appendString (appendFormatRFC3339 (timeNow p.nowClock))) := by
    show (timeNow p.nowClock).MarshalJSON = _
    unfold Time.MarshalJSON
    rw [hs, appendString_safe _ hsafe]
  unfold healthHandler marshalHealthResponse
  simp only [hm]
  rfl

theorem healthHandler_decode (p : Process) (r : Request)
    (hlo : -62167219200 ≤ p.nowClock.sec + p.nowClock.offset)
    (hhi : p.nowClock.sec + p.nowClock.offset < 253402300800)
    (hz1 : -86400 < p.nowClock.offset) (hz2 : p.nowClock.offset < 86400) :
    decodeJSON (healthHandler p ResponseWriter.fresh r).body
      = some (JSON.obj
          [(lit "status", JSON.str (lit "healthy")),
           (lit "timestamp", JSON.str (appendFormatRFC3339 (timeNow p.nowClock))),
           (lit "version", JSON.str (lit "1.0.0")),
           (lit "uptime", JSON.str (healthResponse p).Uptime)]) := by
  obtain ⟨f1, _, f3⟩ := timeNow_fields p.nowClock
  have hsafe := format_safe (timeNow p.nowClock) (by rw [f1, f3]; exact hlo)
    (by rw [f1, f3]; exact hhi) (by rw [f3]; exact hz1) (by rw [f3]; exact hz2)
  rw [healthHandler_body p r hlo hhi hz1 hz2, decodeJSON_encodeStruct _ (by simp)]
  have k1 : toValidUTF8 (lit "status") = lit "status" := by decide
  have k2 : toValidUTF8 (lit "timestamp") = lit "timestamp" := by decide
  have k3 : toValidUTF8 (lit "version") = lit "version" := by decide
  have k4 : toValidUTF8 (lit "uptime") = lit "uptime" := by decide
  have v1 : toValidUTF8 (lit "healthy") = lit "healthy" := by decide
  have v3 : toValidUTF8 (lit "1.0.0") = lit "1.0.0" := by decide
  have v2 := toValidUTF8_ascii _ (fun x hx => htmlSafeSet_lt x (hsafe x hx))
  have v4 := toValidUTF8_ascii _ (uptime_ascii p)
  simp only [List.map, k1, k2, k3, k4, v1, v2, v3, v4]

/-- C3 (as the code has it): for every process state and request, `healthHandler` answers
200 with Content-Type "application/json"; and whenever the local date of the current
time lies in the years 0 to 9999 and the local zone offset is less than a day, the body
decodes as a JSON object with exactly the four members status, timestamp, version and
uptime, in which status is "healthy" and version is "1.0.0". -/
theorem healthHandler_response (p : Process) (r : Request) :
    (healthHandler p ResponseWriter.fresh r).status = some 200 ∧
    (healthHandler p ResponseWriter.fresh r).sent (lit "Content-Type")
      = some (lit "application/json") ∧
    (-62167219200 ≤ p.nowClock.sec + p.nowClock.offset →
      p.nowClock.sec + p.nowClock.offset < 253402300800 →
      -86400 < p.nowClock.offset → p.nowClock.offset < 86400 →
      ∃ timestamp uptime,
        decodeJSON (healthHandler p ResponseWriter.fresh r).body
          = some (JSON.obj
              [(lit "status", JSON.str (lit "healthy")),
               (lit "timestamp", JSON.str timestamp),
               (lit "version", JSON.str (lit "1.0.0")),
               (lit "uptime", JSON.str uptime)])) := by
  refine ⟨?_, ?_, ?_⟩
  · show (encoderEncode _ (marshalHealthResponse (healthResponse p))).status = _
    generalize marshalHealthResponse (healthResponse p) = m
    cases m <;> rfl
  · show (encoderEncode _ (marshalHealthResponse (healthResponse p))).sent _ = _
    generalize marshalHealthResponse (healthResponse p) = m
    cases m <;> rfl
  · intro hlo hhi hz1 hz2
    exact ⟨_, _, healthHandler_decode p r hlo hhi hz1 hz2⟩

/-- C3 at the Unix epoch in UTC: the body decodes to the four members. -/
theorem healthHandler_response_witness :
    decodeJSON (healthHandler sampleProcess ResponseWriter.fresh sampleRequest).body
      = some (JSON.obj
          [(lit "status", JSON.str (lit "healthy")),
           (lit "timestamp", JSON.str (lit "1970-01-01T00:00:00Z")),
           (lit "version", JSON.str (lit "1.0.0")),
           (lit "uptime", JSON.str (lit "0s"))]) ∧
    ∃ timestamp uptime,
      decodeJSON (healthHandler sampleProcess ResponseWriter.fresh sampleRequest).body
        = some (JSON.obj
            [(lit "status", JSON.str (lit "healthy")),
             (lit "timestamp", JSON.str timestamp),
             (lit "version", JSON.str (lit "1.0.0")),
             (lit "uptime", JSON.str uptime)]) :=
  ⟨by rfl, (healthHandler_response sampleProcess sampleRequest).2.2
    (by decide) (by decide) (by decide) (by decide)⟩

/-- C3 fails as stated: when the clock shows the year 10000, `Time.MarshalJSON` refuses
the time, the encoder writes nothing, and the body, sent with status 200, is empty and
is not a JSON text. -/
theorem healthHandler_year_10000 :
    (healthHandler yearTenThousandProcess ResponseWriter.fresh sampleRequest).status = some 200 ∧
    (healthHandler yearTenThousandProcess ResponseWriter.fresh sampleRequest).body = [] ∧
    decodeJSON (healthHandler yearTenThousandProcess ResponseWriter.fresh sampleRequest).body
      = none := by
  refine ⟨by decide, by decide, by rfl⟩

/-- C8 (as the code has it): for every `/health` request at which the local date lies in
the years 0 to 9999 and the local zone offset is a whole number of minutes, less than a
day, the timestamp member of the body is an RFC 3339 timestamp that denotes the current
time of the request and carries the offset of the local time zone; it is expressed in
UTC exactly when that offset is zero. -/
theorem healthHandler_timestamp (p : Process) (r : Request)
    (hlo : -62167219200 ≤ p.nowClock.sec + p.nowClock.offset)
    (hhi : p.nowClock.sec + p.nowClock.offset < 253402300800)
    (hz1 : -86400 < p.nowClock.offset) (hz2 : p.nowClock.offset < 86400)
    (hm : p.nowClock.offset % 60 = 0) (hn : p.nowClock.nsec < 1000000000) :
    ∃ timestamp uptime,
      decodeJSON (healthHandler p ResponseWriter.fresh r).body
        = some (JSON.obj
            [(lit "status", JSON.str (lit "healthy")),
             (lit "timestamp", JSON.str timestamp),
             (lit "version", JSON.str (lit "1.0.0")),
             (lit "uptime", JSON.str uptime)]) ∧
      parseRFC3339 timestamp = some (p.nowClock.sec, p.nowClock.nsec, p.nowClock.offset) ∧
      (timestamp.getLast? = some 0x5A ↔ p.nowClock.offset = 0) := by
  obtain ⟨f1, f2, f3⟩ := timeNow_fields p.nowClock
  refine ⟨_, _, healthHandler_decode p r hlo hhi hz1 hz2, ?_, ?_⟩
  · have := parseRFC3339_format (timeNow p.nowClock) (by rw [f1, f3]; exact hlo)
      (by rw [f1, f3]; exact hhi) (by rw [f3]; exact hz1) (by rw [f3]; exact hz2)
      (by rw [f3]; exact hm) (by rw [f2]; exact hn)
    rw [this, f1, f2, f3]
  · have hf := format_text (timeNow p.nowClock) (by rw [f1, f3]; exact hlo)
      (by rw [f1, f3]; exact hhi) (by rw [f3]; exact hz1) (by rw [f3]; exact hz2)
    rw [hf, f3]
    by_cases h0 : p.nowClock.offset = 0
    · simp only [h0, if_true, iff_true]
      rw [← List.append_assoc, List.getLast?_concat]
    · simp only [h0, if_false, iff_false]
      rw [← List.append_assoc]
      rw [(strict_tail _ _ _ _ _ _ _).1]
      intro h
      have := Option.some.inj h
      omega

/-- C8 at the Unix epoch in a zone one hour east of UTC: the timestamp is the local time
with the offset +01:00. -/
theorem healthHandler_timestamp_witness :
    ∃ timestamp uptime,
      decodeJSON (healthHandler plusOneHourProcess ResponseWriter.fresh sampleRequest).body
        = some (JSON.obj
            [(lit "status", JSON.str (lit "healthy")),
             (lit "timestamp", JSON.str timestamp),
             (lit "version", JSON.str (lit "1.0.0")),
             (lit "uptime", JSON.str uptime)]) ∧
      parseRFC3339 timestamp = some (plusOneHourProcess.nowClock.sec,
        plusOneHourProcess.nowClock.nsec, plusOneHourProcess.nowClock.offset) ∧
      (timestamp.getLast? = some 0x5A ↔ plusOneHourProcess.nowClock.offset = 0) :=
  healthHandler_timestamp plusOneHourProcess sampleRequest
    (by decide) (by decide) (by decide) (by decide) (by decide) (by decide)

/-- C8 fails as stated: in a zone one hour east of UTC the timestamp written at the Unix
epoch is "1970-01-01T01:00:00+01:00", local time with a nonzero offset, and not the UTC
form "1970-01-01T00:00:00Z". -/
theorem healthHandler_timestamp_local :
    decodeJSON (healthHandler plusOneHourProcess ResponseWriter.fresh sampleRequest).body
      = some (JSON.obj
          [(lit "status", JSON.str (lit "healthy")),
           (lit "timestamp", JSON.str (lit "1970-01-01T01:00:00+01:00")),
           (lit "version", JSON.str (lit "1.0.0")),
           (lit "uptime", JSON.str (lit "0s"))]) ∧
    parseRFC3339 (lit "1970-01-01T01:00:00+01:00") = some (0, 0, 3600) ∧
    lit "1970-01-01T01:00:00+01:00" ≠ lit "1970-01-01T00:00:00Z" := by
  refine ⟨by rfl, by decide, by decide⟩


/-! ## The uptime of two requests -/

theorem timeNow_mono (c : ClockReading) (m : Int) (h : (timeNow c).mono = some m) :
    m = c.mono := by
  unfold timeNow at h
  simp only at h
  split_ifs at h
  simp only [Option.some.injEq] at h
  exact h.symm

/-- What `time.Since` returns for the start time of `main`: the elapsed time, pinned to
the largest or smallest duration when it does not fit. -/
theorem timeSince_elapsed (c0 c : ClockReading) (h0 : c0.wellFormed) (h : c.wellFormed) :
    timeSince c (timeNow c0) =
      if maxDuration < elapsed c0 c then maxDuration
      else if elapsed c0 c < minDuration then minDuration
      else elapsed c0 c := by
  obtain ⟨a1, a2, a3⟩ := h0
  obtain ⟨b1, b2, b3⟩ := h
  unfold timeSince elapsed
  cases hm : (timeNow c0).mono with
  | some m =>
    have e := timeNow_mono c0 m hm
    subst e
    simp only
    unfold subMono wrapInt64
    unfold minDuration maxDuration at *
    simp only
    split_ifs <;> omega
  | none =>
    obtain ⟨f1, f2, _⟩ := timeNow_fields c
    obtain ⟨g1, g2, _⟩ := timeNow_fields c0
    simp only
    unfold Time.Sub
    rw [hm]
    generalize (timeNow c).mono = x
    rw [f1, f2, g1, g2]
    cases x <;>
    (simp only
     unfold wrapInt64 Second minDuration maxDuration at *
     split_ifs <;> omega)

/-- Rounding to the second separates a non-negative duration below the point where the
rounded value no longer fits from any duration that is a second or more larger, or that
is the largest duration. -/
theorem round_strict_sat (a b : Int) (ha : 0 ≤ a) (ha2 : a < 9223372036500000000)
    (hb : b ≤ maxDuration) (hab : a + 1000000000 ≤ b ∨ b = maxDuration) :
    Duration.Round a Second < Duration.Round b Second := by
  have ha1 : a ≤ maxDuration := by unfold maxDuration; omega
  have hb0 : 0 ≤ b := by
    rcases hab with h | h
    · omega
    · rw [h]; unfold maxDuration; omega
  rw [round_nonneg a ha ha1, round_nonneg b hb0 hb]
  unfold maxDuration at *
  split_ifs <;> omega

/-- C7 (as the code has it): `startTime` being what `main` took from the clock, for any
two `/health` requests the uptime texts denote durations, and the later elapsed time
never has the smaller one; if the first elapsed time is non-negative and below
9223372036.5 s and the second is at least a second larger, the second text denotes a
strictly larger duration and the two texts differ. -/
theorem uptime_monotone (env : Env) (c0 c1 c2 n1 n2 : ClockReading)
    (h0 : c0.wellFormed) (h1 : c1.wellFormed) (h2 : c2.wellFormed)
    (hle : elapsed c0 c1 ≤ elapsed c0 c2) :
    ∃ r1 r2 : Int,
      parseDuration (healthResponse (requestProcess env c0 c1 n1)).Uptime = some r1 ∧
      parseDuration (healthResponse (requestProcess env c0 c2 n2)).Uptime = some r2 ∧
      r1 ≤ r2 ∧
      (0 ≤ elapsed c0 c1 → elapsed c0 c1 < 9223372036500000000 →
        elapsed c0 c1 + Second ≤ elapsed c0 c2 →
        r1 < r2 ∧ (healthResponse (requestProcess env c0 c1 n1)).Uptime
          ≠ (healthResponse (requestProcess env c0 c2 n2)).Uptime) := by
  have a1 := timeSince_range c1 (timeNow c0)
  have a2 := timeSince_range c2 (timeNow c0)
  have s1 := timeSince_elapsed c0 c1 h0 h1
  have s2 := timeSince_elapsed c0 c2 h0 h2
  have e1 := parseDuration_String_round _ a1.1 a1.2
  have e2 := parseDuration_String_round _ a2.1 a2.2
  have hmono : timeSince c1 (timeNow c0) ≤ timeSince c2 (timeNow c0) := by
    rw [s1, s2]
    unfold minDuration maxDuration
    split_ifs <;> omega
  refine ⟨_, _, e1, e2, round_mono _ _ a1.1 a2.2 hmono, ?_⟩
  intro hpos hbound hs
  have t1 : timeSince c1 (timeNow c0) = elapsed c0 c1 := by
    rw [s1]
    unfold minDuration maxDuration
    split_ifs <;> omega
  have t2 : elapsed c0 c1 + 1000000000 ≤ timeSince c2 (timeNow c0)
      ∨ timeSince c2 (timeNow c0) = maxDuration := by
    rw [s2]
    unfold Second at hs
    unfold minDuration maxDuration
    split_ifs <;> omega
  have hlt := round_strict_sat (timeSince c1 (timeNow c0)) (timeSince c2 (timeNow c0))
    (by rw [t1]; exact hpos) (by rw [t1]; exact hbound) a2.2 (by rw [t1]; exact t2)
  refine ⟨hlt, ?_⟩
  intro heq
  have : parseDuration (healthResponse (requestProcess env c0 c1 n1)).Uptime
      = parseDuration (healthResponse (requestProcess env c0 c2 n2)).Uptime := by
    rw [heq]
  rw [show (healthResponse (requestProcess env c0 c1 n1)).Uptime
      = Duration.String (Duration.Round (timeSince c1 (timeNow c0)) Second) from rfl,
    show (healthResponse (requestProcess env c0 c2 n2)).Uptime
      = Duration.String (Duration.Round (timeSince c2 (timeNow c0)) Second) from rfl,
    e1, e2] at this
  have := Option.some.inj this
  omega

/-- C7 at 0.4 s and 1.4 s after the start: the uptime texts are "0s" and "1s". -/
theorem uptime_monotone_witness :
    elapsed startReading (laterReading 0 400000000) = 400000000 ∧
    elapsed startReading (laterReading 1 400000000) = 1400000000 ∧
    (healthResponse (requestProcess (fun _ => none) startReading
      (laterReading 0 400000000) (laterReading 0 400000000))).Uptime = lit "0s" ∧
    (healthResponse (requestProcess (fun _ => none) startReading
      (laterReading 1 400000000) (laterReading 1 400000000))).Uptime = lit "1s" ∧
    ∃ r1 r2 : Int,
      parseDuration (healthResponse (requestProcess (fun _ => none) startReading
        (laterReading 0 400000000) (laterReading 0 400000000))).Uptime = some r1 ∧
      parseDuration (healthResponse (requestProcess (fun _ => none) startReading
        (laterReading 1 400000000) (laterReading 1 400000000))).Uptime = some r2 ∧
      r1 ≤ r2 ∧
      (0 ≤ elapsed startReading (laterReading 0 400000000) →
        elapsed startReading (laterReading 0 400000000) < 9223372036500000000 →
        elapsed startReading (laterReading 0 400000000) + Second
          ≤ elapsed startReading (laterReading 1 400000000) →
        r1 < r2 ∧ (healthResponse (requestProcess (fun _ => none) startReading
            (laterReading 0 400000000) (laterReading 0 400000000))).Uptime
          ≠ (healthResponse (requestProcess (fun _ => none) startReading
            (laterReading 1 400000000) (laterReading 1 400000000))).Uptime) :=
  ⟨by decide, by decide, by decide, by decide,
    uptime_monotone (fun _ => none) startReading (laterReading 0 400000000)
      (laterReading 1 400000000) (laterReading 0 400000000) (laterReading 1 400000000)
      ⟨by decide, by decide, by decide⟩ ⟨by decide, by decide, by decide⟩
      ⟨by decide, by decide, by decide⟩ (by decide)⟩

/-- C7 as stated fails once the elapsed time no longer fits a duration: a server
started on 2200-01-01, whose start time carries no monotonic reading, answers two
requests made ten seconds apart in the year 2500 with the same uptime text. -/
theorem uptime_equal_when_saturated :
    year2200.wellFormed ∧ (year2500 0).wellFormed ∧ (year2500 10).wellFormed ∧
    (timeNow year2200).mono = none ∧
    0 ≤ elapsed year2200 (year2500 0) ∧
    elapsed year2200 (year2500 0) + 10 * Second = elapsed year2200 (year2500 10) ∧
    (healthResponse (requestProcess (fun _ => none) year2200 (year2500 0) (year2500 0))).Uptime
      = lit "2562047h47m16.854775807s" ∧
    (healthResponse (requestProcess (fun _ => none) year2200 (year2500 10) (year2500 10))).Uptime
      = lit "2562047h47m16.854775807s" :=
  ⟨⟨by decide, by decide, by decide⟩, ⟨by decide, by decide, by decide⟩,
    ⟨by decide, by decide, by decide⟩, by decide, by decide, by decide, by decide, by decide⟩

/-! ## Routing -/

theorem backtrackLoop_ge (out : GoString) (d : Nat) :
    ∀ w, d ≤ w → d ≤ backtrackLoop out d w := by
  intro w
  induction w with
  | zero => intro h; simpa [backtrackLoop] using h
  | succ w ih =>
    intro h
    simp only [backtrackLoop]
    split_ifs with hc
    · exact ih (by omega)
    · exact h

theorem cleanLoop_rooted_head :
    ∀ (n : Nat) (rest o : GoString),
      ∃ o1, cleanLoop true n rest (0x2F :: o) 1 = 0x2F :: o1 := by
  intro n
  induction n with
  | zero => intro rest o; exact ⟨o, by simp [cleanLoop]⟩
  | succ n ih =>
    intro rest o
    cases rest with
    | nil => exact ⟨o, by simp [cleanLoop]⟩
    | cons c rest =>
      simp only [cleanLoop]
      by_cases h1 : c = 0x2F
      · rw [if_pos h1]; exact ih _ _
      · rw [if_neg h1]
        by_cases h2 : c = 0x2E ∧ (rest = [] ∨ rest.head? = some 0x2F)
        · rw [if_pos h2]; exact ih _ _
        · rw [if_neg h2]
          by_cases h3 : c = 0x2E ∧ rest.head? = some 0x2E
              ∧ (rest.tail = [] ∨ rest.tail.head? = some 0x2F)
          · rw [if_pos h3]
            by_cases h4 : (0x2F :: o).length > 1
            · rw [if_pos h4]
              have hk := backtrackLoop_ge (0x2F :: o) 1 ((0x2F :: o).length - 1) (by omega)
              obtain ⟨k, hk2⟩ :
                  ∃ k, backtrackLoop (0x2F :: o) 1 ((0x2F :: o).length - 1) = k + 1 :=
                ⟨_, (Nat.sub_add_cancel hk).symm⟩
              rw [hk2, List.take_succ_cons]
              exact ih _ _
            · rw [if_neg h4, if_neg (by simp)]
              exact ih _ _
          · rw [if_neg h3]
            split_ifs
            · simp only [List.cons_append]; exact ih _ _
            · simp only [List.cons_append]; exact ih _ _

theorem pathClean_rooted_head (q : GoString) : ∃ t, pathClean (0x2F :: q) = 0x2F :: t := by
  obtain ⟨o1, ho⟩ := cleanLoop_rooted_head (0x2F :: q).length q []
  unfold pathClean
  simp only [List.head?_cons, decide_True, if_true, List.tail_cons, ho]
  simp

theorem cleanPath_rooted (q : GoString) : ∃ t, cleanPath (0x2F :: q) = 0x2F :: t := by
  obtain ⟨t, ht⟩ := pathClean_rooted_head q
  unfold cleanPath
  simp only [List.head?_cons, ne_eq, not_true_eq_false, if_false, ht]
  rw [if_neg (by simp)]
  split_ifs
  · exact ⟨_, rfl⟩
  · exact ⟨_, rfl⟩
  · exact ⟨_, rfl⟩

/-- A cleaned request path begins with a slash. -/
theorem cleanPath_head (p : GoString) : ∃ t, cleanPath p = 0x2F :: t := by
  cases p with
  | nil => exact ⟨[], by simp [cleanPath]⟩
  | cons a q =>
    by_cases ha : a = 0x2F
    · subst ha; exact cleanPath_rooted q
    · obtain ⟨t, ht⟩ := pathClean_rooted_head (a :: q)
      unfold cleanPath
      have hh : (a :: q).head? ≠ some 0x2F := by simp [ha]
      simp only [hh, ne_eq, not_false_eq_true, if_true, ht]
      rw [if_neg (by simp)]
      split_ifs
      · exact ⟨_, rfl⟩
      · exact ⟨_, rfl⟩
      · exact ⟨_, rfl⟩

theorem mainMux_patterns : mainMux.patterns =
    [(⟨[0x2F], [], true⟩, Handler.home),
     (⟨[0x2F, 104, 101, 97, 108, 116, 104], [[104, 101, 97, 108, 116, 104]], false⟩, Handler.health),
     (⟨[0x2F, 114, 101, 97, 100, 121], [[114, 101, 97, 100, 121]], false⟩, Handler.ready),
     (⟨[0x2F, 97, 112, 105, 0x2F, 105, 110, 102, 111], [[97, 112, 105], [105, 110, 102, 111]], false⟩,
       Handler.info)] := by
  decide

theorem unescape_no_percent : ∀ s : GoString, 0x25 ∉ s → unescape s = some s := by
  intro s
  induction s with
  | nil => intro _; rfl
  | cons c rest ih =>
    intro h
    have hc : c ≠ 0x25 := fun e => h (by rw [e]; exact List.mem_cons_self _ _)
    have hr : 0x25 ∉ rest := fun e => h (List.mem_cons_of_mem _ e)
    unfold unescape
    rw [if_neg hc, ih hr]
    rfl

theorem pathUnescape_no_percent (s : GoString) (h : 0x25 ∉ s) : pathUnescape s = s := by
  unfold pathUnescape
  rw [unescape_no_percent s h]

theorem dropWhile_slash (t : GoString) :
    t.dropWhile (fun b => decide (b ≠ 0x2F)) = [] ∨
    ∃ t2, t.dropWhile (fun b => decide (b ≠ 0x2F)) = 0x2F :: t2 := by
  induction t with
  | nil => left; rfl
  | cons c rest ih =>
    by_cases hc : c = 0x2F
    · right
      exact ⟨rest, by simp [List.dropWhile, hc]⟩
    · simpa [List.dropWhile, hc] using ih

theorem firstSegment_cons (t : GoString) (ht : t ≠ []) (hp : 0x25 ∉ t) :
    firstSegment (0x2F :: t)
      = (t.takeWhile (fun b => decide (b ≠ 0x2F)), t.dropWhile (fun b => decide (b ≠ 0x2F))) := by
  unfold firstSegment
  have h1 : (0x2F :: t : GoString) ≠ [0x2F] := by simpa using ht
  rw [if_neg h1]
  simp only [List.tail_cons]
  rw [pathUnescape_no_percent]
  intro hm
  exact hp ((List.takeWhile_prefix _).subset hm)

/-- A walk that starts below a registered leaf finds nothing. -/
theorem matchPath_leaf (n : Nat) (node : List GoString) (path : GoString)
    (hnode : node = [[104, 101, 97, 108, 116, 104]] ∨ node = [[114, 101, 97, 100, 121]]
      ∨ node = [[97, 112, 105], [105, 110, 102, 111]])
    (hpath : path ≠ []) :
    matchPath mainMux.patterns n node path = none := by
  cases n with
  | zero => rfl
  | succ n =>
    rw [mainMux_patterns]
    unfold matchPath
    rw [if_neg hpath]
    rcases hnode with h | h | h <;> subst h <;> simp

/-- The walk from the node for the segment "api": only the rest "/info" finds a
pattern. -/
theorem matchPath_api (n : Nat) (t2 : GoString) (hp : 0x25 ∉ t2) :
    matchPath mainMux.patterns (n + 2) [[97, 112, 105]] (0x2F :: t2)
      = if t2 = [105, 110, 102, 111] then
          some (⟨[0x2F, 97, 112, 105, 0x2F, 105, 110, 102, 111],
            [[97, 112, 105], [105, 110, 102, 111]], false⟩, Handler.info)
        else none := by
  have hsplit := List.takeWhile_append_dropWhile (fun b => decide (b ≠ 0x2F)) t2
  have hconv : t2 = [105, 110, 102, 111] →
      t2.takeWhile (fun b => decide (b ≠ 0x2F)) = [105, 110, 102, 111] ∧
      t2.dropWhile (fun b => decide (b ≠ 0x2F)) = [] := by
    intro e
    rw [e]
    exact ⟨rfl, rfl⟩
  unfold matchPath
  rw [if_neg (List.cons_ne_nil _ _)]
  by_cases ht : t2 = []
  · subst ht
    rw [mainMux_patterns]
    simp [firstSegment]
  · rw [firstSegment_cons t2 ht hp]
    simp only
    generalize t2.takeWhile (fun b => decide (b ≠ 0x2F)) = tw at hsplit hconv ⊢
    generalize t2.dropWhile (fun b => decide (b ≠ 0x2F)) = dw at hsplit hconv ⊢
    by_cases hseg : tw = [105, 110, 102, 111]
    · subst hseg
      have hc : (([105, 110, 102, 111] : GoString) ≠ [] ∧
          mainMux.patterns.any (fun e =>
            ([[97, 112, 105]] ++ [[105, 110, 102, 111]]).isPrefixOf e.1.segments) = true) := by
        rw [mainMux_patterns]
        decide
      rw [if_pos hc]
      by_cases hd : dw = []
      · subst hd
        have e : t2 = [105, 110, 102, 111] := by rw [← hsplit]; rfl
        rw [if_pos e]
        rw [mainMux_patterns]
        rfl
      · have hl := matchPath_leaf (n + 1) ([[97, 112, 105]] ++ [[105, 110, 102, 111]]) dw
          (Or.inr (Or.inr rfl)) hd
        rw [hl]
        have e : t2 ≠ [105, 110, 102, 111] := fun e => hd (hconv e).2
        rw [if_neg e]
        rw [mainMux_patterns]
        rfl
    · have e : t2 ≠ [105, 110, 102, 111] := fun e => hseg (hconv e).1
      rw [if_neg e]
      rw [mainMux_patterns]
      simp [hseg]

/-- The match of the multiplexer of `main` for a rooted path without percent-escapes. -/
theorem match_main (t : GoString) (hp : 0x25 ∉ t) :
    mainMux.match (0x2F :: t) = some
      (if t = [104, 101, 97, 108, 116, 104] then
        (⟨[0x2F, 104, 101, 97, 108, 116, 104], [[104, 101, 97, 108, 116, 104]], false⟩,
          Handler.health)
      else if t = [114, 101, 97, 100, 121] then
        (⟨[0x2F, 114, 101, 97, 100, 121], [[114, 101, 97, 100, 121]], false⟩, Handler.ready)
      else if t = [97, 112, 105, 0x2F, 105, 110, 102, 111] then
        (⟨[0x2F, 97, 112, 105, 0x2F, 105, 110, 102, 111],
          [[97, 112, 105], [105, 110, 102, 111]], false⟩, Handler.info)
      else (⟨[0x2F], [], true⟩, Handler.home)) := by
  have hsplit := List.takeWhile_append_dropWhile (fun b => decide (b ≠ 0x2F)) t
  have hdw := dropWhile_slash t
  have hpd : 0x25 ∉ t.dropWhile (fun b => decide (b ≠ 0x2F)) :=
    fun h => hp ((List.dropWhile_suffix _).subset h)
  have c1 : t = [104, 101, 97, 108, 116, 104] →
      t.takeWhile (fun b => decide (b ≠ 0x2F)) = [104, 101, 97, 108, 116, 104] ∧
      t.dropWhile (fun b => decide (b ≠ 0x2F)) = [] := by
    intro e; rw [e]; exact ⟨rfl, rfl⟩
  have c2 : t = [114, 101, 97, 100, 121] →
      t.takeWhile (fun b => decide (b ≠ 0x2F)) = [114, 101, 97, 100, 121] ∧
      t.dropWhile (fun b => decide (b ≠ 0x2F)) = [] := by
    intro e; rw [e]; exact ⟨rfl, rfl⟩
  have c3 : t = [97, 112, 105, 0x2F, 105, 110, 102, 111] →
      t.takeWhile (fun b => decide (b ≠ 0x2F)) = [97, 112, 105] ∧
      t.dropWhile (fun b => decide (b ≠ 0x2F)) = [0x2F, 105, 110, 102, 111] := by
    intro e; rw [e]; exact ⟨rfl, rfl⟩
  unfold ServeMux.match
  unfold matchPath
  rw [if_neg (List.cons_ne_nil _ _)]
  by_cases ht : t = []
  · subst ht
    rw [mainMux_patterns]
    simp [firstSegment]
  · obtain ⟨k, hk⟩ : ∃ k, t.length = k + 1 :=
      ⟨t.length - 1, by have := List.length_pos.mpr ht; omega⟩
    rw [firstSegment_cons t ht hp]
    simp only [List.length_cons, hk, List.nil_append]
    generalize t.takeWhile (fun b => decide (b ≠ 0x2F)) = tw at hsplit c1 c2 c3 ⊢
    generalize t.dropWhile (fun b => decide (b ≠ 0x2F)) = dw at hsplit hdw hpd c1 c2 c3 ⊢
    by_cases h1 : tw = [104, 101, 97, 108, 116, 104]
    · subst h1
      have hc : (([104, 101, 97, 108, 116, 104] : GoString) ≠ [] ∧
          mainMux.patterns.any (fun e =>
            ([[104, 101, 97, 108, 116, 104]] : List GoString).isPrefixOf e.1.segments) = true) := by
        rw [mainMux_patterns]
        decide
      rw [if_pos hc]
      by_cases hd : dw = []
      · subst hd
        have e : t = [104, 101, 97, 108, 116, 104] := by rw [← hsplit]; rfl
        rw [if_pos e, mainMux_patterns]
        rfl
      · rw [matchPath_leaf _ _ dw (Or.inl rfl) hd]
        have e1 : t ≠ [104, 101, 97, 108, 116, 104] := fun e => hd (c1 e).2
        have e2 : t ≠ [114, 101, 97, 100, 121] := fun e => by
          have := (c2 e).1
          exact absurd this (by decide)
        have e3 : t ≠ [97, 112, 105, 0x2F, 105, 110, 102, 111] := fun e => by
          have := (c3 e).1
          exact absurd this (by decide)
        rw [if_neg e1, if_neg e2, if_neg e3, mainMux_patterns]
        rfl
    · have e1 : t ≠ [104, 101, 97, 108, 116, 104] := fun e => h1 (c1 e).1
      rw [if_neg e1]
      by_cases h2 : tw = [114, 101, 97, 100, 121]
      · subst h2
        have hc : (([114, 101, 97, 100, 121] : GoString) ≠ [] ∧
            mainMux.patterns.any (fun e =>
              ([[114, 101, 97, 100, 121]] : List GoString).isPrefixOf e.1.segments) = true) := by
          rw [mainMux_patterns]
          decide
        rw [if_pos hc]
        by_cases hd : dw = []
        · subst hd
          have e : t = [114, 101, 97, 100, 121] := by rw [← hsplit]; rfl
          rw [if_pos e, mainMux_patterns]
          rfl
        · rw [matchPath_leaf _ _ dw (Or.inr (Or.inl rfl)) hd]
          have e2 : t ≠ [114, 101, 97, 100, 121] := fun e => hd (c2 e).2
          have e3 : t ≠ [97, 112, 105, 0x2F, 105, 110, 102, 111] := fun e => by
            have := (c3 e).1
            exact absurd this (by decide)
          rw [if_neg e2, if_neg e3, mainMux_patterns]
          rfl
      · have e2 : t ≠ [114, 101, 97, 100, 121] := fun e => h2 (c2 e).1
        rw [if_neg e2]
        by_cases h3 : tw = [97, 112, 105]
        · subst h3
          have hc : (([97, 112, 105] : GoString) ≠ [] ∧
              mainMux.patterns.any (fun e =>
                ([[97, 112, 105]] : List GoString).isPrefixOf e.1.segments) = true) := by
            rw [mainMux_patterns]
            decide
          rw [if_pos hc]
          rcases hdw with hd | ⟨t2, hd⟩
          · subst hd
            have e3 : t ≠ [97, 112, 105, 0x2F, 105, 110, 102, 111] := fun e => by
              have := (c3 e).2
              exact absurd this (by decide)
            rw [if_neg e3, mainMux_patterns]
            rfl
          · subst hd
            have hp2 : 0x25 ∉ t2 := fun h => hpd (List.mem_cons_of_mem _ h)
            rw [matchPath_api k t2 hp2]
            by_cases h4 : t2 = [105, 110, 102, 111]
            · subst h4
              have e : t = [97, 112, 105, 0x2F, 105, 110, 102, 111] := by rw [← hsplit]; rfl
              rw [if_pos e, if_pos rfl]
            · have e3 : t ≠ [97, 112, 105, 0x2F, 105, 110, 102, 111] := fun e => by
                have := (c3 e).2
                exact h4 (List.cons.inj this).2
              rw [if_neg e3, if_neg h4, mainMux_patterns]
              rfl
        · have e3 : t ≠ [97, 112, 105, 0x2F, 105, 110, 102, 111] := fun e => h3 (c3 e).1
          rw [if_neg e3, mainMux_patterns]
          simp [h1, h2, h3]

/-- With the routes of `main`, no rooted path is redirected to itself with a slash
added. -/
theorem matchOrRedirect_main (t : GoString) (hp : 0x25 ∉ t) (u : Option GoString) :
    mainMux.matchOrRedirect (0x2F :: t) u = (mainMux.match (0x2F :: t), none) := by
  unfold ServeMux.matchOrRedirect
  cases u with
  | none => rfl
  | some up =>
    simp only
    have hp2 : 0x25 ∉ t ++ [0x2F] := by
      intro h
      rcases List.mem_append.mp h with h | h
      · exact hp h
      · simp at h
    have hlast : ∀ l : GoString, l.getLast? ≠ some 0x2F → t ++ [0x2F] ≠ l := by
      intro l hl e
      apply hl
      rw [← e]
      simp
    have hm : mainMux.match (0x2F :: t ++ [0x2F])
        = some (⟨[0x2F], [], true⟩, Handler.home) := by
      have := match_main (t ++ [0x2F]) hp2
      rw [if_neg (hlast _ (by decide)), if_neg (hlast _ (by decide)),
        if_neg (hlast _ (by decide))] at this
      exact this
    have hex : exactMatch (mainMux.match (0x2F :: t ++ [0x2F])) (0x2F :: t ++ [0x2F])
        = false := by
      rw [hm]
      simp [exactMatch]
    rw [hex]
    simp

/-- The handler the routes of `main` give a request whose path, as sent, is in canonical
form and has no percent-escapes. -/
theorem findHandler_main (r : Request)
    (hclean : cleanPath r.escapedPath = r.escapedPath) (hesc : 0x25 ∉ r.escapedPath) :
    (mainMux.findHandler r).1 =
      (if r.escapedPath = lit "/health" then Handler.health
       else if r.escapedPath = lit "/ready" then Handler.ready
       else if r.escapedPath = lit "/api/info" then Handler.info
       else Handler.home) := by
  obtain ⟨t, ht⟩ := cleanPath_head r.escapedPath
  rw [hclean] at ht
  have hp : 0x25 ∉ t := fun h => hesc (by rw [ht]; exact List.mem_cons_of_mem _ h)
  have e1 : lit "/health" = 0x2F :: [104, 101, 97, 108, 116, 104] := by decide
  have e2 : lit "/ready" = 0x2F :: [114, 101, 97, 100, 121] := by decide
  have e3 : lit "/api/info" = 0x2F :: [97, 112, 105, 0x2F, 105, 110, 102, 111] := by decide
  unfold ServeMux.findHandler
  rw [hclean, ht, e1, e2, e3]
  simp only [matchOrRedirect_main t hp, match_main t hp, ne_eq, not_true_eq_false, if_false,
    List.cons.injEq, true_and]
  split_ifs <;> rfl

/-- C10 (as the code has it): for every request, whatever its method, whose path as sent
is in canonical form (the path cleaning of the multiplexer leaves it as it is) and has
no percent-escapes, the path "/health" selects `healthHandler`, "/ready" selects
`readyHandler`, "/api/info" selects `infoHandler`, and every other path selects
`homeHandler`, which answers with status 200; the selection is the same for every
method. -/
theorem route_dispatch (r : Request)
    (hclean : cleanPath r.escapedPath = r.escapedPath) (hesc : 0x25 ∉ r.escapedPath) :
    (mainMux.findHandler r).1 =
      (if r.escapedPath = lit "/health" then Handler.health
       else if r.escapedPath = lit "/ready" then Handler.ready
       else if r.escapedPath = lit "/api/info" then Handler.info
       else Handler.home) ∧
    (r.escapedPath ≠ lit "/health" → r.escapedPath ≠ lit "/ready" →
      r.escapedPath ≠ lit "/api/info" →
      (mainMux.findHandler r).1 = Handler.home ∧
      ∀ p : Process, (homeHandler p ResponseWriter.fresh r).status = some 200) ∧
    (∀ method : GoString,
      (mainMux.findHandler { r with method := method }).1 = (mainMux.findHandler r).1) := by
  have h := findHandler_main r hclean hesc
  refine ⟨h, ?_, ?_⟩
  · intro n1 n2 n3
    rw [if_neg n1, if_neg n2, if_neg n3] at h
    exact ⟨h, fun _ => rfl⟩
  · intro method
    rw [h]
    exact findHandler_main { r with method := method } hclean hesc

/-- C10 at `GET /nope`: the path is canonical and `homeHandler` is selected. -/
theorem route_dispatch_witness :
    cleanPath (lit "/nope") = lit "/nope" ∧
    (mainMux.findHandler (requestFor (lit "GET") (lit "/nope"))).1 = Handler.home :=
  ⟨by decide,
    ((route_dispatch (requestFor (lit "GET") (lit "/nope")) (by decide) (by decide)).2.1
      (by decide) (by decide) (by decide)).1⟩

/-- C10 fails as stated: the unregistered path "//nope" of a `GET` request does not
select `homeHandler`; the multiplexer answers it with a redirect to "/nope". And a path
sent as "/%68ealth", which is not the text "/health", selects `healthHandler`. -/
theorem route_unclean_not_home :
    (mainMux.findHandler (requestFor (lit "GET") (lit "//nope"))).1
      = Handler.redirect (lit "/nope") ∧
    (mainMux.findHandler (requestFor (lit "GET") (lit "//nope"))).1 ≠ Handler.home ∧
    (escapedRequest (lit "/%68ealth") (lit "/health")).escapedPath ≠ lit "/health" ∧
    (mainMux.findHandler (escapedRequest (lit "/%68ealth") (lit "/health"))).1
      = Handler.health := by
  decide

end S2iGo
